import Mathlib

/-!
# Ruby code generator for protocol buffers: a verification development

Shallow embedding of `ext/ruby_generator/RubyGenerator.cpp`.  The generator walks a
descriptor tree and writes Ruby source text through an `io::Printer`.

* member state of `RubyGenerator` (`file_`, `context_`, `filename`, `ns_vector`,
  `printer_`) is passed explicitly: every `Print…` method is a function
  `RubyGenerator → RubyGenerator`;
* `for (i = 0; i < x_count(); i++) f(x(i))` is a left fold over the list of the `x(i)`;
* pointers into the descriptor pool are followed through the only accessor the
  generator uses on them (`full_name()`), kept in a `TypeRef`.
-/

namespace Ruby

/-! ## Text primitives of the protobuf runtime -/

/-- Decimal text of an integer, as `SimpleItoa` of the protobuf string utilities
renders the 32 and 64 bit integers: a minus sign for negative numbers, then the
decimal digits without leading zeros. -/
def SimpleItoa (i : Int) : String :=
  match i with
  | Int.ofNat n => String.mk (Nat.toDigits 10 n)
  | Int.negSucc n => String.mk ('-' :: Nat.toDigits 10 (n + 1))

/-- Scanning loop of `strings::Substitute` called with one argument: `$0` is
replaced by the argument, `$$` by a dollar sign, every other character is copied.
(The formats of this generator contain no other `$` sequence.) -/
def SubstituteFrom (arg0 : String) : List Char → String → String
  | [], acc => acc
  | '$' :: '0' :: rest, acc => SubstituteFrom arg0 rest (acc ++ arg0)
  | '$' :: '$' :: rest, acc => SubstituteFrom arg0 rest (acc.push '$')
  | c :: rest, acc => SubstituteFrom arg0 rest (acc.push c)

/-- The call `strings::Substitute(format, arg0)`. -/
def Substitute (format : String) (arg0 : String) : String :=
  SubstituteFrom arg0 format.toList ""

/-- Pieces of a character sequence between the occurrences of a separator
(empty pieces included, so there is always at least one piece). -/
def splitOnChar (sep : Char) : List Char → List (List Char)
  | [] => [[]]
  | c :: cs =>
    if c = sep then [] :: splitOnChar sep cs
    else
      match splitOnChar sep cs with
      | [] => [[c]]
      | w :: ws => (c :: w) :: ws

/-- The call `SplitStringUsing(full, delim, &result)` for a one-character
delimiter: the non-empty pieces, in order. -/
def SplitStringUsing (full : String) (delim : Char) : List String :=
  ((splitOnChar delim full.toList).filter (fun w => !w.isEmpty)).map String.mk

/-! ## `io::Printer` -/

/-- One level of indentation is two spaces. -/
def indentText (n : Nat) : String := String.mk (List.replicate (2 * n) ' ')

/-- A call of `Indent()` or `Outdent()`. -/
inductive IndentCall where
  | indent
  | outdent
  deriving DecidableEq, Repr

/-- State of an `io::Printer` together with the output stream it writes to.

* `out` is the text the stream has accepted, `room` the number of bytes it still
  accepts before refusing a buffer (`none`: it never refuses);
* `indent_` counts the two-space levels of the indent string;
* `calls` is the history of `Indent()`/`Outdent()` calls, oldest first.  The code
  never reads it; it is kept to state balance properties. -/
structure Printer where
  out : String
  room : Option Nat
  indent_ : Nat
  at_start_of_line_ : Bool
  failed_ : Bool
  calls : List IndentCall

/-- The variable delimiter `Generate` constructs its printer with. -/
def variable_delimiter_ : Char := '$'

/-- A printer on a freshly opened stream. -/
def Printer.new (room : Option Nat) : Printer :=
  { out := "", room := room, indent_ := 0, at_start_of_line_ := true, failed_ := false,
    calls := [] }

/-- The characters at the head of a text whose bytes (UTF-8) fit into `r` bytes. -/
def takeBytes : List Char → Nat → List Char
  | [], _ => []
  | c :: cs, r => if c.utf8Size ≤ r then c :: takeBytes cs (r - c.utf8Size) else []

/-- Copy of bytes into the stream buffers: everything when it fits, otherwise the
part that fits, and the printer is marked failed.  The size of a text is the number
of its bytes; of the part that fits `out` keeps the whole characters. -/
def Printer.copy (p : Printer) (data : String) : Printer :=
  match p.room with
  | none => { p with out := p.out ++ data }
  | some r =>
    if data.utf8ByteSize ≤ r then
      { p with out := p.out ++ data, room := some (r - data.utf8ByteSize) }
    else
      { p with out := p.out ++ String.mk (takeBytes data.toList r), room := some 0,
               failed_ := true }

/-- `Printer::WriteRaw`: nothing happens for an empty write or on a failed printer;
otherwise the indent is inserted first when the printer is at the start of a line.
(The two early returns are tested in the order empty, failed; they commute.) -/
def Printer.WriteRaw (p : Printer) (data : String) : Printer :=
  if data = "" then p
  else if p.failed_ then p
  else
    let q := if p.at_start_of_line_ then
        ({ p with at_start_of_line_ := false }).copy (indentText p.indent_) else p
    if q.failed_ then q else q.copy data

/-- `Printer::Indent`. -/
def Printer.Indent (p : Printer) : Printer :=
  { p with indent_ := p.indent_ + 1, calls := p.calls ++ [IndentCall.indent] }

/-- `Printer::Outdent`: without a matching `Indent` the indent stays empty. -/
def Printer.Outdent (p : Printer) : Printer :=
  if p.indent_ = 0 then { p with calls := p.calls ++ [IndentCall.outdent] }
  else { p with indent_ := p.indent_ - 1, calls := p.calls ++ [IndentCall.outdent] }

/-- Variables of a `Print` call (`map<string,string>`), latest assignment first. -/
abbrev VarMap := List (String × String)

/-- The assignment `data[key] = value`. -/
def VarMap.set (data : VarMap) (key value : String) : VarMap := (key, value) :: data

/-- Replacement of a variable by its value; an undefined variable writes nothing. -/
def Printer.WriteVar (p : Printer) (vars : VarMap) (varname : String) : Printer :=
  match vars.lookup varname with
  | some value => p.WriteRaw value
  | none => p

/-- Where the scan of a template stands: in literal text not yet written, or
inside a variable name. -/
inductive Scan where
  | text (pending : String)
  | name (varname : String)

/-- The loop of `Printer::Print` over the characters of the template.  A newline
flushes the pending text and marks the start of a line; a delimiter flushes it and
opens a variable name; the closing delimiter writes the value of the variable (two
delimiters in a row write one delimiter).  Values are written raw: they are not
scanned.  Every template of this generator closes its variables; for an unclosed
one the scan stops. -/
def Printer.scan (vars : VarMap) : List Char → Scan → Printer → Printer
  | [], .text pending, p => p.WriteRaw pending
  | [], .name _, p => p
  | c :: cs, .text pending, p =>
    if c = '\n' then
      scan vars cs (.text "") { p.WriteRaw (pending.push c) with at_start_of_line_ := true }
    else if c = variable_delimiter_ then scan vars cs (.name "") (p.WriteRaw pending)
    else scan vars cs (.text (pending.push c)) p
  | c :: cs, .name varname, p =>
    if c = variable_delimiter_ then
      scan vars cs (.text "")
        (if varname = "" then p.WriteRaw (String.singleton variable_delimiter_)
         else p.WriteVar vars varname)
    else scan vars cs (.name (varname.push c)) p

/-- `Printer::Print(variables, text)`. -/
def Printer.Print (p : Printer) (vars : VarMap) (text : String) : Printer :=
  p.scan vars text.toList (.text "")

/-! ## Descriptors -/

/-- A pointer to a message or enum descriptor, seen through `full_name()`, the only
accessor the generator applies to it. -/
structure TypeRef where
  full_name : String
  deriving DecidableEq, Repr

/-- `EnumValueDescriptor`; `type` is the enum the value belongs to. -/
structure EnumValueDescriptor where
  name : String
  full_name : String
  number : Int
  type : TypeRef
  deriving DecidableEq, Repr

/-- `EnumDescriptor`; `value` lists `value(0)`, …, `value(value_count() - 1)`. -/
structure EnumDescriptor where
  name : String
  full_name : String
  value : List EnumValueDescriptor
  deriving DecidableEq, Repr

/-- `FieldDescriptor::Label`. -/
inductive Label where
  | LABEL_OPTIONAL
  | LABEL_REQUIRED
  | LABEL_REPEATED
  deriving DecidableEq, Repr

/-- `FieldDescriptor::Type`.  The enum, group and message tags carry what
`enum_type()` and `message_type()` return for them (non-null exactly there). -/
inductive FieldType where
  | TYPE_DOUBLE
  | TYPE_FLOAT
  | TYPE_INT64
  | TYPE_UINT64
  | TYPE_INT32
  | TYPE_FIXED64
  | TYPE_FIXED32
  | TYPE_BOOL
  | TYPE_STRING
  | TYPE_GROUP (message_type : TypeRef)
  | TYPE_MESSAGE (message_type : TypeRef)
  | TYPE_BYTES
  | TYPE_UINT32
  | TYPE_ENUM (enum_type : EnumDescriptor)
  | TYPE_SFIXED32
  | TYPE_SFIXED64
  | TYPE_SINT32
  | TYPE_SINT64
  deriving DecidableEq, Repr

/-- `FieldDescriptor::CppType`. -/
inductive CppType where
  | CPPTYPE_INT32
  | CPPTYPE_INT64
  | CPPTYPE_UINT32
  | CPPTYPE_UINT64
  | CPPTYPE_DOUBLE
  | CPPTYPE_FLOAT
  | CPPTYPE_BOOL
  | CPPTYPE_ENUM
  | CPPTYPE_STRING
  | CPPTYPE_MESSAGE
  deriving DecidableEq, Repr

/-- The table `kTypeToCppTypeMap` of the descriptor library. -/
def FieldType.cpp_type : FieldType → CppType
  | .TYPE_DOUBLE => .CPPTYPE_DOUBLE
  | .TYPE_FLOAT => .CPPTYPE_FLOAT
  | .TYPE_INT64 => .CPPTYPE_INT64
  | .TYPE_UINT64 => .CPPTYPE_UINT64
  | .TYPE_INT32 => .CPPTYPE_INT32
  | .TYPE_FIXED64 => .CPPTYPE_UINT64
  | .TYPE_FIXED32 => .CPPTYPE_UINT32
  | .TYPE_BOOL => .CPPTYPE_BOOL
  | .TYPE_STRING => .CPPTYPE_STRING
  | .TYPE_GROUP _ => .CPPTYPE_MESSAGE
  | .TYPE_MESSAGE _ => .CPPTYPE_MESSAGE
  | .TYPE_BYTES => .CPPTYPE_STRING
  | .TYPE_UINT32 => .CPPTYPE_UINT32
  | .TYPE_ENUM _ => .CPPTYPE_ENUM
  | .TYPE_SFIXED32 => .CPPTYPE_INT32
  | .TYPE_SFIXED64 => .CPPTYPE_INT64
  | .TYPE_SINT32 => .CPPTYPE_INT32
  | .TYPE_SINT64 => .CPPTYPE_INT64

/-- A floating point default, carried by the text that `SimpleDtoa` (for a double)
or `SimpleFtoa` (for a float) renders for it. -/
structure FloatValue where
  rendered : String
  deriving DecidableEq, Repr

/-- The union holding the default value of a field. -/
inductive DefaultValue where
  | int32 (v : Int)
  | int64 (v : Int)
  | uint32 (v : Nat)
  | uint64 (v : Nat)
  | double (v : FloatValue)
  | float (v : FloatValue)
  | bool (v : Bool)
  | enum (v : EnumValueDescriptor)
  | string (v : String)
  deriving DecidableEq, Repr

/-- `FieldOptions`, as far as the generator reads it. -/
structure FieldOptions where
  has_packed : Bool
  packed : Bool
  has_deprecated : Bool
  deprecated : Bool
  deriving DecidableEq, Repr

/-- `FieldDescriptor`.  `containing_type` is the message the field belongs to: for
an extension, the extended message, not the scope it is declared in. -/
structure FieldDescriptor where
  name : String
  lowercase_name : String
  number : Int
  label : Label
  type : FieldType
  containing_type : TypeRef
  is_extension : Bool
  has_default_value : Bool
  default_value : DefaultValue
  options : FieldOptions
  deriving DecidableEq, Repr

namespace FieldDescriptor

def is_required (d : FieldDescriptor) : Bool := d.label = Label.LABEL_REQUIRED

def is_optional (d : FieldDescriptor) : Bool := d.label = Label.LABEL_OPTIONAL

def is_repeated (d : FieldDescriptor) : Bool := d.label = Label.LABEL_REPEATED

def cpp_type (d : FieldDescriptor) : CppType := d.type.cpp_type

/-- `IsTypePackable` of the descriptor library. -/
def IsTypePackable : FieldType → Bool
  | .TYPE_STRING => false
  | .TYPE_GROUP _ => false
  | .TYPE_MESSAGE _ => false
  | .TYPE_BYTES => false
  | _ => true

def is_packable (d : FieldDescriptor) : Bool := d.is_repeated && IsTypePackable d.type

/-! The typed accessors of the default-value union.  Each is meant for a field of
the matching `cpp_type`; on another member of the union the model returns a fixed
value. -/

def default_value_int32 (d : FieldDescriptor) : Int :=
  match d.default_value with
  | .int32 v => v
  | _ => 0

def default_value_int64 (d : FieldDescriptor) : Int :=
  match d.default_value with
  | .int64 v => v
  | _ => 0

def default_value_uint32 (d : FieldDescriptor) : Nat :=
  match d.default_value with
  | .uint32 v => v
  | _ => 0

def default_value_uint64 (d : FieldDescriptor) : Nat :=
  match d.default_value with
  | .uint64 v => v
  | _ => 0

def default_value_double (d : FieldDescriptor) : FloatValue :=
  match d.default_value with
  | .double v => v
  | _ => ⟨"0"⟩

def default_value_float (d : FieldDescriptor) : FloatValue :=
  match d.default_value with
  | .float v => v
  | _ => ⟨"0"⟩

def default_value_bool (d : FieldDescriptor) : Bool :=
  match d.default_value with
  | .bool v => v
  | _ => false

def default_value_enum (d : FieldDescriptor) : EnumValueDescriptor :=
  match d.default_value with
  | .enum v => v
  | _ => ⟨"", "", 0, ⟨""⟩⟩

def default_value_string (d : FieldDescriptor) : String :=
  match d.default_value with
  | .string v => v
  | _ => ""

end FieldDescriptor

/-- `SimpleDtoa`, on the carried rendering. -/
def SimpleDtoa (v : FloatValue) : String := v.rendered

/-- `SimpleFtoa`, on the carried rendering. -/
def SimpleFtoa (v : FloatValue) : String := v.rendered

/-- `Descriptor::ExtensionRange`: start inclusive, end exclusive. -/
structure ExtensionRange where
  start : Int
  end_ : Int
  deriving DecidableEq, Repr

/-- `Descriptor`, the descriptor of a message: `field`, `extension`, `nested_type`,
`enum_type` and `extension_range` list what the indexed accessors of the same name
return. -/
inductive Descriptor where
  | mk (name : String) (full_name : String) (field : List FieldDescriptor)
      (extension : List FieldDescriptor) (nested_type : List Descriptor)
      (enum_type : List EnumDescriptor) (extension_range : List ExtensionRange)

namespace Descriptor

def name : Descriptor → String
  | .mk n _ _ _ _ _ _ => n

def full_name : Descriptor → String
  | .mk _ fn _ _ _ _ _ => fn

def field : Descriptor → List FieldDescriptor
  | .mk _ _ fs _ _ _ _ => fs

def extension : Descriptor → List FieldDescriptor
  | .mk _ _ _ es _ _ _ => es

def nested_type : Descriptor → List Descriptor
  | .mk _ _ _ _ ns _ _ => ns

def enum_type : Descriptor → List EnumDescriptor
  | .mk _ _ _ _ _ es _ => es

def extension_range : Descriptor → List ExtensionRange
  | .mk _ _ _ _ _ _ rs => rs

end Descriptor

/-- `MethodDescriptor`. -/
structure MethodDescriptor where
  name : String
  input_type : TypeRef
  output_type : TypeRef
  deriving DecidableEq, Repr

/-- `ServiceDescriptor`. -/
structure ServiceDescriptor where
  name : String
  method : List MethodDescriptor
  deriving DecidableEq, Repr

/-- An imported file, seen through `name()`. -/
structure FileRef where
  name : String
  deriving DecidableEq, Repr

/-- `FileDescriptor`. -/
structure FileDescriptor where
  name : String
  package : String
  dependency : List FileRef
  message_type : List Descriptor
  enum_type : List EnumDescriptor
  service : List ServiceDescriptor

/-- `GeneratorContext`: `Open` gives the stream for a file name, described by the
number of bytes it accepts before refusing (`none`: it never refuses). -/
structure GeneratorContext where
  Open : String → Option Nat

/-! ## Helpers declared in `RubyGenerator.h` -/

/-- The first character of a word in upper case. -/
def capitalize : List Char → List Char
  | [] => []
  | c :: cs => c.toUpper :: cs

/-- One segment of a qualified name as a constant: the underscore-delimited words,
each capitalized, concatenated. -/
def constantizeSegment (segment : List Char) : List Char :=
  ((splitOnChar '_' segment).map capitalize).flatten

/-- Modelled from the spec: `Constantize(qualifiedName, leadingColons)` is declared
in `RubyGenerator.h`, which is not among the sources.  It "splits a dot-separated
qualified name into segments, converts each segment to a capitalized,
underscore-free identifier (each underscore-delimited word capitalized and
concatenated), and rejoins segments with the target DSL's namespace-separator
token; optionally prefixes an absolute-namespace marker".  The separator and the
marker are both `::`. -/
def Constantize (full_path : String) (is_top_level : Bool) : String :=
  (if is_top_level then "::" else "") ++
    String.mk (List.intercalate [':', ':'] ((splitOnChar '.' full_path.toList).map constantizeSegment))

/-- Modelled from the spec: `ConvertIntToString` is declared in `RubyGenerator.h`,
which is not among the sources; the number of an enum value is written in
decimal. -/
def ConvertIntToString (number : Int) : String := SimpleItoa number

/-- What the sources use of `RubyGenerator.h` and the spec does not fix.

* `is_top_level` is the second argument that the one-argument calls
  `Constantize(name)` pass on: the spec only says that the marker is optional;
* `CreateRubyFileName proto_filename for_require` names the generated file
  (`for_require = false`, the one-argument call) or the path to require;
* `Underscore` turns a method name into a lower-case, underscore-separated one. -/
structure Header where
  is_top_level : Bool
  CreateRubyFileName : String → Bool → String
  Underscore : String → String

/-- The one-argument call `Constantize(full_path)`. -/
def Header.Constantize (h : Header) (full_path : String) : String :=
  Ruby.Constantize full_path h.is_top_level

/-! ## The generator -/

/-- The members of `RubyGenerator`. -/
structure RubyGenerator where
  file_ : FileDescriptor
  context_ : GeneratorContext
  filename : String
  ns_vector : List String
  printer_ : Printer

namespace RubyGenerator

/-- The call `printer_->Print(data, text)`. -/
def Print (g : RubyGenerator) (data : VarMap) (text : String) : RubyGenerator :=
  { g with printer_ := g.printer_.Print data text }

/-- The call `printer_->Indent()`. -/
def Indent (g : RubyGenerator) : RubyGenerator :=
  { g with printer_ := g.printer_.Indent }

/-- The call `printer_->Outdent()`. -/
def Outdent (g : RubyGenerator) : RubyGenerator :=
  { g with printer_ := g.printer_.Outdent }

def PrintNewLine (g : RubyGenerator) : RubyGenerator :=
  g.Print [] "\n"

/-- Print a header or one-line comment (as indicated by the as_header bool). -/
def PrintComment (comment : String) (as_header : Bool) (g : RubyGenerator) : RubyGenerator :=
  let format := "# $comment$\n"
  let format_multi := "##\n# $comment$\n#\n"
  let data : VarMap := []
  let data := data.set "comment" comment
  if as_header then g.Print data format_multi
  else g.Print data format

/-- Prints a require with the given ruby library. -/
def PrintRequire (lib_name : String) (g : RubyGenerator) : RubyGenerator :=
  let data : VarMap := []
  let data := data.set "lib" lib_name
  g.Print data "require '$lib$'\n"

/-- Print a comment indicating that the file was generated. -/
def PrintGeneratedFileComment (g : RubyGenerator) : RubyGenerator :=
  PrintComment "This file is auto-generated. DO NOT EDIT!" true g

/-- Print out message requires as they pertain to the ruby library. -/
def PrintGenericRequires (g : RubyGenerator) : RubyGenerator :=
  let g := if g.file_.message_type.length > 0 then PrintRequire "protobuf/message" g else g
  if g.file_.service.length > 0 then PrintRequire "protobuf/rpc/service" g else g

def PrintImportRequires (h : Header) (g : RubyGenerator) : RubyGenerator :=
  if g.file_.dependency.length > 0 then
    let g := PrintNewLine g
    let g := PrintComment "Imports" true g
    g.file_.dependency.foldl
      (fun g dep => PrintRequire (h.CreateRubyFileName dep.name true) g) g
  else g

def PrintEnclosingNamespaceModules (g : RubyGenerator) : RubyGenerator :=
  let g := PrintNewLine g
  g.ns_vector.foldl
    (fun g iter =>
      let data : VarMap := []
      let data := data.set "ns" (Constantize iter false)
      let g := g.Print data "module $ns$"
      let g := PrintNewLine g
      g.Indent) g

def PrintEnclosingNamespaceModuleEnds (g : RubyGenerator) : RubyGenerator :=
  g.ns_vector.foldl
    (fun g _ =>
      let g := g.Outdent
      let g := g.Print [] "end"
      PrintNewLine g) g

/-- Print the given enum descriptor as a Ruby class. -/
def PrintEnumClass (descriptor : EnumDescriptor) (g : RubyGenerator) : RubyGenerator :=
  let data : VarMap := []
  let data := data.set "class_name" descriptor.name
  let g := g.Print data "class $class_name$ < ::Protobuf::Enum; end"
  PrintNewLine g

/-- Print the given enum value to the Enum class DSL methods. -/
def PrintEnumValue (h : Header) (descriptor : EnumValueDescriptor) (g : RubyGenerator) :
    RubyGenerator :=
  let data : VarMap := []
  let data := data.set "enum_class" (h.Constantize descriptor.type.full_name)
  let data := data.set "name" descriptor.name
  let data := data.set "number" (ConvertIntToString descriptor.number)
  g.Print data "$enum_class$.define :$name$, $number$\n"

def PrintEnumValues (h : Header) (descriptor : EnumDescriptor) (g : RubyGenerator) :
    RubyGenerator :=
  let g := descriptor.value.foldl (fun g value => PrintEnumValue h value g) g
  PrintNewLine g

def PrintEnumsForDescriptor (h : Header) (descriptor : Descriptor) (print_values : Bool)
    (g : RubyGenerator) : RubyGenerator :=
  descriptor.enum_type.foldl
    (fun g enum_type =>
      if print_values then PrintEnumValues h enum_type g
      else PrintEnumClass enum_type g) g

def PrintEnumsForFileDescriptor (h : Header) (descriptor : FileDescriptor)
    (print_values : Bool) (g : RubyGenerator) : RubyGenerator :=
  if descriptor.enum_type.length > 0 then
    let g := if print_values then PrintComment "Enum Values" true g
      else PrintComment "Enum Classes" true g
    descriptor.enum_type.foldl
      (fun g enum_type =>
        if print_values then PrintEnumValues h enum_type g
        else PrintEnumClass enum_type g) g
  else g

def PrintExtensionRangesForDescriptor (h : Header) (descriptor : Descriptor)
    (g : RubyGenerator) : RubyGenerator :=
  if descriptor.extension_range.length > 0 then
    descriptor.extension_range.foldl
      (fun g range =>
        let data : VarMap := []
        let data := data.set "message_class" (h.Constantize descriptor.full_name)
        let data := data.set "start" (SimpleItoa range.start)
        let data := data.set "end" (SimpleItoa range.end_)
        let g := g.Print data "$message_class$.extensions $start$...$end$"
        PrintNewLine g) g
  else g

/-- The variables `PrintMessageField` assigns before its `Print` call, in the order
of the assignments. -/
def fieldData (h : Header) (descriptor : FieldDescriptor) : VarMap :=
  let data : VarMap := []
  let data := data.set "message_class" (h.Constantize descriptor.containing_type.full_name)
  let data := data.set "field_name" descriptor.lowercase_name
  let data := data.set "tag_number" (SimpleItoa descriptor.number)
  let data := data.set "data_type" ""
  let data := data.set "default_opt" ""
  let data := data.set "packed_opt" ""
  let data := data.set "deprecated_opt" ""
  let data := data.set "extension_opt" ""
  let data :=
    if descriptor.is_required then data.set "field_label" "required"
    else if descriptor.is_optional then data.set "field_label" "optional"
    else if descriptor.is_repeated then data.set "field_label" "repeated"
    else data
  let data :=
    match descriptor.type with
    -- Primitives
    | .TYPE_DOUBLE => data.set "data_type" "::Protobuf::Field::DoubleField"
    | .TYPE_FLOAT => data.set "data_type" "::Protobuf::Field::FloatField"
    | .TYPE_INT64 => data.set "data_type" "::Protobuf::Field::Int64Field"
    | .TYPE_UINT64 => data.set "data_type" "::Protobuf::Field::Uint64Field"
    | .TYPE_INT32 => data.set "data_type" "::Protobuf::Field::Int32Field"
    | .TYPE_FIXED64 => data.set "data_type" "::Protobuf::Field::Fixed64Field"
    | .TYPE_FIXED32 => data.set "data_type" "::Protobuf::Field::Fixed32Field"
    | .TYPE_BOOL => data.set "data_type" "::Protobuf::Field::BoolField"
    | .TYPE_STRING => data.set "data_type" "::Protobuf::Field::StringField"
    | .TYPE_BYTES => data.set "data_type" "::Protobuf::Field::BytesField"
    | .TYPE_UINT32 => data.set "data_type" "::Protobuf::Field::Uint32Field"
    | .TYPE_SFIXED32 => data.set "data_type" "::Protobuf::Field::Sfixed32Field"
    | .TYPE_SFIXED64 => data.set "data_type" "::Protobuf::Field::Sfixed64Field"
    | .TYPE_SINT32 => data.set "data_type" "::Protobuf::Field::Sint32Field"
    | .TYPE_SINT64 => data.set "data_type" "::Protobuf::Field::Sint64Field"
    -- Enums
    | .TYPE_ENUM enum_type => data.set "data_type" (h.Constantize enum_type.full_name)
    -- Messages
    | .TYPE_GROUP message_type => data.set "data_type" (h.Constantize message_type.full_name)
    | .TYPE_MESSAGE message_type => data.set "data_type" (h.Constantize message_type.full_name)
  let data :=
    if descriptor.has_default_value then
      let value : String :=
        match descriptor.cpp_type with
        | .CPPTYPE_INT32 => SimpleItoa descriptor.default_value_int32
        | .CPPTYPE_INT64 => SimpleItoa descriptor.default_value_int64
        | .CPPTYPE_UINT32 => SimpleItoa descriptor.default_value_uint32
        | .CPPTYPE_UINT64 => SimpleItoa descriptor.default_value_uint64
        | .CPPTYPE_DOUBLE => SimpleDtoa descriptor.default_value_double
        | .CPPTYPE_FLOAT => SimpleFtoa descriptor.default_value_float
        | .CPPTYPE_BOOL => if descriptor.default_value_bool then "true" else "false"
        | .CPPTYPE_ENUM => h.Constantize descriptor.default_value_enum.full_name
        | .CPPTYPE_STRING => "\"" ++ descriptor.default_value_string ++ "\""
        | _ => ""
      data.set "default_opt" (Substitute ", :default => $0" value)
    else data
  let data :=
    if descriptor.is_packable && descriptor.options.has_packed then
      let packed_bool := if descriptor.options.packed then "true" else "false"
      data.set "packed_opt" (Substitute ", :packed => $0" packed_bool)
    else data
  let data :=
    if descriptor.options.has_deprecated then
      let deprecated_bool := if descriptor.options.deprecated then "true" else "false"
      data.set "deprecated_opt" (Substitute ", :deprecated => $0" deprecated_bool)
    else data
  let data :=
    if descriptor.is_extension then data.set "extension_opt" ", :extension => true"
    else data
  data

/-- Print the given FieldDescriptor to the Message DSL methods. -/
def PrintMessageField (h : Header) (descriptor : FieldDescriptor) (g : RubyGenerator) :
    RubyGenerator :=
  g.Print (fieldData h descriptor)
    ("$message_class$.$field_label$(" ++
     "$data_type$, " ++
     ":$field_name$, " ++
     "$tag_number$" ++
     "$default_opt$" ++
     "$packed_opt$" ++
     "$deprecated_opt$" ++
     "$extension_opt$" ++
     ")\n")

mutual

/-- Print out the given descriptor message as a Ruby class. -/
def PrintMessageClass (h : Header) : Descriptor → RubyGenerator → RubyGenerator
  | .mk name full_name field extension nested_type enum_type extension_range, g =>
    let data : VarMap := []
    let data := data.set "class_name" name
    let g := g.Print data "class $class_name$ < ::Protobuf::Message; end"
    let g := PrintNewLine g
    let g := PrintEnumsForDescriptor h
      (.mk name full_name field extension nested_type enum_type extension_range) false g
    PrintMessagesForDescriptor h nested_type false g

/-- Print out the given descriptor message as a Ruby class. -/
def PrintMessageFields (h : Header) : Descriptor → RubyGenerator → RubyGenerator
  | .mk name full_name field extension nested_type enum_type extension_range, g =>
    let descriptor : Descriptor :=
      .mk name full_name field extension nested_type enum_type extension_range
    let g := PrintExtensionRangesForDescriptor h descriptor g
    let g :=
      if field.length > 0 then
        let g := field.foldl (fun g f => PrintMessageField h f g) g
        -- Print Extension Fields
        let g :=
          if extension.length > 0 then
            extension.foldl (fun g f => PrintMessageField h f g) g
          else g
        PrintNewLine g
      else g
    let g := PrintEnumsForDescriptor h descriptor true g
    PrintMessagesForDescriptor h nested_type true g

/-- The loop of `PrintMessagesForDescriptor(descriptor, print_fields)` over
`descriptor->nested_type(i)`. -/
def PrintMessagesForDescriptor (h : Header) :
    List Descriptor → Bool → RubyGenerator → RubyGenerator
  | [], _, g => g
  | nested :: rest, print_fields, g =>
    let g := if print_fields then PrintMessageFields h nested g
      else PrintMessageClass h nested g
    PrintMessagesForDescriptor h rest print_fields g

end

def PrintMessagesForFileDescriptor (h : Header) (descriptor : FileDescriptor)
    (print_fields : Bool) (g : RubyGenerator) : RubyGenerator :=
  if descriptor.message_type.length > 0 then
    let g := if print_fields then PrintComment "Message Fields" true g
      else PrintComment "Message Classes" true g
    descriptor.message_type.foldl
      (fun g message_type =>
        if print_fields then PrintMessageFields h message_type g
        else PrintMessageClass h message_type g) g
  else g

/-- Print the rpc DSL declaration to the Ruby service class. -/
def PrintServiceMethod (h : Header) (descriptor : MethodDescriptor) (g : RubyGenerator) :
    RubyGenerator :=
  let data : VarMap := []
  let data := data.set "name" (h.Underscore descriptor.name)
  let data := data.set "request_klass" (h.Constantize descriptor.input_type.full_name)
  let data := data.set "response_klass" (h.Constantize descriptor.output_type.full_name)
  let g := g.Print data "rpc :$name$, $request_klass$, $response_klass$"
  PrintNewLine g

/-- Print the given service as a Ruby class. -/
def PrintService (h : Header) (descriptor : ServiceDescriptor) (g : RubyGenerator) :
    RubyGenerator :=
  let data : VarMap := []
  let data := data.set "class_name" descriptor.name
  let g := g.Print data "class $class_name$ < ::Protobuf::Service"
  let g := PrintNewLine g
  let g := g.Indent
  let g := descriptor.method.foldl (fun g method => PrintServiceMethod h method g) g
  let g := g.Outdent
  let g := g.Print [] "end"
  PrintNewLine g

def PrintServices (h : Header) (g : RubyGenerator) : RubyGenerator :=
  if g.file_.service.length > 0 then
    let g := PrintComment "Services" true g
    g.file_.service.foldl (fun g service => PrintService h service g) g
  else g

/-- Generate one or more ruby source files for the given proto file.  The result
is the generator after the call, the returned bool and the error string. -/
def Generate (h : Header) (g : RubyGenerator) (file : FileDescriptor) (parameter : String)
    (context : GeneratorContext) (error : String) : RubyGenerator × Bool × String :=
  let _ := parameter
  let g := { g with file_ := file }
  let g := { g with context_ := context }
  let g := { g with filename := h.CreateRubyFileName g.file_.name false }
  let g := { g with ns_vector := [] }
  let g := { g with ns_vector := g.ns_vector ++ SplitStringUsing g.file_.package '.' }
  -- Get a ZeroCopyOutputStream object of the data.
  let output := g.context_.Open g.filename
  -- Get a printer.
  let printer := Printer.new output
  let g := { g with printer_ := printer }
  let g := PrintGeneratedFileComment g
  let g := PrintGenericRequires g
  let g := PrintImportRequires h g
  let g := PrintEnclosingNamespaceModules g
  let g := PrintEnumsForFileDescriptor h g.file_ false g
  let g := PrintNewLine g
  let g := PrintMessagesForFileDescriptor h g.file_ false g
  let g := PrintNewLine g
  let g := PrintEnumsForFileDescriptor h g.file_ true g
  let g := PrintNewLine g
  let g := PrintMessagesForFileDescriptor h g.file_ true g
  let g := PrintNewLine g
  let g := PrintServices h g
  let g := PrintEnclosingNamespaceModuleEnds g
  if g.printer_.failed_ then
    (g, false, "An unknown error occured writing file " ++ g.filename)
  else
    (g, true, error)

end RubyGenerator

/-! ## Vocabulary of the statements

The generated text is described line by line.  A line is what one statement of
the generator writes between two line starts; it carries the depth of indentation
it is written at and the kind of statement that writes it. -/

/-- A line as it stands in the output: indentation, text, newline. -/
def renderLine (depth : Nat) (text : String) : String :=
  indentText depth ++ text ++ "\n"

/-- Lines of one depth, one after the other. -/
def renderLines (depth : Nat) : List String → String
  | [] => ""
  | l :: ls => renderLine depth l ++ renderLines depth ls

/-- The statement of the generator a line comes from. -/
inductive LineKind where
  | blank
  | comment
  | require
  | moduleOpen
  | moduleClose
  | classDecl
  | extensions
  | field
  | define
  | serviceOpen
  | rpc
  | serviceClose
  deriving DecidableEq, Repr

/-- The kinds of the lines of the population pass that define members. -/
def LineKind.isPopulation : LineKind → Bool
  | .extensions => true
  | .field => true
  | .define => true
  | _ => false

structure Line where
  kind : LineKind
  depth : Nat
  text : String
  deriving DecidableEq, Repr

def Line.render (l : Line) : String := renderLine l.depth l.text

/-- The text of a sequence of lines. -/
def renderFile : List Line → String
  | [] => ""
  | l :: ls => l.render ++ renderFile ls

/-- The printer after the stream has accepted some more text. -/
def Printer.wrote (p : Printer) (text : String) : Printer :=
  { p with out := p.out ++ text }

/-- The generator after the stream of its printer has accepted some more text. -/
def RubyGenerator.wrote (g : RubyGenerator) (text : String) : RubyGenerator :=
  { g with printer_ := g.printer_.wrote text }

/-- The printer has not failed and its stream never refuses. -/
structure Printer.Healthy (p : Printer) : Prop where
  not_failed : p.failed_ = false
  unbounded : p.room = none

/-- A healthy printer at the start of a line. -/
structure Printer.Ready (p : Printer) : Prop where
  not_failed : p.failed_ = false
  unbounded : p.room = none
  line_start : p.at_start_of_line_ = true

/-- The generator after its printer has written some text, reached a depth of
indentation and received some more `Indent()`/`Outdent()` calls. -/
def RubyGenerator.after (g : RubyGenerator) (text : String) (depth : Nat)
    (calls : List IndentCall) : RubyGenerator :=
  { g with printer_ :=
    { g.printer_ with
      out := g.printer_.out ++ text
      indent_ := depth
      calls := g.printer_.calls ++ calls } }

/-- The generator `g2` is `g` after statements that made the `Indent()`/`Outdent()`
calls `cs` and left the indent at `d` levels: the members other than the printer are
those of `g`. -/
structure RubyGenerator.Moved (g g2 : RubyGenerator) (d : Nat) (cs : List IndentCall) :
    Prop where
  file_ : g2.file_ = g.file_
  context_ : g2.context_ = g.context_
  filename : g2.filename = g.filename
  ns_vector : g2.ns_vector = g.ns_vector
  indent_ : g2.printer_.indent_ = d
  calls : g2.printer_.calls = g.printer_.calls ++ cs

/-- The calls of a service block: one `Indent()`, one `Outdent()`. -/
def serviceCalls (services : List ServiceDescriptor) : List IndentCall :=
  (services.map (fun _ => [IndentCall.indent, IndentCall.outdent])).flatten

/-! ### Lines of the single statements -/

def blankLine (d : Nat) : Line := ⟨.blank, d, ""⟩

/-- The three lines of a header comment. -/
def headerLines (d : Nat) (comment : String) : List Line :=
  [⟨.comment, d, "##"⟩, ⟨.comment, d, "# " ++ comment⟩, ⟨.comment, d, "#"⟩]

def requireLine (d : Nat) (lib_name : String) : Line :=
  ⟨.require, d, "require '" ++ lib_name ++ "'"⟩

/-- One `module` line per namespace, each one level deeper than the one before. -/
def moduleLines : Nat → List String → List Line
  | _, [] => []
  | d, ns :: rest => ⟨.moduleOpen, d, "module " ++ Constantize ns false⟩ :: moduleLines (d + 1) rest

/-- The `end` lines closing `n` modules opened at depth `d`, innermost first. -/
def moduleEndLines (d : Nat) : Nat → List Line
  | 0 => []
  | n + 1 => ⟨.moduleClose, d + n, "end"⟩ :: moduleEndLines d n

def enumClassLine (d : Nat) (E : EnumDescriptor) : Line :=
  ⟨.classDecl, d, "class " ++ E.name ++ " < ::Protobuf::Enum; end"⟩

def messageClassText (name : String) : String :=
  "class " ++ name ++ " < ::Protobuf::Message; end"

/-- The text `<Constantize(enum full name)>.define :<name>, <number>`. -/
def defineText (h : Header) (enumFullName : String) (v : EnumValueDescriptor) : String :=
  h.Constantize enumFullName ++ ".define :" ++ v.name ++ ", " ++ ConvertIntToString v.number

def defineLine (h : Header) (d : Nat) (v : EnumValueDescriptor) : Line :=
  ⟨.define, d, defineText h v.type.full_name v⟩

/-- The lines of the values of an enum, closed by a line without text. -/
def enumValueLines (h : Header) (d : Nat) (E : EnumDescriptor) : List Line :=
  E.value.map (defineLine h d) ++ [blankLine d]

def rangeLine (h : Header) (d : Nat) (fullName : String) (r : ExtensionRange) : Line :=
  ⟨.extensions, d,
    h.Constantize fullName ++ ".extensions " ++ SimpleItoa r.start ++ "..." ++ SimpleItoa r.end_⟩

/-! ### The field-definition line -/

def labelText : Label → String
  | .LABEL_REQUIRED => "required"
  | .LABEL_OPTIONAL => "optional"
  | .LABEL_REPEATED => "repeated"

/-- The type token of a field. -/
def typeToken (h : Header) : FieldType → String
  | .TYPE_DOUBLE => "::Protobuf::Field::DoubleField"
  | .TYPE_FLOAT => "::Protobuf::Field::FloatField"
  | .TYPE_INT64 => "::Protobuf::Field::Int64Field"
  | .TYPE_UINT64 => "::Protobuf::Field::Uint64Field"
  | .TYPE_INT32 => "::Protobuf::Field::Int32Field"
  | .TYPE_FIXED64 => "::Protobuf::Field::Fixed64Field"
  | .TYPE_FIXED32 => "::Protobuf::Field::Fixed32Field"
  | .TYPE_BOOL => "::Protobuf::Field::BoolField"
  | .TYPE_STRING => "::Protobuf::Field::StringField"
  | .TYPE_GROUP m => h.Constantize m.full_name
  | .TYPE_MESSAGE m => h.Constantize m.full_name
  | .TYPE_BYTES => "::Protobuf::Field::BytesField"
  | .TYPE_UINT32 => "::Protobuf::Field::Uint32Field"
  | .TYPE_ENUM e => h.Constantize e.full_name
  | .TYPE_SFIXED32 => "::Protobuf::Field::Sfixed32Field"
  | .TYPE_SFIXED64 => "::Protobuf::Field::Sfixed64Field"
  | .TYPE_SINT32 => "::Protobuf::Field::Sint32Field"
  | .TYPE_SINT64 => "::Protobuf::Field::Sint64Field"

def boolText (b : Bool) : String := if b then "true" else "false"

/-- The text of the default value of a field, by value category. -/
def defaultText (h : Header) (F : FieldDescriptor) : String :=
  match F.cpp_type with
  | .CPPTYPE_INT32 => SimpleItoa F.default_value_int32
  | .CPPTYPE_INT64 => SimpleItoa F.default_value_int64
  | .CPPTYPE_UINT32 => SimpleItoa F.default_value_uint32
  | .CPPTYPE_UINT64 => SimpleItoa F.default_value_uint64
  | .CPPTYPE_DOUBLE => SimpleDtoa F.default_value_double
  | .CPPTYPE_FLOAT => SimpleFtoa F.default_value_float
  | .CPPTYPE_BOOL => boolText F.default_value_bool
  | .CPPTYPE_ENUM => h.Constantize F.default_value_enum.full_name
  | .CPPTYPE_STRING => "\"" ++ F.default_value_string ++ "\""
  | .CPPTYPE_MESSAGE => ""

/-- The clause `, :default => <value>`, present iff the field has a default value. -/
def defaultClause (h : Header) (F : FieldDescriptor) : String :=
  if F.has_default_value then ", :default => " ++ defaultText h F else ""

/-- The clause `, :packed => <bool>`, present iff the field is packable and its
options have packed set. -/
def packedClause (F : FieldDescriptor) : String :=
  if F.is_packable && F.options.has_packed then ", :packed => " ++ boolText F.options.packed
  else ""

/-- The clause `, :deprecated => <bool>`, present iff the options have deprecated
set. -/
def deprecatedClause (F : FieldDescriptor) : String :=
  if F.options.has_deprecated then ", :deprecated => " ++ boolText F.options.deprecated
  else ""

/-- The clause `, :extension => true`, present iff the field is an extension. -/
def extensionClause (F : FieldDescriptor) : String :=
  if F.is_extension then ", :extension => true" else ""

/-- The clauses of a field line, in their fixed order. -/
def fieldClauses (h : Header) (F : FieldDescriptor) : String :=
  defaultClause h F ++ packedClause F ++ deprecatedClause F ++ extensionClause F

/-- What follows the class token and the dot on a field line. -/
def fieldCall (h : Header) (F : FieldDescriptor) : String :=
  labelText F.label ++ "(" ++ typeToken h F.type ++ ", :" ++ F.lowercase_name ++ ", " ++
    SimpleItoa F.number ++ fieldClauses h F ++ ")"

/-- The field-definition line
`<class token>.<label>(<type token>, :<name>, <number><clauses>)`. -/
def fieldText (h : Header) (F : FieldDescriptor) : String :=
  h.Constantize F.containing_type.full_name ++ "." ++ fieldCall h F

def fieldLine (h : Header) (d : Nat) (F : FieldDescriptor) : Line :=
  ⟨.field, d, fieldText h F⟩

/-! ### Lines of the two passes over a message -/

mutual

/-- The lines of the declaration pass over a message: its class declaration, those
of its nested enums, then the lines of its nested messages. -/
def declLines (d : Nat) : Descriptor → List Line
  | .mk name _ _ _ nested_type enum_type _ =>
    ⟨.classDecl, d, messageClassText name⟩ ::
      (enum_type.map (enumClassLine d) ++ declLinesAll d nested_type)

def declLinesAll (d : Nat) : List Descriptor → List Line
  | [] => []
  | M :: rest => declLines d M ++ declLinesAll d rest

end

/-- The lines for the fields of a message: when it has regular fields, one line per
regular field, one per extension field, and a line without text. -/
def fieldBlock (h : Header) (d : Nat) (field extension : List FieldDescriptor) : List Line :=
  if field.length > 0 then
    field.map (fieldLine h d) ++ (extension.map (fieldLine h d) ++ [blankLine d])
  else []

mutual

/-- The lines of the population pass over a message: extension ranges, fields,
values of the nested enums, then the lines of the nested messages. -/
def popLines (h : Header) (d : Nat) : Descriptor → List Line
  | .mk _ full_name field extension nested_type enum_type extension_range =>
    extension_range.map (rangeLine h d full_name) ++
      (fieldBlock h d field extension ++
        ((enum_type.map (enumValueLines h d)).flatten ++ popLinesAll h d nested_type))

def popLinesAll (h : Header) (d : Nat) : List Descriptor → List Line
  | [] => []
  | M :: rest => popLines h d M ++ popLinesAll h d rest

end

/-! ### Lines of a file -/

def rpcLine (h : Header) (d : Nat) (m : MethodDescriptor) : Line :=
  ⟨.rpc, d, "rpc :" ++ h.Underscore m.name ++ ", " ++ h.Constantize m.input_type.full_name ++
    ", " ++ h.Constantize m.output_type.full_name⟩

def serviceLines (h : Header) (d : Nat) (S : ServiceDescriptor) : List Line :=
  ⟨.serviceOpen, d, "class " ++ S.name ++ " < ::Protobuf::Service"⟩ ::
    (S.method.map (rpcLine h (d + 1)) ++ [⟨.serviceClose, d, "end"⟩])

/-- Header comment, requires and `module` lines. -/
def preambleLines (h : Header) (file : FileDescriptor) : List Line :=
  headerLines 0 "This file is auto-generated. DO NOT EDIT!" ++
  ((if file.message_type.length > 0 then [requireLine 0 "protobuf/message"] else []) ++
  ((if file.service.length > 0 then [requireLine 0 "protobuf/rpc/service"] else []) ++
  ((if file.dependency.length > 0 then
      blankLine 0 :: (headerLines 0 "Imports" ++
        file.dependency.map (fun dep => requireLine 0 (h.CreateRubyFileName dep.name true)))
    else []) ++
  (blankLine 0 :: moduleLines 0 (SplitStringUsing file.package '.')))))

/-- The block of the declaration pass, at depth `d`. -/
def declarationBlock (d : Nat) (file : FileDescriptor) : List Line :=
  (if file.enum_type.length > 0 then
      headerLines d "Enum Classes" ++ file.enum_type.map (enumClassLine d)
    else []) ++
  (blankLine d ::
  ((if file.message_type.length > 0 then
      headerLines d "Message Classes" ++ declLinesAll d file.message_type
    else []) ++
  [blankLine d]))

/-- The block of the population pass, at depth `d`. -/
def populationBlock (h : Header) (d : Nat) (file : FileDescriptor) : List Line :=
  (if file.enum_type.length > 0 then
      headerLines d "Enum Values" ++ (file.enum_type.map (enumValueLines h d)).flatten
    else []) ++
  (blankLine d ::
  ((if file.message_type.length > 0 then
      headerLines d "Message Fields" ++ popLinesAll h d file.message_type
    else []) ++
  [blankLine d]))

/-- Service classes and the `end` lines of the modules. -/
def trailerLines (h : Header) (d : Nat) (file : FileDescriptor) : List Line :=
  (if file.service.length > 0 then
      headerLines d "Services" ++ (file.service.map (serviceLines h d)).flatten
    else []) ++
  moduleEndLines 0 d

/-- The number of namespaces of a file. -/
def namespaceCount (file : FileDescriptor) : Nat := (SplitStringUsing file.package '.').length

/-- All the lines of the file generated for a schema file. -/
def fileLines (h : Header) (file : FileDescriptor) : List Line :=
  preambleLines h file ++
    (declarationBlock (namespaceCount file) file ++
      (populationBlock h (namespaceCount file) file ++
        trailerLines h (namespaceCount file) file))

/-- The members of the generator at the point where `Generate` starts to print, when
the opened stream never refuses a write. -/
def startOf (h : Header) (file : FileDescriptor) (context : GeneratorContext) :
    RubyGenerator :=
  { file_ := file
    context_ := context
    filename := h.CreateRubyFileName file.name false
    ns_vector := SplitStringUsing file.package '.'
    printer_ := Printer.new none }

/-- The calls of `Indent()` and `Outdent()` during one `Generate`: one `Indent()` per
namespace, the calls of the service blocks, one `Outdent()` per namespace. -/
def indentCalls (file : FileDescriptor) : List IndentCall :=
  List.replicate (namespaceCount file) IndentCall.indent ++
    (serviceCalls file.service ++ List.replicate (namespaceCount file) IndentCall.outdent)

/-- The statements of `Generate` from the header comment to the `end` lines of the
modules, in their order. -/
def printAll (h : Header) (g : RubyGenerator) : RubyGenerator :=
  RubyGenerator.PrintEnclosingNamespaceModuleEnds <|
  RubyGenerator.PrintServices h <|
  RubyGenerator.PrintNewLine <|
  (fun g => RubyGenerator.PrintMessagesForFileDescriptor h g.file_ true g) <|
  RubyGenerator.PrintNewLine <|
  (fun g => RubyGenerator.PrintEnumsForFileDescriptor h g.file_ true g) <|
  RubyGenerator.PrintNewLine <|
  (fun g => RubyGenerator.PrintMessagesForFileDescriptor h g.file_ false g) <|
  RubyGenerator.PrintNewLine <|
  (fun g => RubyGenerator.PrintEnumsForFileDescriptor h g.file_ false g) <|
  RubyGenerator.PrintEnclosingNamespaceModules <|
  RubyGenerator.PrintImportRequires h <|
  RubyGenerator.PrintGenericRequires <|
  RubyGenerator.PrintGeneratedFileComment g

/-- What `Generate` returns once the statements have been printed. -/
def finish (g : RubyGenerator) (error : String) : RubyGenerator × Bool × String :=
  if g.printer_.failed_ then
    (g, false, "An unknown error occured writing file " ++ g.filename)
  else
    (g, true, error)

/-- A context whose streams never refuse a write. -/
def everAccepting : GeneratorContext := ⟨fun _ => none⟩

/-- What the population pass over a message writes after the lines of its own
fields: the lines of its extension fields and the closing line without text (when
the message has regular fields), the values of its nested enums, the lines of its
nested messages. -/
def afterOwnFields (h : Header) (d : Nat) (M : Descriptor) : List Line :=
  (if M.field.length > 0 then M.extension.map (fieldLine h d) ++ [blankLine d] else []) ++
    ((M.enum_type.map (enumValueLines h d)).flatten ++ popLinesAll h d M.nested_type)

/-- The depth of indentation after a sequence of `Indent()`/`Outdent()` calls made
from depth `d`, counted from the depth before the first call; `none` when an
`Outdent()` comes at depth zero, that is when the depth would go below where it
started. -/
def depthAfter : List IndentCall → Nat → Option Nat
  | [], d => some d
  | .indent :: calls, d => depthAfter calls (d + 1)
  | .outdent :: _, 0 => none
  | .outdent :: calls, d + 1 => depthAfter calls d

/-- A class-declaration line: `class <N> < ::Protobuf::Message; end` or
`class <N> < ::Protobuf::Enum; end`, written by the declaration pass. -/
def Line.IsClassDeclaration (l : Line) : Prop :=
  l.kind = .classDecl ∧
    ∃ N : String, l.text = "class " ++ N ++ " < ::Protobuf::Message; end" ∨
      l.text = "class " ++ N ++ " < ::Protobuf::Enum; end"

/-- A population line: an `.extensions` line, a field-definition line or a `.define`
line, written by the population pass. -/
def Line.IsPopulationLine (h : Header) (l : Line) : Prop :=
  (l.kind = .extensions ∧
    ∃ (fullName : String) (r : ExtensionRange),
      l.text = h.Constantize fullName ++ ".extensions " ++ SimpleItoa r.start ++ "..." ++
        SimpleItoa r.end_) ∨
  (l.kind = .field ∧ ∃ F : FieldDescriptor, l.text = fieldText h F) ∨
  (l.kind = .define ∧ ∃ v : EnumValueDescriptor, l.text = defineText h v.type.full_name v)

mutual

/-- A message and the messages nested in it at any depth, depth first. -/
def Descriptor.messages : Descriptor → List Descriptor
  | .mk name full_name field extension nested_type enum_type extension_range =>
    .mk name full_name field extension nested_type enum_type extension_range ::
      messagesAll nested_type

def messagesAll : List Descriptor → List Descriptor
  | [] => []
  | M :: rest => M.messages ++ messagesAll rest

end

/-- The messages of a file at any depth of nesting. -/
def FileDescriptor.allMessages (file : FileDescriptor) : List Descriptor :=
  messagesAll file.message_type

/-- The lines of a text without their leading indentation: the pieces between the
newlines, each without its leading spaces. -/
def outputLines (text : String) : List String :=
  (splitOnChar '\n' text.toList).map (fun l => String.mk (l.dropWhile (fun c => c = ' ')))

/-- The name `N` of a line `class N < ::Protobuf::Message; end`. -/
def declaredMessage (line : List Char) : Option (List Char) :=
  if "class ".toList.isPrefixOf line ∧ " < ::Protobuf::Message; end".toList.isSuffixOf line then
    some ((line.drop 6).take (line.length - 6 - 27))
  else none

/-- The lines of a generated text read as Ruby: a `module X` line or a
`class X < ::Protobuf::Service` line opens the scope `X`, a line `end` closes the
innermost open scope, and a line `class N < ::Protobuf::Message; end` declares the
constant `<open scopes, joined by ::>::N`.  The result lists the declared constants in
the order of the lines. -/
def declaredFrom : List (List Char) → List (List Char) → List String
  | [], _ => []
  | line :: rest, scopes =>
    if "module ".toList.isPrefixOf line then declaredFrom rest (scopes ++ [line.drop 7])
    else if "class ".toList.isPrefixOf line ∧ " < ::Protobuf::Service".toList.isSuffixOf line then
      declaredFrom rest (scopes ++ [(line.drop 6).take (line.length - 6 - 22)])
    else if line = "end".toList then declaredFrom rest scopes.dropLast
    else
      match declaredMessage line with
      | some N =>
        String.mk (List.intercalate [':', ':'] (scopes ++ [N])) :: declaredFrom rest scopes
      | none => declaredFrom rest scopes

/-- The message constants a generated text declares. -/
def declaredConstants (text : String) : List String :=
  declaredFrom ((outputLines text).map String.toList) []

/-- Resolution of the text of an enum default among the values of an enum: the first
value whose `Constantize`d full name is the text. -/
def resolveEnumDefault (h : Header) (E : EnumDescriptor) (text : String) :
    Option EnumValueDescriptor :=
  E.value.find? (fun w => h.Constantize w.full_name = text)

/-- The full name of what is declared as `name` in the scope `scope` (the empty scope
is the file without package). -/
def qualified (scope name : String) : String :=
  if scope = "" then name else scope ++ "." ++ name

/-- The number whose decimal digits are those of `acc` followed by `cs`; `none` when a
character of `cs` is not a decimal digit. -/
def parseDigits : List Char → Nat → Option Nat
  | [], acc => some acc
  | c :: cs, acc =>
    if c.isDigit then parseDigits cs (acc * 10 + (c.toNat - '0'.toNat)) else none

/-- An unsigned decimal number: one decimal digit or more. -/
def parseNat (s : String) : Option Nat :=
  if s.toList = [] then none else parseDigits s.toList 0

/-- A signed decimal number: an optional minus sign, then one decimal digit or
more. -/
def parseInt (s : String) : Option Int :=
  match s.toList with
  | [] => none
  | c :: cs =>
    if c = '-' then
      if cs = [] then none else (parseDigits cs 0).map (fun n => -(n : Int))
    else (parseDigits (c :: cs) 0).map (fun n => (n : Int))

/-- A default text read back in a value category: a decimal number within the range
of the integer category, or one of the tokens `true` and `false`. -/
def parseDefault : CppType → String → Option DefaultValue
  | .CPPTYPE_INT32, s =>
    (parseInt s).bind (fun i =>
      if -2147483648 ≤ i ∧ i ≤ 2147483647 then some (.int32 i) else none)
  | .CPPTYPE_INT64, s =>
    (parseInt s).bind (fun i =>
      if -9223372036854775808 ≤ i ∧ i ≤ 9223372036854775807 then some (.int64 i) else none)
  | .CPPTYPE_UINT32, s =>
    (parseNat s).bind (fun n => if n ≤ 4294967295 then some (.uint32 n) else none)
  | .CPPTYPE_UINT64, s =>
    (parseNat s).bind (fun n => if n ≤ 18446744073709551615 then some (.uint64 n) else none)
  | .CPPTYPE_BOOL, s =>
    if s = "true" then some (.bool true)
    else if s = "false" then some (.bool false)
    else none
  | _, _ => none

/-- The default of the field is an integer of the value category of the field, within
the range of the category, or the category and the default are boolean. -/
def FieldDescriptor.DefaultInRange (F : FieldDescriptor) : Prop :=
  match F.cpp_type, F.default_value with
  | .CPPTYPE_INT32, .int32 v => -2147483648 ≤ v ∧ v ≤ 2147483647
  | .CPPTYPE_INT64, .int64 v => -9223372036854775808 ≤ v ∧ v ≤ 9223372036854775807
  | .CPPTYPE_UINT32, .uint32 v => v ≤ 4294967295
  | .CPPTYPE_UINT64, .uint64 v => v ≤ 18446744073709551615
  | .CPPTYPE_BOOL, .bool _ => True
  | _, _ => False

instance FieldDescriptor.decidableDefaultInRange (F : FieldDescriptor) :
    Decidable F.DefaultInRange := by
  unfold FieldDescriptor.DefaultInRange
  split <;> infer_instance

/-- The canonical text of an integer or boolean default: the decimal numeral of the
number, as `toString` writes it, or the name of the truth value. -/
def canonicalText : DefaultValue → String
  | .int32 v => toString v
  | .int64 v => toString v
  | .uint32 v => toString v
  | .uint64 v => toString v
  | .bool v => toString v
  | _ => ""

/-- The fifteen scalar tags: every tag but enum, group and message. -/
def FieldType.isScalar : FieldType → Bool
  | .TYPE_GROUP _ => false
  | .TYPE_MESSAGE _ => false
  | .TYPE_ENUM _ => false
  | _ => true

/-- The class-declaration line of a message. -/
def messageClassLine (d : Nat) (M : Descriptor) : Line :=
  ⟨.classDecl, d, "class " ++ M.name ++ " < ::Protobuf::Message; end"⟩

/-! ### The calls of the two passes -/

/-- A call of one of the four methods with which the two passes visit a message or an
enum. -/
inductive PassCall where
  | PrintMessageClass (descriptor : Descriptor)
  | PrintMessageFields (descriptor : Descriptor)
  | PrintEnumClass (descriptor : EnumDescriptor)
  | PrintEnumValues (descriptor : EnumDescriptor)

/-- The message a call visits. -/
def PassCall.message : PassCall → Option Descriptor
  | .PrintMessageClass M => some M
  | .PrintMessageFields M => some M
  | _ => none

/-- The enum a call visits. -/
def PassCall.enum : PassCall → Option EnumDescriptor
  | .PrintEnumClass E => some E
  | .PrintEnumValues E => some E
  | _ => none

/-- The calls that `PrintEnumsForDescriptor(descriptor, print_values)` makes: its loop
over `descriptor->enum_type(i)`. -/
def callsOfEnumsForDescriptor (descriptor : Descriptor) (print_values : Bool) :
    List PassCall :=
  descriptor.enum_type.foldl
    (fun calls enum_type =>
      if print_values then calls ++ [PassCall.PrintEnumValues enum_type]
      else calls ++ [PassCall.PrintEnumClass enum_type]) []

mutual

/-- The call `PrintMessageClass(descriptor)` and the calls it makes, in their order:
`PrintEnumsForDescriptor(descriptor, false)`, then
`PrintMessagesForDescriptor(descriptor, false)`. -/
def callsOfMessageClass : Descriptor → List PassCall
  | .mk name full_name field extension nested_type enum_type extension_range =>
    let descriptor : Descriptor :=
      .mk name full_name field extension nested_type enum_type extension_range
    PassCall.PrintMessageClass descriptor ::
      (callsOfEnumsForDescriptor descriptor false ++
        callsOfMessagesForDescriptor nested_type false)

/-- The call `PrintMessageFields(descriptor)` and the calls it makes, in their order:
`PrintEnumsForDescriptor(descriptor, true)`, then
`PrintMessagesForDescriptor(descriptor, true)`. -/
def callsOfMessageFields : Descriptor → List PassCall
  | .mk name full_name field extension nested_type enum_type extension_range =>
    let descriptor : Descriptor :=
      .mk name full_name field extension nested_type enum_type extension_range
    PassCall.PrintMessageFields descriptor ::
      (callsOfEnumsForDescriptor descriptor true ++
        callsOfMessagesForDescriptor nested_type true)

/-- The calls of the loop of `PrintMessagesForDescriptor(descriptor, print_fields)`
over `descriptor->nested_type(i)`. -/
def callsOfMessagesForDescriptor : List Descriptor → Bool → List PassCall
  | [], _ => []
  | nested :: rest, print_fields =>
    (if print_fields then callsOfMessageFields nested else callsOfMessageClass nested) ++
      callsOfMessagesForDescriptor rest print_fields

end

/-- The calls that `PrintEnumsForFileDescriptor(descriptor, print_values)` makes. -/
def callsOfEnumsForFileDescriptor (descriptor : FileDescriptor) (print_values : Bool) :
    List PassCall :=
  if descriptor.enum_type.length > 0 then
    descriptor.enum_type.foldl
      (fun calls enum_type =>
        if print_values then calls ++ [PassCall.PrintEnumValues enum_type]
        else calls ++ [PassCall.PrintEnumClass enum_type]) []
  else []

/-- The calls that `PrintMessagesForFileDescriptor(descriptor, print_fields)` makes. -/
def callsOfMessagesForFileDescriptor (descriptor : FileDescriptor) (print_fields : Bool) :
    List PassCall :=
  if descriptor.message_type.length > 0 then
    descriptor.message_type.foldl
      (fun calls message_type =>
        if print_fields then calls ++ callsOfMessageFields message_type
        else calls ++ callsOfMessageClass message_type) []
  else []

/-- The calls of a pass of `Generate` over the file: `PrintEnumsForFileDescriptor`,
then `PrintMessagesForFileDescriptor` (the declaration pass for `false`, the
population pass for `true`). -/
def passCalls (file : FileDescriptor) (print : Bool) : List PassCall :=
  callsOfEnumsForFileDescriptor file print ++ callsOfMessagesForFileDescriptor file print

/-- The lines a call writes itself, the calls it makes left aside: a class line for a
call of the declaration pass; the extension ranges and the block of the fields of a
message, or the values of an enum, for a call of the population pass. -/
def PassCall.lines (h : Header) (d : Nat) : PassCall → List Line
  | .PrintMessageClass M => [messageClassLine d M]
  | .PrintMessageFields M =>
    M.extension_range.map (rangeLine h d M.full_name) ++ fieldBlock h d M.field M.extension
  | .PrintEnumClass E => [enumClassLine d E]
  | .PrintEnumValues E => enumValueLines h d E

/-- The enums of the file, then those of its messages at any depth, depth first. -/
def FileDescriptor.allEnums (file : FileDescriptor) : List EnumDescriptor :=
  file.enum_type ++ (file.allMessages.map Descriptor.enum_type).flatten

/-- The lines of a pass of `Generate` at depth `d`, told by its calls: under each of
the two header comments the lines of the calls, in the order of the calls; a line
without text after each of the two parts. -/
def passBlock (h : Header) (d : Nat) (file : FileDescriptor) (print : Bool) : List Line :=
  (if file.enum_type.length > 0 then
      headerLines d (if print then "Enum Values" else "Enum Classes") ++
        ((callsOfEnumsForFileDescriptor file print).map (PassCall.lines h d)).flatten
    else []) ++
  (blankLine d ::
  ((if file.message_type.length > 0 then
      headerLines d (if print then "Message Fields" else "Message Classes") ++
        ((callsOfMessagesForFileDescriptor file print).map (PassCall.lines h d)).flatten
    else []) ++
  [blankLine d]))

/-- The text of the line does not start with `re` or holds a dot: it is not the text of
a require of a library whose name is without dot. -/
def Line.Plain (l : Line) : Prop :=
  l.text.data.take 2 ≠ ['r', 'e'] ∨ '.' ∈ l.text.data

instance Line.decidablePlain (l : Line) : Decidable l.Plain := by
  unfold Line.Plain
  infer_instance

/-! ### The type switch on the value of the tag -/

/-- What `enum_type()` returns for a field of the type: a null pointer (`none`) unless
the field is an enum. -/
def FieldType.enum_type : FieldType → Option EnumDescriptor
  | .TYPE_ENUM e => some e
  | _ => none

/-- What `message_type()` returns for a field of the type: a null pointer (`none`)
unless the field is a group or a message. -/
def FieldType.message_type : FieldType → Option TypeRef
  | .TYPE_GROUP m => some m
  | .TYPE_MESSAGE m => some m
  | _ => none

/-- An underscore before every upper-case letter that starts a run of upper-case
letters (not at the start of the name), then everything in lower case. -/
def underscoreFrom : Bool → Bool → List Char → List Char
  | _, _, [] => []
  | atStart, afterUpper, c :: cs =>
    (if c.isUpper && !afterUpper && !atStart then ['_', c.toLower] else [c.toLower]) ++
      underscoreFrom false c.isUpper cs

/-- A header for the examples.  Its helpers are stand-ins for those of
`RubyGenerator.h`: the file name gets the suffix `.pb.rb` (`.pb` for a require), a
method name is put in lower case with underscores. -/
def sampleHeader (is_top_level : Bool) : Header :=
  { is_top_level := is_top_level
    CreateRubyFileName := fun proto_filename for_require =>
      proto_filename ++ (if for_require then ".pb" else ".pb.rb")
    Underscore := fun name => String.mk (underscoreFrom true false name.toList) }

def emptyFile : FileDescriptor :=
  { name := "", package := "", dependency := [], message_type := [], enum_type := [],
    service := [] }

/-- A generator whose printer has written nothing yet, on a stream that never
refuses. -/
def freshGenerator : RubyGenerator :=
  { file_ := emptyFile, context_ := everAccepting, filename := "", ns_vector := [],
    printer_ := Printer.new none }

def noOptions : FieldOptions :=
  { has_packed := false, packed := false, has_deprecated := false, deprecated := false }

/-- The field `optional int32 count = 2 [default = 7, deprecated = true]` of the message
`pkg.Msg`. -/
def countField : FieldDescriptor :=
  { name := "count", lowercase_name := "count", number := 2, label := .LABEL_OPTIONAL,
    type := .TYPE_INT32, containing_type := ⟨"pkg.Msg"⟩, is_extension := false,
    has_default_value := true, default_value := .int32 7,
    options := { has_packed := false, packed := false, has_deprecated := true,
                 deprecated := true } }

/-- The field `repeated string tags = 5` of the message `pkg.Msg`. -/
def tagsField : FieldDescriptor :=
  { name := "tags", lowercase_name := "tags", number := 5, label := .LABEL_REPEATED,
    type := .TYPE_STRING, containing_type := ⟨"pkg.Msg"⟩, is_extension := false,
    has_default_value := false, default_value := .string "", options := noOptions }

/-- The message `pkg.Msg` with the fields `count` and `tags`. -/
def twoFieldMessage : Descriptor :=
  .mk "Msg" "pkg.Msg" [countField, tagsField] [] [] [] []

/-- The enum `Color` with the values `RED = 0`, `BLUE = 5`, `AZURE = 5`, `NONE = -1`. -/
def colorEnum : EnumDescriptor :=
  { name := "Color", full_name := "Color",
    value := [⟨"RED", "RED", 0, ⟨"Color"⟩⟩, ⟨"BLUE", "BLUE", 5, ⟨"Color"⟩⟩,
              ⟨"AZURE", "AZURE", 5, ⟨"Color"⟩⟩, ⟨"NONE", "NONE", -1, ⟨"Color"⟩⟩] }

/-- A file with package `shop`: the enum `Unit`, and the message `Order` with a field,
an extension range, the nested enum `State` and the nested message `Item`. -/
def nestedFile : FileDescriptor :=
  { name := "shop.proto", package := "shop", dependency := [],
    message_type :=
      [.mk "Order" "shop.Order"
        [{ countField with containing_type := ⟨"shop.Order"⟩ }] []
        [.mk "Item" "shop.Order.Item"
          [{ tagsField with containing_type := ⟨"shop.Order.Item"⟩ }] [] [] [] []]
        [{ name := "State", full_name := "shop.Order.State",
           value := [⟨"OPEN", "shop.Order.OPEN", 0, ⟨"shop.Order.State"⟩⟩] }]
        [⟨100, 200⟩]],
    enum_type :=
      [{ name := "Unit", full_name := "shop.Unit",
         value := [⟨"KG", "shop.KG", 1, ⟨"shop.Unit"⟩⟩] }],
    service := [] }

/-- A file with package `a.b`, the messages `Req` and `Resp`, and the service `Echo`
with the method `DoThing(Req) returns (Resp)`. -/
def serviceFile : FileDescriptor :=
  { name := "echo.proto", package := "a.b", dependency := [],
    message_type := [.mk "Req" "a.b.Req" [] [] [] [] [], .mk "Resp" "a.b.Resp" [] [] [] [] []],
    enum_type := [],
    service := [{ name := "Echo", method := [⟨"DoThing", ⟨"a.b.Req"⟩, ⟨"a.b.Resp"⟩⟩] }] }

/-- The file of the scenario: package `a.b`, no import, no enum, no service, and the
message `Msg` with the field `optional string name = 1`. -/
def scenarioFile : FileDescriptor :=
  { name := "msg.proto", package := "a.b", dependency := [],
    message_type :=
      [.mk "Msg" "a.b.Msg"
        [{ name := "name", lowercase_name := "name", number := 1, label := .LABEL_OPTIONAL,
           type := .TYPE_STRING, containing_type := ⟨"a.b.Msg"⟩, is_extension := false,
           has_default_value := false, default_value := .string "", options := noOptions }]
        [] [] [] []],
    enum_type := [], service := [] }

/-- The lines the scenario names, in their order. -/
def scenarioLines (fieldLineText : String) : List String :=
  ["module A", "module B", "class Msg < ::Protobuf::Message; end", fieldLineText, "end", "end"]

/-- The enum `Mode` of a file without package, with the values `foo = 0` and
`Foo = 1`. -/
def caseEnum : EnumDescriptor :=
  { name := "Mode", full_name := "Mode",
    value := [⟨"foo", "foo", 0, ⟨"Mode"⟩⟩, ⟨"Foo", "Foo", 1, ⟨"Mode"⟩⟩] }

/-- The field `optional Mode mode = 1 [default = Foo]`. -/
def modeField : FieldDescriptor :=
  { name := "mode", lowercase_name := "mode", number := 1, label := .LABEL_OPTIONAL,
    type := .TYPE_ENUM caseEnum, containing_type := ⟨"Msg"⟩, is_extension := false,
    has_default_value := true, default_value := .enum ⟨"Foo", "Foo", 1, ⟨"Mode"⟩⟩,
    options := noOptions }

/-- The enum `shop.Unit` with the values `KG = 1` and `POUND_AVDP = 2`, and the field
`optional Unit unit = 3 [default = POUND_AVDP]`. -/
def unitEnum : EnumDescriptor :=
  { name := "Unit", full_name := "shop.Unit",
    value := [⟨"KG", "shop.KG", 1, ⟨"shop.Unit"⟩⟩,
              ⟨"POUND_AVDP", "shop.POUND_AVDP", 2, ⟨"shop.Unit"⟩⟩] }

def unitField : FieldDescriptor :=
  { name := "unit", lowercase_name := "unit", number := 3, label := .LABEL_OPTIONAL,
    type := .TYPE_ENUM unitEnum, containing_type := ⟨"shop.Order"⟩, is_extension := false,
    has_default_value := true,
    default_value := .enum ⟨"POUND_AVDP", "shop.POUND_AVDP", 2, ⟨"shop.Unit"⟩⟩,
    options := noOptions }

/-- The field `optional sint32 offset = 4 [default = -2147483648]`. -/
def offsetField : FieldDescriptor :=
  { name := "offset", lowercase_name := "offset", number := 4, label := .LABEL_OPTIONAL,
    type := .TYPE_SINT32, containing_type := ⟨"pkg.Msg"⟩, is_extension := false,
    has_default_value := true, default_value := .int32 (-2147483648), options := noOptions }

/-- A message without regular fields in whose scope the extension
`optional int32 weight = 100` of `pkg.Target` is declared. -/
def weightExtension : FieldDescriptor :=
  { name := "weight", lowercase_name := "weight", number := 100, label := .LABEL_OPTIONAL,
    type := .TYPE_INT32, containing_type := ⟨"pkg.Target"⟩, is_extension := true,
    has_default_value := false, default_value := .int32 0, options := noOptions }

def extensionOnlyMessage : Descriptor :=
  .mk "Scope" "pkg.Scope" [] [weightExtension] [] [] []

/-- The same scope with one regular field besides the extension. -/
def extensionAndFieldMessage : Descriptor :=
  .mk "Scope" "pkg.Scope" [{ tagsField with containing_type := ⟨"pkg.Scope"⟩ }]
    [weightExtension] [] [] []

/-- The field `optional string note = 6` of `pkg.Msg` whose default holds a double
quote, a backslash, a dollar sign, a newline and a tab. -/
def noteField : FieldDescriptor :=
  { name := "note", lowercase_name := "note", number := 6, label := .LABEL_OPTIONAL,
    type := .TYPE_STRING, containing_type := ⟨"pkg.Msg"⟩, is_extension := false,
    has_default_value := true, default_value := .string "a\"b\\c$d\ne\tf",
    options := noOptions }

/-- The field `repeated int32 ids = 7 [packed = false]` of `pkg.Msg`. -/
def idsField : FieldDescriptor :=
  { name := "ids", lowercase_name := "ids", number := 7, label := .LABEL_REPEATED,
    type := .TYPE_INT32, containing_type := ⟨"pkg.Msg"⟩, is_extension := false,
    has_default_value := false, default_value := .int32 0,
    options := { has_packed := true, packed := false, has_deprecated := false,
                 deprecated := false } }

/-- A context whose streams accept five bytes and refuse what comes after. -/
def fiveBytes : GeneratorContext := ⟨fun _ => some 5⟩

end Ruby

/-! # Proofs -/

namespace Ruby

/-! ## Strings -/

theorem append_eq_empty (a b : String) : a ++ b = "" ↔ a = "" ∧ b = "" := by
  simp [String.ext_iff]

theorem renderLines_append (d : Nat) (a b : List String) :
    renderLines d (a ++ b) = renderLines d a ++ renderLines d b := by
  induction a with
  | nil => simp [renderLines]
  | cons x xs ih => simp [renderLines, ih, String.append_assoc]

theorem renderFile_append (a b : List Line) :
    renderFile (a ++ b) = renderFile a ++ renderFile b := by
  induction a with
  | nil => simp [renderFile]
  | cons x xs ih => simp [renderFile, ih, String.append_assoc]

theorem renderFile_single (l : Line) : renderFile [l] = renderLine l.depth l.text := by
  simp [renderFile, Line.render]

/-! ## The printer on a stream that accepts everything -/

theorem Printer.wrote_twice (p : Printer) (a b : String) :
    (p.wrote a).wrote b = p.wrote (a ++ b) := by
  simp [Printer.wrote, String.append_assoc]

theorem Printer.wrote_nothing (p : Printer) : p.wrote "" = p := by
  simp [Printer.wrote]

theorem Printer.wrote_keeps_ready (p : Printer) (hp : p.Ready) (t : String) : (p.wrote t).Ready :=
  ⟨hp.not_failed, hp.unbounded, hp.line_start⟩

theorem Printer.Ready.healthy {p : Printer} (hp : p.Ready) : p.Healthy :=
  ⟨hp.not_failed, hp.unbounded⟩

theorem Printer.wrote_keeps_indent (p : Printer) (t : String) : (p.wrote t).indent_ = p.indent_ :=
  rfl

theorem Printer.wrote_ready_iff (p : Printer) (t : String) : (p.wrote t).Ready ↔ p.Ready :=
  ⟨fun hp => ⟨hp.not_failed, hp.unbounded, hp.line_start⟩, fun hp => Printer.wrote_keeps_ready p hp t⟩

theorem Printer.wrote_healthy_iff (p : Printer) (t : String) :
    (p.wrote t).Healthy ↔ p.Healthy :=
  ⟨fun hp => ⟨hp.not_failed, hp.unbounded⟩, fun hp => ⟨hp.not_failed, hp.unbounded⟩⟩

theorem Printer.WriteRaw_healthy (p : Printer) (hp : p.Healthy) (data : String) :
    p.WriteRaw data =
      if data = "" then p
      else { p with
        out := p.out ++ ((if p.at_start_of_line_ then indentText p.indent_ else "") ++ data)
        at_start_of_line_ := false } := by
  unfold Printer.WriteRaw
  by_cases hd : data = ""
  · simp [hd]
  · cases hs : p.at_start_of_line_ <;>
      simp [hd, hp.not_failed, hp.unbounded, hs, Printer.copy, String.append_assoc]

theorem Printer.WriteRaw_keeps (p : Printer) (hp : p.Healthy) (data : String) :
    (p.WriteRaw data).Healthy := by
  rw [Printer.WriteRaw_healthy p hp]
  split
  · exact hp
  · exact ⟨hp.not_failed, hp.unbounded⟩

/-- Two writes in a row are one write of the concatenation. -/
theorem Printer.WriteRaw_merge (p : Printer) (hp : p.Healthy) (a b : String) :
    (p.WriteRaw a).WriteRaw b = p.WriteRaw (a ++ b) := by
  rw [Printer.WriteRaw_healthy _ (Printer.WriteRaw_keeps p hp a),
    Printer.WriteRaw_healthy p hp, Printer.WriteRaw_healthy p hp]
  by_cases ha : a = "" <;> by_cases hb : b = "" <;>
    simp [ha, hb, append_eq_empty, String.append_assoc]

/-- A write that ends a line, from the start of a line. -/
theorem Printer.write_line (p : Printer) (hp : p.Ready) (s : String) :
    ({ p.WriteRaw (s ++ "\n") with at_start_of_line_ := true } : Printer) =
      p.wrote (renderLine p.indent_ s) := by
  rw [Printer.WriteRaw_healthy p hp.healthy]
  simp [append_eq_empty, hp.line_start, Printer.wrote, renderLine, String.append_assoc]

theorem Printer.write_line_tail (p : Printer) (hp : p.Ready) (s t : String) :
    ({ p.WriteRaw (s ++ (t ++ "\n")) with at_start_of_line_ := true } : Printer) =
      p.wrote (renderLine p.indent_ (s ++ t)) := by
  rw [← String.append_assoc, Printer.write_line p hp]

theorem Printer.WriteVar_found (p : Printer) (vars : VarMap) (k v : String)
    (hk : vars.lookup k = some v) : p.WriteVar vars k = p.WriteRaw v := by
  simp [Printer.WriteVar, hk]

/-! ## The statements of the generator, one by one -/

namespace RubyGenerator

theorem wrote_wrote (g : RubyGenerator) (a b : String) :
    (g.wrote a).wrote b = g.wrote (a ++ b) := by
  simp [RubyGenerator.wrote, Printer.wrote_twice]

theorem wrote_empty (g : RubyGenerator) : g.wrote "" = g := by
  simp [RubyGenerator.wrote, Printer.wrote_nothing]

theorem wrote_ready (g : RubyGenerator) (hg : g.printer_.Ready) (t : String) :
    (g.wrote t).printer_.Ready :=
  Printer.wrote_keeps_ready _ hg t

theorem wrote_indent (g : RubyGenerator) (t : String) :
    (g.wrote t).printer_.indent_ = g.printer_.indent_ := rfl

theorem PrintNewLine_eq (g : RubyGenerator) (hg : g.printer_.Ready) :
    PrintNewLine g = g.wrote (renderLine g.printer_.indent_ "") := by
  have e : PrintNewLine g =
      { g with printer_ := { g.printer_.WriteRaw ("" ++ "\n") with at_start_of_line_ := true } } :=
    rfl
  rw [e, Printer.write_line _ hg]
  rfl

theorem PrintComment_header (comment : String) (g : RubyGenerator) (hg : g.printer_.Ready) :
    PrintComment comment true g =
      g.wrote (renderFile (headerLines g.printer_.indent_ comment)) := by
  have e : PrintComment comment true g =
      { g with printer_ :=
        { Printer.WriteRaw
            { Printer.WriteRaw (Printer.WriteRaw (Printer.WriteRaw
                { g.printer_.WriteRaw ("##" ++ "\n") with at_start_of_line_ := true }
                "# ") comment) "\n" with at_start_of_line_ := true }
            ("#" ++ "\n") with at_start_of_line_ := true } } :=
    rfl
  rw [e]
  simp only [Printer.WriteRaw_merge, Printer.write_line, Printer.wrote_keeps_indent,
    Printer.wrote_ready_iff, Printer.wrote_healthy_iff, hg, hg.healthy]
  simp [RubyGenerator.wrote, Printer.wrote, headerLines, renderFile, Line.render,
    String.append_assoc]

theorem lookup_set (data : VarMap) (k k2 v : String) :
    (VarMap.set data k2 v).lookup k = if k = k2 then some v else data.lookup k := by
  unfold VarMap.set
  by_cases hk : k = k2
  · simp [hk, List.lookup]
  · have : (k == k2) = false := by simpa using hk
    simp [hk, List.lookup, this]

theorem Substitute_default (v : String) :
    Substitute ", :default => $0" v = ", :default => " ++ v := rfl

theorem Substitute_packed (v : String) :
    Substitute ", :packed => $0" v = ", :packed => " ++ v := rfl

theorem Substitute_deprecated (v : String) :
    Substitute ", :deprecated => $0" v = ", :deprecated => " ++ v := rfl

theorem fieldData_lookup (h : Header) (F : FieldDescriptor) :
    (fieldData h F).lookup "message_class" = some (h.Constantize F.containing_type.full_name) ∧
    (fieldData h F).lookup "field_label" = some (labelText F.label) ∧
    (fieldData h F).lookup "data_type" = some (typeToken h F.type) ∧
    (fieldData h F).lookup "field_name" = some F.lowercase_name ∧
    (fieldData h F).lookup "tag_number" = some (SimpleItoa F.number) ∧
    (fieldData h F).lookup "default_opt" = some (defaultClause h F) ∧
    (fieldData h F).lookup "packed_opt" = some (packedClause F) ∧
    (fieldData h F).lookup "deprecated_opt" = some (deprecatedClause F) ∧
    (fieldData h F).lookup "extension_opt" = some (extensionClause F) := by
  unfold fieldData
  cases hl : F.label <;> cases ht : F.type <;>
    simp [lookup_set, apply_ite (List.lookup _), apply_ite some, Substitute_default,
      Substitute_packed, Substitute_deprecated, FieldDescriptor.is_required,
      FieldDescriptor.is_optional, FieldDescriptor.is_repeated, hl, ht, labelText, typeToken,
      defaultClause, packedClause, deprecatedClause, extensionClause, defaultText,
      FieldDescriptor.cpp_type, FieldType.cpp_type, boolText]

set_option maxRecDepth 100000 in
theorem PrintMessageField_eq (h : Header) (F : FieldDescriptor) (g : RubyGenerator)
    (hg : g.printer_.Ready) :
    PrintMessageField h F g = g.wrote (renderLine g.printer_.indent_ (fieldText h F)) := by
  have e : PrintMessageField h F g =
      { g with printer_ :=
        { (
          ((((((((((((((g.printer_.WriteVar (fieldData h F) "message_class").WriteRaw
            ".").WriteVar (fieldData h F) "field_label").WriteRaw "(").WriteVar
            (fieldData h F) "data_type").WriteRaw ", :").WriteVar (fieldData h F)
            "field_name").WriteRaw ", ").WriteVar (fieldData h F) "tag_number").WriteVar
            (fieldData h F) "default_opt").WriteVar (fieldData h F)
            "packed_opt").WriteVar (fieldData h F) "deprecated_opt").WriteVar (fieldData
            h F) "extension_opt").WriteRaw (")" ++ "\n")) : Printer)
          with at_start_of_line_ := true } } :=
    rfl
  obtain ⟨h1, h2, h3, h4, h5, h6, h7, h8, h9⟩ := fieldData_lookup h F
  rw [e]
  simp only [Printer.WriteVar_found _ _ _ _ h1, Printer.WriteVar_found _ _ _ _ h2,
    Printer.WriteVar_found _ _ _ _ h3, Printer.WriteVar_found _ _ _ _ h4,
    Printer.WriteVar_found _ _ _ _ h5, Printer.WriteVar_found _ _ _ _ h6,
    Printer.WriteVar_found _ _ _ _ h7, Printer.WriteVar_found _ _ _ _ h8,
    Printer.WriteVar_found _ _ _ _ h9]
  simp only [Printer.WriteRaw_merge, Printer.write_line, Printer.write_line_tail,
    Printer.wrote_keeps_indent, Printer.wrote_ready_iff, Printer.wrote_healthy_iff, hg, hg.healthy]
  simp [RubyGenerator.wrote, Printer.wrote, fieldText, fieldCall, fieldClauses,
    String.append_assoc]

theorem PrintRequire_eq (lib_name : String) (g : RubyGenerator) (hg : g.printer_.Ready) :
    PrintRequire lib_name g =
      g.wrote (renderFile [requireLine g.printer_.indent_ lib_name]) := by
  have e : PrintRequire lib_name g =
      { g with printer_ :=
        { ((g.printer_.WriteRaw "require '").WriteRaw lib_name).WriteRaw ("'" ++ "\n")
          with at_start_of_line_ := true } } :=
    rfl
  rw [e]
  simp only [Printer.WriteRaw_merge, Printer.write_line, Printer.write_line_tail,
    Printer.wrote_keeps_indent, Printer.wrote_ready_iff, Printer.wrote_healthy_iff, hg, hg.healthy]
  simp [RubyGenerator.wrote, requireLine, renderFile, Line.render]

theorem PrintEnumClass_eq (E : EnumDescriptor) (g : RubyGenerator) (hg : g.printer_.Ready) :
    PrintEnumClass E g = g.wrote (renderFile [enumClassLine g.printer_.indent_ E]) := by
  have e : PrintEnumClass E g =
      { g with printer_ :=
        { Printer.WriteRaw
            (((g.printer_.WriteRaw "class ").WriteRaw E.name).WriteRaw " < ::Protobuf::Enum; end")
            ("" ++ "\n")
          with at_start_of_line_ := true } } :=
    rfl
  rw [e]
  simp only [Printer.WriteRaw_merge, Printer.write_line, Printer.write_line_tail,
    Printer.wrote_keeps_indent, Printer.wrote_ready_iff, Printer.wrote_healthy_iff, hg, hg.healthy]
  simp [RubyGenerator.wrote, enumClassLine, renderFile, Line.render]

theorem PrintEnumValue_eq (h : Header) (v : EnumValueDescriptor) (g : RubyGenerator)
    (hg : g.printer_.Ready) :
    PrintEnumValue h v g = g.wrote (renderFile [defineLine h g.printer_.indent_ v]) := by
  have e : PrintEnumValue h v g =
      { g with printer_ :=
        { ((((g.printer_.WriteRaw (h.Constantize v.type.full_name)).WriteRaw ".define :").WriteRaw
              v.name).WriteRaw ", ").WriteRaw (ConvertIntToString v.number) |>.WriteRaw ("" ++ "\n")
          with at_start_of_line_ := true } } :=
    rfl
  rw [e]
  simp only [Printer.WriteRaw_merge, Printer.write_line, Printer.write_line_tail,
    Printer.wrote_keeps_indent, Printer.wrote_ready_iff, Printer.wrote_healthy_iff, hg, hg.healthy]
  simp [RubyGenerator.wrote, defineLine, defineText, renderFile, Line.render]

theorem messageClass_eq (name : String) (g : RubyGenerator) (hg : g.printer_.Ready) :
    PrintNewLine (g.Print (VarMap.set [] "class_name" name)
        "class $class_name$ < ::Protobuf::Message; end") =
      g.wrote (renderLine g.printer_.indent_ (messageClassText name)) := by
  have e : PrintNewLine (g.Print (VarMap.set [] "class_name" name)
        "class $class_name$ < ::Protobuf::Message; end") =
      { g with printer_ :=
        { Printer.WriteRaw
            (((g.printer_.WriteRaw "class ").WriteRaw name).WriteRaw
              " < ::Protobuf::Message; end")
            ("" ++ "\n")
          with at_start_of_line_ := true } } :=
    rfl
  rw [e]
  simp only [Printer.WriteRaw_merge, Printer.write_line, Printer.write_line_tail,
    Printer.wrote_keeps_indent, Printer.wrote_ready_iff, Printer.wrote_healthy_iff, hg, hg.healthy]
  simp [RubyGenerator.wrote, messageClassText]

theorem extensionRange_eq (h : Header) (fullName : String) (r : ExtensionRange)
    (g : RubyGenerator) (hg : g.printer_.Ready) :
    PrintNewLine (g.Print
        (VarMap.set (VarMap.set (VarMap.set [] "message_class" (h.Constantize fullName))
          "start" (SimpleItoa r.start)) "end" (SimpleItoa r.end_))
        "$message_class$.extensions $start$...$end$") =
      g.wrote (renderFile [rangeLine h g.printer_.indent_ fullName r]) := by
  have e : PrintNewLine (g.Print
        (VarMap.set (VarMap.set (VarMap.set [] "message_class" (h.Constantize fullName))
          "start" (SimpleItoa r.start)) "end" (SimpleItoa r.end_))
        "$message_class$.extensions $start$...$end$") =
      { g with printer_ :=
        { ((((g.printer_.WriteRaw (h.Constantize fullName)).WriteRaw ".extensions ").WriteRaw
              (SimpleItoa r.start)).WriteRaw "...").WriteRaw (SimpleItoa r.end_)
            |>.WriteRaw ("" ++ "\n")
          with at_start_of_line_ := true } } :=
    rfl
  rw [e]
  simp only [Printer.WriteRaw_merge, Printer.write_line, Printer.write_line_tail,
    Printer.wrote_keeps_indent, Printer.wrote_ready_iff, Printer.wrote_healthy_iff, hg, hg.healthy]
  simp [RubyGenerator.wrote, rangeLine, renderFile, Line.render]

theorem PrintServiceMethod_eq (h : Header) (m : MethodDescriptor) (g : RubyGenerator)
    (hg : g.printer_.Ready) :
    PrintServiceMethod h m g = g.wrote (renderFile [rpcLine h g.printer_.indent_ m]) := by
  have e : PrintServiceMethod h m g =
      { g with printer_ :=
        { (((((g.printer_.WriteRaw "rpc :").WriteRaw (h.Underscore m.name)).WriteRaw ", ").WriteRaw
              (h.Constantize m.input_type.full_name)).WriteRaw ", ").WriteRaw
              (h.Constantize m.output_type.full_name) |>.WriteRaw ("" ++ "\n")
          with at_start_of_line_ := true } } :=
    rfl
  rw [e]
  simp only [Printer.WriteRaw_merge, Printer.write_line, Printer.write_line_tail,
    Printer.wrote_keeps_indent, Printer.wrote_ready_iff, Printer.wrote_healthy_iff, hg, hg.healthy]
  simp [RubyGenerator.wrote, rpcLine, renderFile, Line.render]

/-- A loop whose body writes lines and leaves the indentation alone writes the lines
of its iterations, one after the other. -/
theorem foldl_wrote {α : Type} (f : α → RubyGenerator → RubyGenerator) (L : α → List Line)
    (d : Nat) (xs : List α)
    (hf : ∀ x ∈ xs, ∀ g : RubyGenerator, g.printer_.Ready → g.printer_.indent_ = d →
      f x g = g.wrote (renderFile (L x))) :
    ∀ g : RubyGenerator, g.printer_.Ready → g.printer_.indent_ = d →
      xs.foldl (fun g x => f x g) g = g.wrote (renderFile (xs.map L).flatten) := by
  induction xs with
  | nil => intro g _ _; simp [renderFile, wrote_empty]
  | cons x xs ih =>
    intro g hg hd
    have hx := hf x (List.mem_cons_self x xs) g hg hd
    have hxs := ih (fun y hy => hf y (List.mem_cons_of_mem x hy)) (g.wrote (renderFile (L x)))
      (wrote_ready g hg _) hd
    simp only [List.foldl_cons, hx, hxs, wrote_wrote, List.map_cons, List.flatten_cons,
      renderFile_append]

theorem flatten_map_single {α β : Type} (f : α → β) (xs : List α) :
    (xs.map (fun x => [f x])).flatten = xs.map f := by
  induction xs with
  | nil => rfl
  | cons x xs ih => simp [ih]

theorem PrintEnumValues_eq (h : Header) (E : EnumDescriptor) (g : RubyGenerator)
    (hg : g.printer_.Ready) :
    PrintEnumValues h E g = g.wrote (renderFile (enumValueLines h g.printer_.indent_ E)) := by
  have hloop := foldl_wrote (PrintEnumValue h) (fun v => [defineLine h g.printer_.indent_ v])
    g.printer_.indent_ E.value
    (fun v _ g2 hg2 hd => by rw [PrintEnumValue_eq h v g2 hg2, hd]) g hg rfl
  unfold PrintEnumValues
  simp only [hloop, flatten_map_single]
  rw [PrintNewLine_eq _ (wrote_ready g hg _), wrote_wrote, wrote_indent]
  simp [enumValueLines, renderFile_append, renderFile, Line.render, blankLine]

theorem PrintEnumsForDescriptor_class (h : Header) (M : Descriptor) (g : RubyGenerator)
    (hg : g.printer_.Ready) :
    PrintEnumsForDescriptor h M false g =
      g.wrote (renderFile (M.enum_type.map (enumClassLine g.printer_.indent_))) := by
  have hloop := foldl_wrote (fun E g => PrintEnumClass E g)
    (fun E => [enumClassLine g.printer_.indent_ E]) g.printer_.indent_ M.enum_type
    (fun E _ g2 hg2 hd => by beta_reduce; rw [PrintEnumClass_eq E g2 hg2, hd]) g hg rfl
  unfold PrintEnumsForDescriptor
  simpa [flatten_map_single] using hloop

theorem PrintEnumsForDescriptor_values (h : Header) (M : Descriptor) (g : RubyGenerator)
    (hg : g.printer_.Ready) :
    PrintEnumsForDescriptor h M true g =
      g.wrote (renderFile (M.enum_type.map (enumValueLines h g.printer_.indent_)).flatten) := by
  have hloop := foldl_wrote (fun E g => PrintEnumValues h E g)
    (fun E => enumValueLines h g.printer_.indent_ E) g.printer_.indent_ M.enum_type
    (fun E _ g2 hg2 hd => by beta_reduce; rw [PrintEnumValues_eq h E g2 hg2, hd]) g hg rfl
  unfold PrintEnumsForDescriptor
  simpa using hloop

theorem PrintExtensionRangesForDescriptor_eq (h : Header) (M : Descriptor) (g : RubyGenerator)
    (hg : g.printer_.Ready) :
    PrintExtensionRangesForDescriptor h M g =
      g.wrote (renderFile
        (M.extension_range.map (rangeLine h g.printer_.indent_ M.full_name))) := by
  have hloop := foldl_wrote
    (fun (range : ExtensionRange) (g : RubyGenerator) =>
      PrintNewLine (g.Print
        (VarMap.set (VarMap.set (VarMap.set [] "message_class" (h.Constantize M.full_name))
          "start" (SimpleItoa range.start)) "end" (SimpleItoa range.end_))
        "$message_class$.extensions $start$...$end$"))
    (fun r => [rangeLine h g.printer_.indent_ M.full_name r]) g.printer_.indent_
    M.extension_range
    (fun r _ g2 hg2 hd => by beta_reduce; rw [extensionRange_eq h M.full_name r g2 hg2, hd]) g hg rfl
  unfold PrintExtensionRangesForDescriptor
  split
  · simpa [flatten_map_single] using hloop
  · next hne =>
    have : M.extension_range = [] := by
      cases hr : M.extension_range with
      | nil => rfl
      | cons a b => simp [hr] at hne
    simp [this, renderFile, wrote_empty]

theorem fieldLoop_eq (h : Header) (fs : List FieldDescriptor) (g : RubyGenerator)
    (hg : g.printer_.Ready) :
    fs.foldl (fun g f => PrintMessageField h f g) g =
      g.wrote (renderFile (fs.map (fieldLine h g.printer_.indent_))) := by
  have hloop := foldl_wrote (PrintMessageField h) (fun F => [fieldLine h g.printer_.indent_ F])
    g.printer_.indent_ fs
    (fun F _ g2 hg2 hd => by
      rw [PrintMessageField_eq h F g2 hg2, hd]; simp [renderFile, Line.render, fieldLine])
    g hg rfl
  simpa [flatten_map_single] using hloop

/-! ## The two passes over a message -/

mutual

theorem PrintMessageClass_eq (h : Header) :
    ∀ (M : Descriptor) (g : RubyGenerator), g.printer_.Ready →
      PrintMessageClass h M g = g.wrote (renderFile (declLines g.printer_.indent_ M))
  | .mk name full_name field extension nested_type enum_type extension_range, g, hg => by
    have h1 := wrote_ready g hg (renderLine g.printer_.indent_ (messageClassText name))
    have h2 := PrintEnumsForDescriptor_class h
      (.mk name full_name field extension nested_type enum_type extension_range) _ h1
    have h3 := PrintMessagesForDescriptor_class h nested_type _ (h2 ▸ wrote_ready _ h1 _)
    rw [PrintMessageClass]
    simp only [messageClass_eq name g hg]
    rw [h3, h2]
    simp [wrote_wrote, wrote_indent, declLines, renderFile, renderFile_append, Line.render,
      Descriptor.enum_type, String.append_assoc]

theorem PrintMessagesForDescriptor_class (h : Header) :
    ∀ (Ms : List Descriptor) (g : RubyGenerator), g.printer_.Ready →
      PrintMessagesForDescriptor h Ms false g =
        g.wrote (renderFile (declLinesAll g.printer_.indent_ Ms))
  | [], g, _ => by
    rw [PrintMessagesForDescriptor]
    simp [declLinesAll, renderFile, wrote_empty]
  | M :: rest, g, hg => by
    have h1 := PrintMessageClass_eq h M g hg
    have h2 := PrintMessagesForDescriptor_class h rest _ (h1 ▸ wrote_ready g hg _)
    rw [PrintMessagesForDescriptor]
    simp only [Bool.false_eq_true, if_false]
    rw [h2, h1]
    simp [wrote_wrote, wrote_indent, declLinesAll, renderFile_append]

end

/-- The statements of `PrintMessageFields` between the extension ranges and the
nested enums: the block of the fields. -/
theorem fieldBlock_eq (h : Header) (field extension : List FieldDescriptor)
    (g : RubyGenerator) (hg : g.printer_.Ready) :
    (if field.length > 0 then
        PrintNewLine
          (if extension.length > 0 then
            extension.foldl (fun g f => PrintMessageField h f g)
              (field.foldl (fun g f => PrintMessageField h f g) g)
          else field.foldl (fun g f => PrintMessageField h f g) g)
      else g) =
      g.wrote (renderFile (fieldBlock h g.printer_.indent_ field extension)) := by
  have h1 := fieldLoop_eq h field g hg
  have r1 := wrote_ready g hg (renderFile (field.map (fieldLine h g.printer_.indent_)))
  have h2 := fieldLoop_eq h extension _ r1
  have r2 := wrote_ready _ r1 (renderFile (extension.map (fieldLine h g.printer_.indent_)))
  simp only [wrote_indent] at h2
  unfold fieldBlock
  by_cases hf : field.length > 0
  · simp only [hf, if_true]
    by_cases he : extension.length > 0
    · simp only [he, if_true]
      rw [h1, h2, PrintNewLine_eq _ r2]
      simp [wrote_wrote, wrote_indent, renderFile_append, renderFile, Line.render, blankLine,
        String.append_assoc]
    · have he0 : extension = [] := by
        cases extension with
        | nil => rfl
        | cons a b => simp at he
      simp only [he, if_false]
      rw [h1, PrintNewLine_eq _ r1]
      simp [he0, wrote_wrote, wrote_indent, renderFile_append, renderFile, Line.render,
        blankLine]
  · simp [hf, renderFile, wrote_empty]

mutual

theorem PrintMessageFields_eq (h : Header) :
    ∀ (M : Descriptor) (g : RubyGenerator), g.printer_.Ready →
      PrintMessageFields h M g = g.wrote (renderFile (popLines h g.printer_.indent_ M))
  | .mk name full_name field extension nested_type enum_type extension_range, g, hg => by
    have h1 := PrintExtensionRangesForDescriptor_eq h
      (.mk name full_name field extension nested_type enum_type extension_range) g hg
    have r1 := wrote_ready g hg (renderFile
      (extension_range.map (rangeLine h g.printer_.indent_ full_name)))
    have h2 := fieldBlock_eq h field extension _ r1
    have r2 := wrote_ready _ r1 (renderFile (fieldBlock h g.printer_.indent_ field extension))
    have h3 := PrintEnumsForDescriptor_values h
      (.mk name full_name field extension nested_type enum_type extension_range) _ r2
    have r3 := wrote_ready _ r2
      (renderFile (enum_type.map (enumValueLines h g.printer_.indent_)).flatten)
    have h4 := PrintMessagesForDescriptor_fields h nested_type _ r3
    simp only [Descriptor.extension_range, Descriptor.full_name, Descriptor.enum_type,
      wrote_indent] at h1 h2 h3 h4
    rw [PrintMessageFields]
    simp only [h1, h2, h3, h4]
    simp [wrote_wrote, popLines, renderFile_append, String.append_assoc]

theorem PrintMessagesForDescriptor_fields (h : Header) :
    ∀ (Ms : List Descriptor) (g : RubyGenerator), g.printer_.Ready →
      PrintMessagesForDescriptor h Ms true g =
        g.wrote (renderFile (popLinesAll h g.printer_.indent_ Ms))
  | [], g, _ => by
    rw [PrintMessagesForDescriptor]
    simp [popLinesAll, renderFile, wrote_empty]
  | M :: rest, g, hg => by
    have h1 := PrintMessageFields_eq h M g hg
    have h2 := PrintMessagesForDescriptor_fields h rest _ (h1 ▸ wrote_ready g hg _)
    rw [PrintMessagesForDescriptor]
    simp only [if_true]
    rw [h2, h1]
    simp [wrote_wrote, wrote_indent, popLinesAll, renderFile_append]

end

/-! ## Statements that change the indentation -/

theorem wrote_eq_after (g : RubyGenerator) (t : String) :
    g.wrote t = g.after t g.printer_.indent_ [] := by
  simp [RubyGenerator.wrote, Printer.wrote, RubyGenerator.after]

theorem after_after (g : RubyGenerator) (t t2 : String) (d d2 : Nat) (c c2 : List IndentCall) :
    (g.after t d c).after t2 d2 c2 = g.after (t ++ t2) d2 (c ++ c2) := by
  simp [RubyGenerator.after, String.append_assoc]

theorem after_ready (g : RubyGenerator) (hg : g.printer_.Ready) (t : String) (d : Nat)
    (c : List IndentCall) : (g.after t d c).printer_.Ready :=
  ⟨hg.not_failed, hg.unbounded, hg.line_start⟩

theorem after_indent (g : RubyGenerator) (t : String) (d : Nat) (c : List IndentCall) :
    (g.after t d c).printer_.indent_ = d := rfl

theorem after_wrote (g : RubyGenerator) (t t2 : String) (d : Nat) (c : List IndentCall) :
    (g.after t d c).wrote t2 = g.after (t ++ t2) d c := by
  rw [wrote_eq_after, after_after, after_indent, List.append_nil]

theorem Indent_after (g : RubyGenerator) (t : String) (d : Nat) (c : List IndentCall) :
    (g.after t d c).Indent = g.after t (d + 1) (c ++ [IndentCall.indent]) := by
  simp [RubyGenerator.after, RubyGenerator.Indent, Printer.Indent]

theorem Outdent_after (g : RubyGenerator) (t : String) (d : Nat) (c : List IndentCall) :
    (g.after t (d + 1) c).Outdent = g.after t d (c ++ [IndentCall.outdent]) := by
  simp [RubyGenerator.after, RubyGenerator.Outdent, Printer.Outdent]

theorem moduleStep_eq (iter : String) (g : RubyGenerator) (hg : g.printer_.Ready) :
    PrintNewLine (g.Print (VarMap.set [] "ns" (Constantize iter false)) "module $ns$") =
      g.wrote (renderLine g.printer_.indent_ ("module " ++ Constantize iter false)) := by
  have e : PrintNewLine (g.Print (VarMap.set [] "ns" (Constantize iter false)) "module $ns$") =
      { g with printer_ :=
        { ((g.printer_.WriteRaw "module ").WriteRaw (Constantize iter false)).WriteRaw
            ("" ++ "\n")
          with at_start_of_line_ := true } } :=
    rfl
  rw [e]
  simp only [Printer.WriteRaw_merge, Printer.write_line, Printer.write_line_tail,
    Printer.wrote_keeps_indent, Printer.wrote_ready_iff, Printer.wrote_healthy_iff, hg, hg.healthy]
  simp [RubyGenerator.wrote]

theorem endStep_eq (g : RubyGenerator) (hg : g.printer_.Ready) :
    PrintNewLine (g.Print [] "end") = g.wrote (renderLine g.printer_.indent_ "end") := by
  have e : PrintNewLine (g.Print [] "end") =
      { g with printer_ :=
        { g.printer_.WriteRaw "end" |>.WriteRaw ("" ++ "\n")
          with at_start_of_line_ := true } } :=
    rfl
  rw [e]
  simp only [Printer.WriteRaw_merge, Printer.write_line, Printer.write_line_tail,
    Printer.wrote_keeps_indent, Printer.wrote_ready_iff, Printer.wrote_healthy_iff, hg, hg.healthy]
  simp [RubyGenerator.wrote]

theorem moduleLoop_eq (ns : List String) :
    ∀ (g : RubyGenerator), g.printer_.Ready →
      ns.foldl
        (fun g iter =>
          (PrintNewLine
            (g.Print (VarMap.set [] "ns" (Constantize iter false)) "module $ns$")).Indent) g =
        g.after (renderFile (moduleLines g.printer_.indent_ ns))
          (g.printer_.indent_ + ns.length) (List.replicate ns.length IndentCall.indent) := by
  induction ns with
  | nil =>
    intro g _
    simp [moduleLines, renderFile, RubyGenerator.after]
  | cons x rest ih =>
    intro g hg
    have hstep : (PrintNewLine
        (g.Print (VarMap.set [] "ns" (Constantize x false)) "module $ns$")).Indent =
        g.after (renderLine g.printer_.indent_ ("module " ++ Constantize x false))
          (g.printer_.indent_ + 1) [IndentCall.indent] := by
      rw [moduleStep_eq x g hg, wrote_eq_after, Indent_after, List.nil_append]
    rw [List.foldl_cons, hstep, ih _ (after_ready g hg _ _ _), after_after, after_indent]
    simp [moduleLines, renderFile, Line.render, List.replicate_succ, Nat.add_assoc,
      Nat.add_comm 1]

theorem PrintEnclosingNamespaceModules_eq (g : RubyGenerator) (hg : g.printer_.Ready) :
    PrintEnclosingNamespaceModules g =
      g.after (renderFile (blankLine g.printer_.indent_ :: moduleLines g.printer_.indent_ g.ns_vector))
        (g.printer_.indent_ + g.ns_vector.length)
        (List.replicate g.ns_vector.length IndentCall.indent) := by
  unfold PrintEnclosingNamespaceModules
  have h1 := PrintNewLine_eq g hg
  have h2 := moduleLoop_eq g.ns_vector _ (wrote_ready g hg (renderLine g.printer_.indent_ ""))
  simp only [VarMap.set] at h2 ⊢
  have hns : (PrintNewLine g).ns_vector = g.ns_vector := rfl
  rw [hns, h1, h2, wrote_eq_after, after_after, after_indent]
  simp [renderFile, Line.render, blankLine]

theorem endLoop_eq (xs : List String) :
    ∀ (g : RubyGenerator) (d : Nat), g.printer_.Ready → g.printer_.indent_ = d + xs.length →
      xs.foldl (fun g _ => PrintNewLine ((g.Outdent).Print [] "end")) g =
        g.after (renderFile (moduleEndLines d xs.length)) d
          (List.replicate xs.length IndentCall.outdent) := by
  induction xs with
  | nil =>
    intro g d _ hd
    simp at hd
    simp [moduleEndLines, renderFile, RubyGenerator.after, ← hd]
  | cons x rest ih =>
    intro g d hg hd
    have hg0 : g = g.after "" (d + rest.length + 1) [] := by
      have hd2 : d + rest.length + 1 = g.printer_.indent_ := by
        simp [hd, Nat.add_assoc]
      rw [hd2]
      simp [RubyGenerator.after]
    have hstep : PrintNewLine ((g.Outdent).Print [] "end") =
        g.after (renderLine (d + rest.length) "end") (d + rest.length)
          [IndentCall.outdent] := by
      conv_lhs => rw [hg0, Outdent_after]
      rw [endStep_eq _ (after_ready g hg _ _ _), after_wrote, after_indent]
      simp
    rw [List.foldl_cons, hstep, ih _ d (after_ready g hg _ _ _) (after_indent _ _ _ _),
      after_after]
    simp [moduleEndLines, renderFile, Line.render, List.replicate_succ]

theorem PrintEnclosingNamespaceModuleEnds_eq (g : RubyGenerator) (d : Nat)
    (hg : g.printer_.Ready) (hd : g.printer_.indent_ = d + g.ns_vector.length) :
    PrintEnclosingNamespaceModuleEnds g =
      g.after (renderFile (moduleEndLines d g.ns_vector.length)) d
        (List.replicate g.ns_vector.length IndentCall.outdent) := by
  unfold PrintEnclosingNamespaceModuleEnds
  exact endLoop_eq g.ns_vector g d hg hd

theorem length_pos_false {α : Type} {xs : List α} (hx : ¬ xs.length > 0) : xs = [] := by
  cases xs with
  | nil => rfl
  | cons a b => simp at hx

theorem serviceOpen_eq (name : String) (g : RubyGenerator) (hg : g.printer_.Ready) :
    PrintNewLine (g.Print (VarMap.set [] "class_name" name)
        "class $class_name$ < ::Protobuf::Service") =
      g.wrote (renderLine g.printer_.indent_ ("class " ++ name ++ " < ::Protobuf::Service")) := by
  have e : PrintNewLine (g.Print (VarMap.set [] "class_name" name)
        "class $class_name$ < ::Protobuf::Service") =
      { g with printer_ :=
        { Printer.WriteRaw
            (((g.printer_.WriteRaw "class ").WriteRaw name).WriteRaw " < ::Protobuf::Service")
            ("" ++ "\n")
          with at_start_of_line_ := true } } :=
    rfl
  rw [e]
  simp only [Printer.WriteRaw_merge, Printer.write_line, Printer.write_line_tail,
    Printer.wrote_keeps_indent, Printer.wrote_ready_iff, Printer.wrote_healthy_iff, hg, hg.healthy]
  simp [RubyGenerator.wrote]

theorem PrintService_eq (h : Header) (S : ServiceDescriptor) (g : RubyGenerator)
    (hg : g.printer_.Ready) :
    PrintService h S g =
      g.after (renderFile (serviceLines h g.printer_.indent_ S)) g.printer_.indent_
        [IndentCall.indent, IndentCall.outdent] := by
  have h1 := serviceOpen_eq S.name g hg
  have r2 := after_ready g hg
    (renderLine g.printer_.indent_ ("class " ++ S.name ++ " < ::Protobuf::Service"))
    (g.printer_.indent_ + 1) ([] ++ [IndentCall.indent])
  have h2 := foldl_wrote (PrintServiceMethod h) (fun m => [rpcLine h (g.printer_.indent_ + 1) m])
    (g.printer_.indent_ + 1) S.method
    (fun m _ g2 hg2 hd => by rw [PrintServiceMethod_eq h m g2 hg2, hd]) _ r2 rfl
  unfold PrintService
  simp only [VarMap.set] at h1 ⊢
  rw [h1, wrote_eq_after, Indent_after, h2, after_wrote, Outdent_after,
    endStep_eq _ (after_ready g hg _ _ _), after_wrote, after_indent]
  simp [serviceLines, flatten_map_single, renderFile, renderFile_append, Line.render,
    String.append_assoc]

theorem serviceLoop_eq (h : Header) (xs : List ServiceDescriptor) :
    ∀ (g : RubyGenerator), g.printer_.Ready →
      xs.foldl (fun g service => PrintService h service g) g =
        g.after (renderFile (xs.map (serviceLines h g.printer_.indent_)).flatten)
          g.printer_.indent_ (serviceCalls xs) := by
  induction xs with
  | nil =>
    intro g _
    simp [renderFile, serviceCalls, RubyGenerator.after]
  | cons x rest ih =>
    intro g hg
    rw [List.foldl_cons, PrintService_eq h x g hg, ih _ (after_ready g hg _ _ _), after_after,
      after_indent]
    simp [serviceCalls, renderFile_append]

theorem PrintServices_eq (h : Header) (g : RubyGenerator) (hg : g.printer_.Ready) :
    PrintServices h g =
      g.after
        (renderFile
          (if g.file_.service.length > 0 then
            headerLines g.printer_.indent_ "Services" ++
              (g.file_.service.map (serviceLines h g.printer_.indent_)).flatten
          else []))
        g.printer_.indent_ (serviceCalls g.file_.service) := by
  unfold PrintServices
  by_cases hs : g.file_.service.length > 0
  · have h1 := PrintComment_header "Services" g hg
    have hf : (PrintComment "Services" true g).file_ = g.file_ := by rw [h1]; rfl
    simp only [hs, if_true, hf]
    rw [h1, serviceLoop_eq h _ _ (wrote_ready g hg _), wrote_eq_after, after_after,
      after_indent]
    simp [renderFile_append]
  · simp [hs, length_pos_false hs, renderFile, serviceCalls, RubyGenerator.after]

theorem PrintGenericRequires_eq (g : RubyGenerator) (hg : g.printer_.Ready) :
    PrintGenericRequires g =
      g.wrote (renderFile
        ((if g.file_.message_type.length > 0
            then [requireLine g.printer_.indent_ "protobuf/message"] else []) ++
          (if g.file_.service.length > 0
            then [requireLine g.printer_.indent_ "protobuf/rpc/service"] else []))) := by
  unfold PrintGenericRequires
  by_cases hm : g.file_.message_type.length > 0 <;> by_cases hs : g.file_.service.length > 0
  · have h1 := PrintRequire_eq "protobuf/message" g hg
    have hf : (PrintRequire "protobuf/message" g).file_ = g.file_ := by rw [h1]; rfl
    simp only [hm, hs, if_true, hf]
    rw [h1, PrintRequire_eq _ _ (wrote_ready g hg _), wrote_wrote, wrote_indent]
    simp [renderFile, String.append_assoc]
  · have h1 := PrintRequire_eq "protobuf/message" g hg
    have hf : (PrintRequire "protobuf/message" g).file_ = g.file_ := by rw [h1]; rfl
    simp only [hm, hs, if_true, if_false, hf]
    rw [h1]
    simp
  · simp only [hm, hs, if_true, if_false]
    rw [PrintRequire_eq _ _ hg]
    simp
  · simp [hm, hs, renderFile, wrote_empty]

theorem PrintImportRequires_eq (h : Header) (g : RubyGenerator) (hg : g.printer_.Ready) :
    PrintImportRequires h g =
      g.wrote (renderFile
        (if g.file_.dependency.length > 0 then
          blankLine g.printer_.indent_ :: (headerLines g.printer_.indent_ "Imports" ++
            g.file_.dependency.map
              (fun dep => requireLine g.printer_.indent_ (h.CreateRubyFileName dep.name true)))
        else [])) := by
  unfold PrintImportRequires
  by_cases hdep : g.file_.dependency.length > 0
  · have h1 := PrintNewLine_eq g hg
    have r1 := wrote_ready g hg (renderLine g.printer_.indent_ "")
    have h2 := PrintComment_header "Imports" _ r1
    have r2 := wrote_ready _ r1 (renderFile (headerLines g.printer_.indent_ "Imports"))
    have h3 := foldl_wrote
      (fun (dep : FileRef) g => PrintRequire (h.CreateRubyFileName dep.name true) g)
      (fun dep => [requireLine g.printer_.indent_ (h.CreateRubyFileName dep.name true)])
      g.printer_.indent_ g.file_.dependency
      (fun dep _ g2 hg2 hd => by
        beta_reduce; rw [PrintRequire_eq _ g2 hg2, hd]) _ r2 rfl
    simp only [wrote_indent] at h2
    have hf : (PrintComment "Imports" true (PrintNewLine g)).file_ = g.file_ := by
      rw [h1, h2]; rfl
    simp only [hdep, if_true, hf]
    rw [h1, h2, h3]
    simp [wrote_wrote, flatten_map_single, renderFile, renderFile_append, Line.render,
      blankLine, String.append_assoc]
  · simp [hdep, renderFile, wrote_empty]

theorem PrintEnumsForFileDescriptor_class (h : Header) (file : FileDescriptor)
    (g : RubyGenerator) (hg : g.printer_.Ready) :
    PrintEnumsForFileDescriptor h file false g =
      g.wrote (renderFile
        (if file.enum_type.length > 0 then
          headerLines g.printer_.indent_ "Enum Classes" ++
            file.enum_type.map (enumClassLine g.printer_.indent_)
        else [])) := by
  unfold PrintEnumsForFileDescriptor
  by_cases he : file.enum_type.length > 0
  · have h1 := PrintComment_header "Enum Classes" g hg
    have h2 := foldl_wrote (fun E g => PrintEnumClass E g)
      (fun E => [enumClassLine g.printer_.indent_ E]) g.printer_.indent_ file.enum_type
      (fun E _ g2 hg2 hd => by beta_reduce; rw [PrintEnumClass_eq E g2 hg2, hd]) _
      (wrote_ready g hg (renderFile (headerLines g.printer_.indent_ "Enum Classes"))) rfl
    simp only [he, if_true, Bool.false_eq_true, if_false]
    rw [h1, h2]
    simp [wrote_wrote, flatten_map_single, renderFile_append]
  · simp [he, renderFile, wrote_empty]

theorem PrintEnumsForFileDescriptor_values (h : Header) (file : FileDescriptor)
    (g : RubyGenerator) (hg : g.printer_.Ready) :
    PrintEnumsForFileDescriptor h file true g =
      g.wrote (renderFile
        (if file.enum_type.length > 0 then
          headerLines g.printer_.indent_ "Enum Values" ++
            (file.enum_type.map (enumValueLines h g.printer_.indent_)).flatten
        else [])) := by
  unfold PrintEnumsForFileDescriptor
  by_cases he : file.enum_type.length > 0
  · have h1 := PrintComment_header "Enum Values" g hg
    have h2 := foldl_wrote (fun E g => PrintEnumValues h E g)
      (fun E => enumValueLines h g.printer_.indent_ E) g.printer_.indent_ file.enum_type
      (fun E _ g2 hg2 hd => by beta_reduce; rw [PrintEnumValues_eq h E g2 hg2, hd]) _
      (wrote_ready g hg (renderFile (headerLines g.printer_.indent_ "Enum Values"))) rfl
    simp only [he, if_true]
    rw [h1, h2]
    simp [wrote_wrote, renderFile_append]
  · simp [he, renderFile, wrote_empty]

theorem declLinesAll_eq (d : Nat) (Ms : List Descriptor) :
    declLinesAll d Ms = (Ms.map (declLines d)).flatten := by
  induction Ms with
  | nil => simp [declLinesAll]
  | cons M rest ih => simp [declLinesAll, ih]

theorem popLinesAll_eq (h : Header) (d : Nat) (Ms : List Descriptor) :
    popLinesAll h d Ms = (Ms.map (popLines h d)).flatten := by
  induction Ms with
  | nil => simp [popLinesAll]
  | cons M rest ih => simp [popLinesAll, ih]

theorem PrintMessagesForFileDescriptor_class (h : Header) (file : FileDescriptor)
    (g : RubyGenerator) (hg : g.printer_.Ready) :
    PrintMessagesForFileDescriptor h file false g =
      g.wrote (renderFile
        (if file.message_type.length > 0 then
          headerLines g.printer_.indent_ "Message Classes" ++
            declLinesAll g.printer_.indent_ file.message_type
        else [])) := by
  unfold PrintMessagesForFileDescriptor
  by_cases hm : file.message_type.length > 0
  · have h1 := PrintComment_header "Message Classes" g hg
    have h2 := foldl_wrote (fun M g => PrintMessageClass h M g)
      (fun M => declLines g.printer_.indent_ M) g.printer_.indent_ file.message_type
      (fun M _ g2 hg2 hd => by beta_reduce; rw [PrintMessageClass_eq h M g2 hg2, hd]) _
      (wrote_ready g hg (renderFile (headerLines g.printer_.indent_ "Message Classes"))) rfl
    simp only [hm, if_true, Bool.false_eq_true, if_false]
    rw [h1, h2]
    simp [wrote_wrote, renderFile_append, declLinesAll_eq]
  · simp [hm, renderFile, wrote_empty]

theorem PrintMessagesForFileDescriptor_fields (h : Header) (file : FileDescriptor)
    (g : RubyGenerator) (hg : g.printer_.Ready) :
    PrintMessagesForFileDescriptor h file true g =
      g.wrote (renderFile
        (if file.message_type.length > 0 then
          headerLines g.printer_.indent_ "Message Fields" ++
            popLinesAll h g.printer_.indent_ file.message_type
        else [])) := by
  unfold PrintMessagesForFileDescriptor
  by_cases hm : file.message_type.length > 0
  · have h1 := PrintComment_header "Message Fields" g hg
    have h2 := foldl_wrote (fun M g => PrintMessageFields h M g)
      (fun M => popLines h g.printer_.indent_ M) g.printer_.indent_ file.message_type
      (fun M _ g2 hg2 hd => by beta_reduce; rw [PrintMessageFields_eq h M g2 hg2, hd]) _
      (wrote_ready g hg (renderFile (headerLines g.printer_.indent_ "Message Fields"))) rfl
    simp only [hm, if_true]
    rw [h1, h2]
    simp [wrote_wrote, renderFile_append, popLinesAll_eq]
  · simp [hm, renderFile, wrote_empty]

theorem after_file (g : RubyGenerator) (t : String) (d : Nat) (c : List IndentCall) :
    (g.after t d c).file_ = g.file_ := rfl

theorem after_ns_vector (g : RubyGenerator) (t : String) (d : Nat) (c : List IndentCall) :
    (g.after t d c).ns_vector = g.ns_vector := rfl

theorem after_failed (g : RubyGenerator) (t : String) (d : Nat) (c : List IndentCall) :
    (g.after t d c).printer_.failed_ = g.printer_.failed_ := rfl

theorem after_text_congr (g : RubyGenerator) (t t2 : String) (d : Nat) (c : List IndentCall)
    (ht : t = t2) : g.after t d c = g.after t2 d c := by
  rw [ht]

theorem renderFile_cons (l : Line) (ls : List Line) :
    renderFile (l :: ls) = l.render ++ renderFile ls := rfl

theorem renderFile_nil : renderFile [] = "" := rfl

theorem blankLine_render (d : Nat) : (blankLine d).render = renderLine d "" := rfl

/-- `Generate` sets the members, constructs the printer on the opened stream, prints,
and reports. -/
theorem Generate_unfold (h : Header) (g : RubyGenerator) (file : FileDescriptor)
    (parameter : String) (context : GeneratorContext) (error : String) :
    Generate h g file parameter context error =
      finish
        (printAll h
          { file_ := file, context_ := context,
            filename := h.CreateRubyFileName file.name false,
            ns_vector := SplitStringUsing file.package '.',
            printer_ := Printer.new (context.Open (h.CreateRubyFileName file.name false)) })
        error := by
  unfold Generate
  lift_lets
  extract_lets g1 g2 g3 g4 g5 output printer g6 s1 s2 s3 s4 s5 s6 s7 s8 s9 s10 s11 s12 s13 s14
  have e6 : g6 =
      { file_ := file, context_ := context,
        filename := h.CreateRubyFileName file.name false,
        ns_vector := SplitStringUsing file.package '.',
        printer_ := Printer.new (context.Open (h.CreateRubyFileName file.name false)) } :=
    rfl
  have e14 : s14 = printAll h g6 := rfl
  rw [← e6, ← e14]
  rfl

theorem printAll_eq (h : Header) (G : RubyGenerator) (hg0 : G.printer_.Ready)
    (hind : G.printer_.indent_ = 0) :
    printAll h G =
      G.after
        (renderFile
          (headerLines 0 "This file is auto-generated. DO NOT EDIT!" ++
          ((if G.file_.message_type.length > 0 then [requireLine 0 "protobuf/message"] else []) ++
          ((if G.file_.service.length > 0 then [requireLine 0 "protobuf/rpc/service"] else []) ++
          ((if G.file_.dependency.length > 0 then
              blankLine 0 :: (headerLines 0 "Imports" ++
                G.file_.dependency.map
                  (fun dep => requireLine 0 (h.CreateRubyFileName dep.name true)))
            else []) ++
          (blankLine 0 :: moduleLines 0 G.ns_vector)))) ++
          (declarationBlock G.ns_vector.length G.file_ ++
            (populationBlock h G.ns_vector.length G.file_ ++
              trailerLines h G.ns_vector.length G.file_))))
        0
        (List.replicate G.ns_vector.length IndentCall.indent ++
          (serviceCalls G.file_.service ++
            List.replicate G.ns_vector.length IndentCall.outdent)) := by
  unfold printAll PrintGeneratedFileComment
  beta_reduce
  rw [PrintComment_header _ G hg0, wrote_eq_after]
  rw [PrintGenericRequires_eq _ (after_ready G hg0 _ _ _), after_wrote]
  rw [PrintImportRequires_eq h _ (after_ready G hg0 _ _ _), after_wrote]
  rw [PrintEnclosingNamespaceModules_eq _ (after_ready G hg0 _ _ _), after_after]
  simp only [after_file, after_indent, after_ns_vector]
  rw [PrintEnumsForFileDescriptor_class h _ _ (after_ready G hg0 _ _ _), after_wrote]
  rw [PrintNewLine_eq _ (after_ready G hg0 _ _ _), after_wrote]
  simp only [after_file, after_indent, after_ns_vector]
  rw [PrintMessagesForFileDescriptor_class h _ _ (after_ready G hg0 _ _ _), after_wrote]
  rw [PrintNewLine_eq _ (after_ready G hg0 _ _ _), after_wrote]
  simp only [after_file, after_indent, after_ns_vector]
  rw [PrintEnumsForFileDescriptor_values h _ _ (after_ready G hg0 _ _ _), after_wrote]
  rw [PrintNewLine_eq _ (after_ready G hg0 _ _ _), after_wrote]
  simp only [after_file, after_indent, after_ns_vector]
  rw [PrintMessagesForFileDescriptor_fields h _ _ (after_ready G hg0 _ _ _), after_wrote]
  rw [PrintNewLine_eq _ (after_ready G hg0 _ _ _), after_wrote]
  simp only [after_file, after_indent, after_ns_vector]
  rw [PrintServices_eq h _ (after_ready G hg0 _ _ _), after_after]
  simp only [after_file, after_indent, after_ns_vector]
  rw [PrintEnclosingNamespaceModuleEnds_eq _ 0 (after_ready G hg0 _ _ _)
    (by simp [after_indent, after_ns_vector, hind]), after_after]
  simp only [after_ns_vector, hind, Nat.zero_add]
  rw [List.nil_append, List.append_assoc]
  refine after_text_congr _ _ _ _ _ ?_
  simp only [declarationBlock, populationBlock, trailerLines, renderFile_append,
    renderFile_cons, renderFile_nil, blankLine_render, String.append_assoc,
    String.append_empty]

theorem startOf_eq (h : Header) (file : FileDescriptor) (context : GeneratorContext) :
    ({ file_ := file, context_ := context,
       filename := h.CreateRubyFileName file.name false,
       ns_vector := SplitStringUsing file.package '.',
       printer_ := Printer.new none } : RubyGenerator) = startOf h file context := rfl

theorem finish_after (g : RubyGenerator) (hg : g.printer_.failed_ = false) (t : String)
    (d : Nat) (c : List IndentCall) (error : String) :
    finish (g.after t d c) error = (g.after t d c, true, error) := by
  unfold finish
  rw [after_failed, hg]
  rfl

theorem startOf_ready (h : Header) (file : FileDescriptor) (context : GeneratorContext) :
    (startOf h file context).printer_.Ready := ⟨rfl, rfl, rfl⟩

/-- On a stream that never refuses a write, `Generate` succeeds, leaves the error
string alone, and its printer has written the lines of the file, is back at depth
zero and has received the calls of `indentCalls`. -/
theorem Generate_eq (h : Header) (g : RubyGenerator) (file : FileDescriptor)
    (parameter : String) (context : GeneratorContext) (error : String)
    (hopen : context.Open (h.CreateRubyFileName file.name false) = none) :
    Generate h g file parameter context error =
      ((startOf h file context).after (renderFile (fileLines h file)) 0 (indentCalls file),
        true, error) := by
  rw [Generate_unfold, hopen, startOf_eq h file context,
    printAll_eq h _ (startOf_ready h file context) rfl,
    finish_after _ (startOf_ready h file context).not_failed]
  rfl

end RubyGenerator

/-! ## Calls and members whatever the stream accepts

No write changes the indent, the history of calls or a member other than the printer,
whether the stream accepts it or not. -/

theorem Printer.copy_frame (p : Printer) (data : String) :
    (p.copy data).indent_ = p.indent_ ∧ (p.copy data).calls = p.calls := by
  unfold Printer.copy
  split
  · exact ⟨rfl, rfl⟩
  · split <;> exact ⟨rfl, rfl⟩

theorem Printer.WriteRaw_frame (p : Printer) (data : String) :
    (p.WriteRaw data).indent_ = p.indent_ ∧ (p.WriteRaw data).calls = p.calls := by
  unfold Printer.WriteRaw
  split
  · exact ⟨rfl, rfl⟩
  · split
    · exact ⟨rfl, rfl⟩
    · have hq : ∀ q : Printer, q.indent_ = p.indent_ ∧ q.calls = p.calls →
          (if q.failed_ then q else q.copy data).indent_ = p.indent_ ∧
            (if q.failed_ then q else q.copy data).calls = p.calls := by
        intro q hq
        split
        · exact hq
        · exact ⟨(Printer.copy_frame q data).1.trans hq.1,
            (Printer.copy_frame q data).2.trans hq.2⟩
      apply hq
      split
      · exact Printer.copy_frame _ _
      · exact ⟨rfl, rfl⟩

theorem Printer.WriteVar_frame (p : Printer) (vars : VarMap) (varname : String) :
    (p.WriteVar vars varname).indent_ = p.indent_ ∧
      (p.WriteVar vars varname).calls = p.calls := by
  unfold Printer.WriteVar
  split
  · exact Printer.WriteRaw_frame _ _
  · exact ⟨rfl, rfl⟩

theorem Printer.scan_frame (vars : VarMap) (cs : List Char) :
    ∀ (st : Scan) (p : Printer),
      (Printer.scan vars cs st p).indent_ = p.indent_ ∧
        (Printer.scan vars cs st p).calls = p.calls := by
  induction cs with
  | nil =>
    intro st p
    cases st with
    | text pending => exact Printer.WriteRaw_frame _ _
    | name varname => exact ⟨rfl, rfl⟩
  | cons c cs ih =>
    intro st p
    cases st with
    | text pending =>
      simp only [Printer.scan]
      split
      · refine ⟨(ih _ _).1.trans ?_, (ih _ _).2.trans ?_⟩
        · exact (Printer.WriteRaw_frame _ _).1
        · exact (Printer.WriteRaw_frame _ _).2
      · split
        · exact ⟨(ih _ _).1.trans (Printer.WriteRaw_frame _ _).1,
            (ih _ _).2.trans (Printer.WriteRaw_frame _ _).2⟩
        · exact ih _ _
    | name varname =>
      simp only [Printer.scan]
      split
      · refine ⟨(ih _ _).1.trans ?_, (ih _ _).2.trans ?_⟩
        · split
          · exact (Printer.WriteRaw_frame _ _).1
          · exact (Printer.WriteVar_frame _ _ _).1
        · split
          · exact (Printer.WriteRaw_frame _ _).2
          · exact (Printer.WriteVar_frame _ _ _).2
      · exact ih _ _

namespace RubyGenerator

theorem Moved.same (g : RubyGenerator) : Moved g g g.printer_.indent_ [] :=
  ⟨rfl, rfl, rfl, rfl, rfl, (List.append_nil _).symm⟩

theorem Moved.andThen {g g2 g3 : RubyGenerator} {d d2 : Nat} {cs cs2 : List IndentCall}
    (a : Moved g g2 d cs) (b : Moved g2 g3 d2 cs2) : Moved g g3 d2 (cs ++ cs2) :=
  ⟨b.file_.trans a.file_, b.context_.trans a.context_, b.filename.trans a.filename,
    b.ns_vector.trans a.ns_vector, b.indent_,
    by rw [b.calls, a.calls, List.append_assoc]⟩

/-- A statement that keeps the indent and makes no call, after a move. -/
theorem Moved.still {g g2 g3 : RubyGenerator} {d : Nat} {cs : List IndentCall}
    (a : Moved g g2 d cs) (b : Moved g2 g3 g2.printer_.indent_ []) : Moved g g3 d cs := by
  have t := a.andThen b
  rw [List.append_nil, a.indent_] at t
  exact t

theorem Print_moved (g : RubyGenerator) (data : VarMap) (text : String) :
    Moved g (g.Print data text) g.printer_.indent_ [] :=
  ⟨rfl, rfl, rfl, rfl, (Printer.scan_frame _ _ _ _).1,
    ((Printer.scan_frame _ _ _ _).2).trans (List.append_nil _).symm⟩

theorem Indent_moved (g : RubyGenerator) :
    Moved g g.Indent (g.printer_.indent_ + 1) [IndentCall.indent] :=
  ⟨rfl, rfl, rfl, rfl, rfl, rfl⟩

theorem Outdent_moved (g : RubyGenerator) :
    Moved g g.Outdent (g.printer_.indent_ - 1) [IndentCall.outdent] := by
  refine ⟨rfl, rfl, rfl, rfl, ?_, ?_⟩
  · show (Printer.Outdent g.printer_).indent_ = _
    unfold Printer.Outdent
    split
    · rename_i h0
      simp [h0]
    · rfl
  · show (Printer.Outdent g.printer_).calls = _
    unfold Printer.Outdent
    split <;> rfl

/-- A loop whose body keeps the indent and makes no call does so as a whole. -/
theorem foldl_moved {α : Type} (f : RubyGenerator → α → RubyGenerator)
    (hf : ∀ g x, Moved g (f g x) g.printer_.indent_ []) (xs : List α) :
    ∀ g : RubyGenerator, Moved g (xs.foldl f g) g.printer_.indent_ [] := by
  induction xs with
  | nil => exact fun g => Moved.same g
  | cons x xs ih =>
    intro g
    exact (hf g x).still (ih _)

theorem PrintNewLine_moved (g : RubyGenerator) :
    Moved g (PrintNewLine g) g.printer_.indent_ [] := Print_moved g _ _

theorem PrintComment_moved (comment : String) (as_header : Bool) (g : RubyGenerator) :
    Moved g (PrintComment comment as_header g) g.printer_.indent_ [] := by
  unfold PrintComment
  split <;> exact Print_moved g _ _

theorem PrintRequire_moved (lib_name : String) (g : RubyGenerator) :
    Moved g (PrintRequire lib_name g) g.printer_.indent_ [] := Print_moved g _ _

theorem PrintGenericRequires_moved (g : RubyGenerator) :
    Moved g (PrintGenericRequires g) g.printer_.indent_ [] := by
  have h1 : Moved g (if g.file_.message_type.length > 0 then PrintRequire "protobuf/message" g
      else g) g.printer_.indent_ [] := by
    split
    · exact PrintRequire_moved _ g
    · exact Moved.same g
  have h2 : ∀ g2 : RubyGenerator, Moved g2 (if g2.file_.service.length > 0 then
      PrintRequire "protobuf/rpc/service" g2 else g2) g2.printer_.indent_ [] := by
    intro g2
    split
    · exact PrintRequire_moved _ g2
    · exact Moved.same g2
  exact h1.still (h2 _)

theorem PrintImportRequires_moved (h : Header) (g : RubyGenerator) :
    Moved g (PrintImportRequires h g) g.printer_.indent_ [] := by
  unfold PrintImportRequires
  split
  · exact ((PrintNewLine_moved g).still (PrintComment_moved _ _ _)).still
      (foldl_moved _ (fun g dep => PrintRequire_moved _ g) _ _)
  · exact Moved.same g

theorem PrintEnumClass_moved (descriptor : EnumDescriptor) (g : RubyGenerator) :
    Moved g (PrintEnumClass descriptor g) g.printer_.indent_ [] :=
  (Print_moved g _ _).still (PrintNewLine_moved _)

theorem PrintEnumValue_moved (h : Header) (descriptor : EnumValueDescriptor)
    (g : RubyGenerator) : Moved g (PrintEnumValue h descriptor g) g.printer_.indent_ [] :=
  Print_moved g _ _

theorem PrintEnumValues_moved (h : Header) (descriptor : EnumDescriptor)
    (g : RubyGenerator) : Moved g (PrintEnumValues h descriptor g) g.printer_.indent_ [] :=
  (foldl_moved _ (fun g v => PrintEnumValue_moved h v g) _ g).still (PrintNewLine_moved _)

theorem enumStep_moved (h : Header) (print_values : Bool) (g : RubyGenerator)
    (enum_type : EnumDescriptor) :
    Moved g (if print_values then PrintEnumValues h enum_type g
      else PrintEnumClass enum_type g) g.printer_.indent_ [] := by
  split
  · exact PrintEnumValues_moved h enum_type g
  · exact PrintEnumClass_moved enum_type g

theorem PrintEnumsForDescriptor_moved (h : Header) (descriptor : Descriptor)
    (print_values : Bool) (g : RubyGenerator) :
    Moved g (PrintEnumsForDescriptor h descriptor print_values g) g.printer_.indent_ [] :=
  foldl_moved _ (fun g e => enumStep_moved h print_values g e) _ g

theorem PrintEnumsForFileDescriptor_moved (h : Header) (descriptor : FileDescriptor)
    (print_values : Bool) (g : RubyGenerator) :
    Moved g (PrintEnumsForFileDescriptor h descriptor print_values g)
      g.printer_.indent_ [] := by
  unfold PrintEnumsForFileDescriptor
  split
  · have h1 : Moved g (if print_values then PrintComment "Enum Values" true g
        else PrintComment "Enum Classes" true g) g.printer_.indent_ [] := by
      split <;> exact PrintComment_moved _ _ _
    exact h1.still (foldl_moved _ (fun g e => enumStep_moved h print_values g e) _ _)
  · exact Moved.same g

theorem PrintExtensionRangesForDescriptor_moved (h : Header) (descriptor : Descriptor)
    (g : RubyGenerator) :
    Moved g (PrintExtensionRangesForDescriptor h descriptor g) g.printer_.indent_ [] := by
  unfold PrintExtensionRangesForDescriptor
  split
  · exact foldl_moved _ (fun g r => (Print_moved g _ _).still (PrintNewLine_moved _)) _ g
  · exact Moved.same g

theorem PrintMessageField_moved (h : Header) (descriptor : FieldDescriptor)
    (g : RubyGenerator) :
    Moved g (PrintMessageField h descriptor g) g.printer_.indent_ [] := Print_moved g _ _


mutual

theorem PrintMessageClass_moved (h : Header) :
    ∀ (descriptor : Descriptor) (g : RubyGenerator),
      Moved g (PrintMessageClass h descriptor g) g.printer_.indent_ []
  | .mk name full_name field extension nested_type enum_type extension_range, g => by
    rw [PrintMessageClass]
    exact (((Print_moved g _ _).still (PrintNewLine_moved _)).still
      (PrintEnumsForDescriptor_moved h _ false _)).still
      (PrintMessagesForDescriptor_moved h nested_type false _)

theorem PrintMessageFields_moved (h : Header) :
    ∀ (descriptor : Descriptor) (g : RubyGenerator),
      Moved g (PrintMessageFields h descriptor g) g.printer_.indent_ []
  | .mk name full_name field extension nested_type enum_type extension_range, g => by
    rw [PrintMessageFields]
    have h2 : ∀ g2 : RubyGenerator, Moved g2
        (if field.length > 0 then
          PrintNewLine
            (if extension.length > 0 then
              extension.foldl (fun g f => PrintMessageField h f g)
                (field.foldl (fun g f => PrintMessageField h f g) g2)
            else field.foldl (fun g f => PrintMessageField h f g) g2)
        else g2) g2.printer_.indent_ [] := by
      intro g2
      have hf := foldl_moved (fun g f => PrintMessageField h f g)
        (fun g f => PrintMessageField_moved h f g) field g2
      split
      · refine Moved.still ?_ (PrintNewLine_moved _)
        split
        · exact hf.still (foldl_moved _ (fun g f => PrintMessageField_moved h f g) _ _)
        · exact hf
      · exact Moved.same g2
    exact (((PrintExtensionRangesForDescriptor_moved h _ g).still (h2 _)).still
      (PrintEnumsForDescriptor_moved h _ true _)).still
      (PrintMessagesForDescriptor_moved h nested_type true _)

theorem PrintMessagesForDescriptor_moved (h : Header) :
    ∀ (nested : List Descriptor) (print_fields : Bool) (g : RubyGenerator),
      Moved g (PrintMessagesForDescriptor h nested print_fields g) g.printer_.indent_ []
  | [], _, g => by
    rw [PrintMessagesForDescriptor]
    exact Moved.same g
  | nested :: rest, print_fields, g => by
    rw [PrintMessagesForDescriptor]
    have h1 : Moved g (if print_fields then PrintMessageFields h nested g
        else PrintMessageClass h nested g) g.printer_.indent_ [] := by
      split
      · exact PrintMessageFields_moved h nested g
      · exact PrintMessageClass_moved h nested g
    exact h1.still (PrintMessagesForDescriptor_moved h rest print_fields _)

end

theorem PrintMessagesForFileDescriptor_moved (h : Header) (descriptor : FileDescriptor)
    (print_fields : Bool) (g : RubyGenerator) :
    Moved g (PrintMessagesForFileDescriptor h descriptor print_fields g)
      g.printer_.indent_ [] := by
  unfold PrintMessagesForFileDescriptor
  split
  · have h1 : Moved g (if print_fields then PrintComment "Message Fields" true g
        else PrintComment "Message Classes" true g) g.printer_.indent_ [] := by
      split <;> exact PrintComment_moved _ _ _
    refine h1.still (foldl_moved _ (fun g m => ?_) _ _)
    split
    · exact PrintMessageFields_moved h m g
    · exact PrintMessageClass_moved h m g
  · exact Moved.same g

theorem PrintServiceMethod_moved (h : Header) (descriptor : MethodDescriptor)
    (g : RubyGenerator) :
    Moved g (PrintServiceMethod h descriptor g) g.printer_.indent_ [] :=
  (Print_moved g _ _).still (PrintNewLine_moved _)

theorem Moved.indent {g g2 : RubyGenerator} {d : Nat} {cs : List IndentCall}
    (a : Moved g g2 d cs) : Moved g g2.Indent (d + 1) (cs ++ [IndentCall.indent]) := by
  have t := a.andThen (Indent_moved g2)
  rw [a.indent_] at t
  exact t

theorem Moved.outdent {g g2 : RubyGenerator} {d : Nat} {cs : List IndentCall}
    (a : Moved g g2 d cs) : Moved g g2.Outdent (d - 1) (cs ++ [IndentCall.outdent]) := by
  have t := a.andThen (Outdent_moved g2)
  rw [a.indent_] at t
  exact t

theorem PrintService_moved (h : Header) (descriptor : ServiceDescriptor)
    (g : RubyGenerator) :
    Moved g (PrintService h descriptor g) g.printer_.indent_
      [IndentCall.indent, IndentCall.outdent] := by
  have t := (((((Print_moved g (VarMap.set [] "class_name" descriptor.name)
    "class $class_name$ < ::Protobuf::Service").still (PrintNewLine_moved _)).indent.still
    (foldl_moved (fun g method => PrintServiceMethod h method g)
      (fun g m => PrintServiceMethod_moved h m g) descriptor.method _)).outdent).still
    (Print_moved _ [] "end")).still (PrintNewLine_moved _)
  simp only [List.nil_append, List.singleton_append, Nat.add_sub_cancel] at t
  exact t

theorem serviceLoop_moved (h : Header) (services : List ServiceDescriptor) :
    ∀ g : RubyGenerator,
      Moved g (services.foldl (fun g service => PrintService h service g) g)
        g.printer_.indent_ (serviceCalls services) := by
  induction services with
  | nil => exact fun g => Moved.same g
  | cons x xs ih =>
    intro g
    have t := (PrintService_moved h x g).andThen (ih _)
    rw [(PrintService_moved h x g).indent_] at t
    exact t

theorem PrintServices_moved (h : Header) (g : RubyGenerator) :
    Moved g (PrintServices h g) g.printer_.indent_ (serviceCalls g.file_.service) := by
  unfold PrintServices
  split
  · have t := (PrintComment_moved "Services" true g).andThen
      (serviceLoop_moved h g.file_.service _)
    rw [(PrintComment_moved "Services" true g).indent_, List.nil_append] at t
    exact t
  · rename_i h0
    have e : g.file_.service = [] := by
      cases hs : g.file_.service with
      | nil => rfl
      | cons x xs => rw [hs] at h0; simp at h0
    rw [e]
    exact Moved.same g

theorem moduleLoop_moved (ns : List String) :
    ∀ g : RubyGenerator,
      Moved g
        (ns.foldl
          (fun g iter =>
            (PrintNewLine
              (g.Print (VarMap.set [] "ns" (Constantize iter false)) "module $ns$")).Indent)
          g)
        (g.printer_.indent_ + ns.length) (List.replicate ns.length IndentCall.indent) := by
  induction ns with
  | nil => exact fun g => Moved.same g
  | cons x xs ih =>
    intro g
    have a := ((Print_moved g (VarMap.set [] "ns" (Constantize x false)) "module $ns$").still
      (PrintNewLine_moved _)).indent
    have t := a.andThen (ih _)
    rw [a.indent_] at t
    have e : g.printer_.indent_ + 1 + xs.length = g.printer_.indent_ + (x :: xs).length := by
      simp only [List.length_cons]; omega
    rw [e] at t
    exact t

theorem PrintEnclosingNamespaceModules_moved (g : RubyGenerator) :
    Moved g (PrintEnclosingNamespaceModules g) (g.printer_.indent_ + g.ns_vector.length)
      (List.replicate g.ns_vector.length IndentCall.indent) := by
  have a := PrintNewLine_moved g
  have t := a.andThen (moduleLoop_moved g.ns_vector (PrintNewLine g))
  rw [a.indent_, List.nil_append] at t
  exact t

theorem endLoop_moved (ns : List String) :
    ∀ g : RubyGenerator,
      Moved g (ns.foldl (fun g _ => PrintNewLine (g.Outdent.Print [] "end")) g)
        (g.printer_.indent_ - ns.length) (List.replicate ns.length IndentCall.outdent) := by
  induction ns with
  | nil => exact fun g => Moved.same g
  | cons x xs ih =>
    intro g
    have a := (((Moved.same g).outdent).still (Print_moved _ [] "end")).still
      (PrintNewLine_moved _)
    have t := a.andThen (ih _)
    rw [a.indent_] at t
    have e : g.printer_.indent_ - 1 - xs.length = g.printer_.indent_ - (x :: xs).length := by
      simp only [List.length_cons]; omega
    rw [e] at t
    exact t

theorem PrintEnclosingNamespaceModuleEnds_moved (g : RubyGenerator) :
    Moved g (PrintEnclosingNamespaceModuleEnds g) (g.printer_.indent_ - g.ns_vector.length)
      (List.replicate g.ns_vector.length IndentCall.outdent) :=
  endLoop_moved g.ns_vector g

theorem enumsOfFile_moved (h : Header) (print_values : Bool) (g : RubyGenerator) :
    Moved g (PrintEnumsForFileDescriptor h g.file_ print_values g) g.printer_.indent_ [] :=
  PrintEnumsForFileDescriptor_moved h g.file_ print_values g

theorem messagesOfFile_moved (h : Header) (print_fields : Bool) (g : RubyGenerator) :
    Moved g (PrintMessagesForFileDescriptor h g.file_ print_fields g)
      g.printer_.indent_ [] :=
  PrintMessagesForFileDescriptor_moved h g.file_ print_fields g

theorem PrintGeneratedFileComment_moved (g : RubyGenerator) :
    Moved g (PrintGeneratedFileComment g) g.printer_.indent_ [] :=
  PrintComment_moved _ true g

/-- The statements of `Generate`, whatever the stream accepts: one `Indent()` per
namespace, the calls of the service blocks, one `Outdent()` per namespace. -/
theorem printAll_moved (h : Header) (G : RubyGenerator) :
    Moved G (printAll h G) G.printer_.indent_
      (List.replicate G.ns_vector.length IndentCall.indent ++
        (serviceCalls G.file_.service ++
          List.replicate G.ns_vector.length IndentCall.outdent)) := by
  have a1 := ((PrintGeneratedFileComment_moved G).still (PrintGenericRequires_moved _)).still
    (PrintImportRequires_moved h _)
  have a2 := a1.andThen (PrintEnclosingNamespaceModules_moved _)
  rw [a1.indent_, a1.ns_vector, List.nil_append] at a2
  have a3 := (((((((a2.still (enumsOfFile_moved h false _)).still
    (PrintNewLine_moved _)).still (messagesOfFile_moved h false _)).still
    (PrintNewLine_moved _)).still (enumsOfFile_moved h true _)).still
    (PrintNewLine_moved _)).still (messagesOfFile_moved h true _)).still
    (PrintNewLine_moved _)
  have a4 := a3.andThen (PrintServices_moved h _)
  rw [a3.indent_, a3.file_] at a4
  have a5 := a4.andThen (PrintEnclosingNamespaceModuleEnds_moved _)
  rw [a4.indent_, a4.ns_vector, Nat.add_sub_cancel, List.append_assoc] at a5
  exact a5

theorem finish_fst (g : RubyGenerator) (error : String) : (finish g error).1 = g := by
  unfold finish
  split <;> rfl

/-- The members of the generator after `Generate`, whatever the stream accepts. -/
theorem Generate_moved (h : Header) (g : RubyGenerator) (file : FileDescriptor)
    (parameter : String) (context : GeneratorContext) (error : String) :
    (Generate h g file parameter context error).1.file_ = file ∧
    (Generate h g file parameter context error).1.filename =
      h.CreateRubyFileName file.name false ∧
    (Generate h g file parameter context error).1.ns_vector =
      SplitStringUsing file.package '.' ∧
    (Generate h g file parameter context error).1.printer_.indent_ = 0 ∧
    (Generate h g file parameter context error).1.printer_.calls = indentCalls file := by
  rw [Generate_unfold, finish_fst]
  have m := printAll_moved h
    { file_ := file, context_ := context,
      filename := h.CreateRubyFileName file.name false,
      ns_vector := SplitStringUsing file.package '.',
      printer_ := Printer.new (context.Open (h.CreateRubyFileName file.name false)) }
  exact ⟨m.file_, m.filename, m.ns_vector, m.indent_, m.calls⟩

end RubyGenerator

/-! # The claims -/

set_option maxRecDepth 100000

theorem freshGenerator_ready : freshGenerator.printer_.Ready := ⟨rfl, rfl, rfl⟩

/-- C1: from the start of a line, `PrintMessageField` writes exactly one line, the
indentation followed by
`<Constantize(containing type)>.<label>(<type token>, :<lowercase name>, <number><clauses>)`
and a newline, and changes nothing else.  The clauses are, in this order, the
default clause (`, :default => <value>` iff the field has a default value, nothing
otherwise), the packed clause (iff the field is packable and its options have packed
set), the deprecated clause (iff the options have deprecated set) and the extension
clause (iff the field is an extension). -/
theorem field_line_format (h : Header) (F : FieldDescriptor) (g : RubyGenerator)
    (hg : g.printer_.Ready) :
    RubyGenerator.PrintMessageField h F g =
      g.wrote (indentText g.printer_.indent_ ++
        (h.Constantize F.containing_type.full_name ++ "." ++ labelText F.label ++ "(" ++
          typeToken h F.type ++ ", :" ++ F.lowercase_name ++ ", " ++ SimpleItoa F.number ++
          (defaultClause h F ++ packedClause F ++ deprecatedClause F ++ extensionClause F) ++
          ")") ++ "\n") ∧
    (defaultClause h F =
      if F.has_default_value then ", :default => " ++ defaultText h F else "") ∧
    (packedClause F =
      if F.is_packable && F.options.has_packed
      then ", :packed => " ++ (if F.options.packed then "true" else "false") else "") ∧
    (deprecatedClause F =
      if F.options.has_deprecated
      then ", :deprecated => " ++ (if F.options.deprecated then "true" else "false")
      else "") ∧
    (extensionClause F = if F.is_extension then ", :extension => true" else "") := by
  refine ⟨?_, rfl, rfl, rfl, rfl⟩
  rw [RubyGenerator.PrintMessageField_eq h F g hg]
  simp [renderLine, fieldText, fieldCall, fieldClauses, String.append_assoc]

/-- Witness of C1: the line of `optional int32 count = 2 [default = 7, deprecated = true]`. -/
theorem field_line_format_witness :
    freshGenerator.printer_.Ready ∧
    (RubyGenerator.PrintMessageField (sampleHeader true) countField freshGenerator).printer_.out =
      "::Pkg::Msg.optional(::Protobuf::Field::Int32Field, :count, 2, :default => 7, :deprecated => true)\n" :=
  ⟨freshGenerator_ready, by
    rw [(field_line_format (sampleHeader true) countField freshGenerator
      freshGenerator_ready).1]
    decide⟩

theorem renderFile_text (k : LineKind) (d : Nat) (ts : List String) :
    renderFile (ts.map (fun t => (⟨k, d, t⟩ : Line))) = renderLines d ts := by
  induction ts with
  | nil => rfl
  | cons t rest ih => simp [renderFile, renderLines, Line.render, ih]

/-- C2: for a message `M` whose fields have `M` as containing type, from the start of
a line `PrintMessageFields` writes the lines of the extension ranges, then one
field-definition line per field of `M`, in the order of `M.field` and each beginning
with `Constantize(M.full_name)` and a dot, then the rest of the population of `M`.
The lines of the fields are as many as the fields. -/
theorem own_fields_in_order (h : Header) (M : Descriptor) (g : RubyGenerator)
    (hg : g.printer_.Ready)
    (hown : ∀ F ∈ M.field, F.containing_type.full_name = M.full_name) :
    RubyGenerator.PrintMessageFields h M g =
      g.wrote
        (renderFile (M.extension_range.map (rangeLine h g.printer_.indent_ M.full_name)) ++
          (renderLines g.printer_.indent_
              (M.field.map (fun F => h.Constantize M.full_name ++ "." ++ fieldCall h F)) ++
            renderFile (afterOwnFields h g.printer_.indent_ M))) ∧
    (M.field.map (fun F => h.Constantize M.full_name ++ "." ++ fieldCall h F)).length =
      M.field.length := by
  refine ⟨?_, by simp⟩
  rw [RubyGenerator.PrintMessageFields_eq h M g hg]
  cases M with
  | mk name full_name field extension nested_type enum_type extension_range =>
    have hmap : field.map (fieldLine h g.printer_.indent_) =
        (field.map (fun F => h.Constantize full_name ++ "." ++ fieldCall h F)).map
          (fun t => (⟨LineKind.field, g.printer_.indent_, t⟩ : Line)) := by
      rw [List.map_map]
      apply List.map_congr_left
      intro F hF
      have := hown F hF
      simp only [Descriptor.full_name] at this
      simp [fieldLine, fieldText, this]
    simp only [popLines, fieldBlock, afterOwnFields, Descriptor.extension_range,
      Descriptor.full_name, Descriptor.field, Descriptor.extension, Descriptor.enum_type,
      Descriptor.nested_type]
    by_cases hf : field.length > 0
    · simp only [hf, if_true, renderFile_append, hmap, renderFile_text]
      simp [String.append_assoc]
    · have h0 : field = [] := RubyGenerator.length_pos_false hf
      simp [h0, renderFile_append, renderFile, renderLines]

/-- Witness of C2: the two fields of `pkg.Msg`, in their order. -/
theorem own_fields_in_order_witness :
    freshGenerator.printer_.Ready ∧
    (∀ F ∈ twoFieldMessage.field, F.containing_type.full_name = twoFieldMessage.full_name) ∧
    (RubyGenerator.PrintMessageFields (sampleHeader true) twoFieldMessage
        freshGenerator).printer_.out =
      "::Pkg::Msg.optional(::Protobuf::Field::Int32Field, :count, 2, :default => 7, :deprecated => true)\n::Pkg::Msg.repeated(::Protobuf::Field::StringField, :tags, 5)\n\n" :=
  ⟨freshGenerator_ready, by decide, by
    rw [(own_fields_in_order (sampleHeader true) twoFieldMessage freshGenerator
      freshGenerator_ready (by decide)).1]
    decide⟩

/-- C3, at the failing input: for a message without regular fields the population
pass writes nothing for the extension declared in it, while the same message with
one regular field gets the line of the extension after the line of the field. -/
theorem extensions_skipped_without_fields :
    extensionOnlyMessage.field.length = 0 ∧ extensionOnlyMessage.extension.length = 1 ∧
    (RubyGenerator.PrintMessageFields (sampleHeader true) extensionOnlyMessage
        freshGenerator).printer_.out = "" ∧
    (RubyGenerator.PrintMessageFields (sampleHeader true) extensionAndFieldMessage
        freshGenerator).printer_.out =
      "::Pkg::Scope.repeated(::Protobuf::Field::StringField, :tags, 5)\n::Pkg::Target.optional(::Protobuf::Field::Int32Field, :weight, 100, :extension => true)\n\n" := by
  refine ⟨rfl, rfl, ?_, ?_⟩
  · decide
  · decide

/-- C4: for an enum `E` whose values have `E` as type, from the start of a line
`PrintEnumValues` writes one line `<Constantize(E.full_name)>.define :<name>, <number>`
per value, in the order of `E.value` and whatever the numbers, then one line without
text.  The `define` lines are as many as the values. -/
theorem enum_values_in_order (h : Header) (E : EnumDescriptor) (g : RubyGenerator)
    (hg : g.printer_.Ready) (hty : ∀ v ∈ E.value, v.type.full_name = E.full_name) :
    RubyGenerator.PrintEnumValues h E g =
      g.wrote
        (renderLines g.printer_.indent_
            (E.value.map (fun v =>
              h.Constantize E.full_name ++ ".define :" ++ v.name ++ ", " ++
                ConvertIntToString v.number)) ++
          renderLine g.printer_.indent_ "") ∧
    (E.value.map (fun v =>
        h.Constantize E.full_name ++ ".define :" ++ v.name ++ ", " ++
          ConvertIntToString v.number)).length = E.value.length := by
  refine ⟨?_, by simp⟩
  rw [RubyGenerator.PrintEnumValues_eq h E g hg]
  have hmap : E.value.map (defineLine h g.printer_.indent_) =
      (E.value.map (fun v =>
        h.Constantize E.full_name ++ ".define :" ++ v.name ++ ", " ++
          ConvertIntToString v.number)).map
        (fun t => (⟨LineKind.define, g.printer_.indent_, t⟩ : Line)) := by
    rw [List.map_map]
    apply List.map_congr_left
    intro v hv
    simp [defineLine, defineText, hty v hv]
  simp only [enumValueLines, hmap, renderFile_append, renderFile_text]
  simp [renderFile, Line.render, blankLine]

/-- Witness of C4: the values of `Color`, with a repeated and a negative number. -/
theorem enum_values_in_order_witness :
    freshGenerator.printer_.Ready ∧
    (∀ v ∈ colorEnum.value, v.type.full_name = colorEnum.full_name) ∧
    (RubyGenerator.PrintEnumValues (sampleHeader false) colorEnum freshGenerator).printer_.out =
      "Color.define :RED, 0\nColor.define :BLUE, 5\nColor.define :AZURE, 5\nColor.define :NONE, -1\n\n" :=
  ⟨freshGenerator_ready, by decide, by
    rw [(enum_values_in_order (sampleHeader false) colorEnum freshGenerator
      freshGenerator_ready (by decide)).1]
    decide⟩

/-! ## Kinds of the lines of a file -/

theorem headerLines_kind (d : Nat) (c : String) :
    ∀ l ∈ headerLines d c, l.kind = LineKind.comment := by
  intro l hl
  simp [headerLines] at hl
  rcases hl with rfl | rfl | rfl <;> rfl

theorem moduleLines_kind (ns : List String) :
    ∀ (d : Nat), ∀ l ∈ moduleLines d ns, l.kind = LineKind.moduleOpen := by
  induction ns with
  | nil => intro d l hl; simp [moduleLines] at hl
  | cons x rest ih =>
    intro d l hl
    simp only [moduleLines, List.mem_cons] at hl
    rcases hl with rfl | hl
    · rfl
    · exact ih _ l hl

theorem moduleEndLines_kind (d n : Nat) :
    ∀ l ∈ moduleEndLines d n, l.kind = LineKind.moduleClose := by
  induction n with
  | zero => intro l hl; simp [moduleEndLines] at hl
  | succ n ih =>
    intro l hl
    simp only [moduleEndLines, List.mem_cons] at hl
    rcases hl with rfl | hl
    · rfl
    · exact ih l hl

theorem moduleLines_length (ns : List String) :
    ∀ (d : Nat), (moduleLines d ns).length = ns.length := by
  induction ns with
  | nil => intro d; rfl
  | cons x rest ih => intro d; simp [moduleLines, ih]

theorem moduleEndLines_length (d n : Nat) : (moduleEndLines d n).length = n := by
  induction n with
  | zero => rfl
  | succ n ih => simp [moduleEndLines, ih]

theorem enumClassLine_isClassDeclaration (d : Nat) (E : EnumDescriptor) :
    (enumClassLine d E).IsClassDeclaration :=
  ⟨rfl, E.name, Or.inr rfl⟩

mutual

theorem declLines_isClassDeclaration (d : Nat) :
    ∀ (M : Descriptor), ∀ l ∈ declLines d M, l.IsClassDeclaration
  | .mk name _ _ _ nested_type enum_type _, l, hl => by
    simp only [declLines, List.mem_cons, List.mem_append, List.mem_map] at hl
    rcases hl with rfl | ⟨E, _, rfl⟩ | hl
    · exact ⟨rfl, name, Or.inl rfl⟩
    · exact enumClassLine_isClassDeclaration d E
    · exact declLinesAll_isClassDeclaration d nested_type l hl

theorem declLinesAll_isClassDeclaration (d : Nat) :
    ∀ (Ms : List Descriptor), ∀ l ∈ declLinesAll d Ms, l.IsClassDeclaration
  | [], l, hl => by simp [declLinesAll] at hl
  | M :: rest, l, hl => by
    simp only [declLinesAll, List.mem_append] at hl
    rcases hl with hl | hl
    · exact declLines_isClassDeclaration d M l hl
    · exact declLinesAll_isClassDeclaration d rest l hl

end

theorem enumValueLines_kinds (h : Header) (d : Nat) (E : EnumDescriptor) :
    ∀ l ∈ enumValueLines h d E, l.IsPopulationLine h ∨ l.kind = LineKind.blank := by
  intro l hl
  simp only [enumValueLines, List.mem_append, List.mem_map, List.mem_singleton] at hl
  rcases hl with ⟨v, _, rfl⟩ | rfl
  · exact Or.inl (Or.inr (Or.inr ⟨rfl, v, rfl⟩))
  · exact Or.inr rfl

theorem fieldBlock_kinds (h : Header) (d : Nat) (field extension : List FieldDescriptor) :
    ∀ l ∈ fieldBlock h d field extension, l.IsPopulationLine h ∨ l.kind = LineKind.blank := by
  intro l hl
  unfold fieldBlock at hl
  split at hl
  · simp only [List.mem_append, List.mem_map, List.mem_singleton] at hl
    rcases hl with ⟨F, _, rfl⟩ | ⟨F, _, rfl⟩ | rfl
    · exact Or.inl (Or.inr (Or.inl ⟨rfl, F, rfl⟩))
    · exact Or.inl (Or.inr (Or.inl ⟨rfl, F, rfl⟩))
    · exact Or.inr rfl
  · simp at hl

mutual

theorem popLines_kinds (h : Header) (d : Nat) :
    ∀ (M : Descriptor), ∀ l ∈ popLines h d M, l.IsPopulationLine h ∨ l.kind = LineKind.blank
  | .mk _ full_name field extension nested_type enum_type extension_range, l, hl => by
    simp only [popLines, List.mem_append, List.mem_map, List.mem_flatten] at hl
    rcases hl with ⟨r, _, rfl⟩ | hl | ⟨ls, ⟨E, _, rfl⟩, hl⟩ | hl
    · exact Or.inl (Or.inl ⟨rfl, full_name, r, rfl⟩)
    · exact fieldBlock_kinds h d field extension l hl
    · exact enumValueLines_kinds h d E l hl
    · exact popLinesAll_kinds h d nested_type l hl

theorem popLinesAll_kinds (h : Header) (d : Nat) :
    ∀ (Ms : List Descriptor), ∀ l ∈ popLinesAll h d Ms,
      l.IsPopulationLine h ∨ l.kind = LineKind.blank
  | [], l, hl => by simp [popLinesAll] at hl
  | M :: rest, l, hl => by
    simp only [popLinesAll, List.mem_append] at hl
    rcases hl with hl | hl
    · exact popLines_kinds h d M l hl
    · exact popLinesAll_kinds h d rest l hl

end

theorem declarationBlock_kinds (d : Nat) (file : FileDescriptor) :
    ∀ l ∈ declarationBlock d file,
      l.IsClassDeclaration ∨ l.kind = LineKind.comment ∨ l.kind = LineKind.blank := by
  intro l hl
  unfold declarationBlock at hl
  simp only [List.mem_append, List.mem_cons, List.not_mem_nil, or_false] at hl
  rcases hl with hl | rfl | hl | rfl
  · split at hl
    · simp only [List.mem_append, List.mem_map] at hl
      rcases hl with hl | ⟨E, _, rfl⟩
      · exact Or.inr (Or.inl (headerLines_kind _ _ l hl))
      · exact Or.inl (enumClassLine_isClassDeclaration d E)
    · simp at hl
  · exact Or.inr (Or.inr rfl)
  · split at hl
    · simp only [List.mem_append] at hl
      rcases hl with hl | hl
      · exact Or.inr (Or.inl (headerLines_kind _ _ l hl))
      · exact Or.inl (declLinesAll_isClassDeclaration d _ l hl)
    · simp at hl
  · exact Or.inr (Or.inr rfl)

theorem populationBlock_kinds (h : Header) (d : Nat) (file : FileDescriptor) :
    ∀ l ∈ populationBlock h d file,
      l.IsPopulationLine h ∨ l.kind = LineKind.comment ∨ l.kind = LineKind.blank := by
  intro l hl
  unfold populationBlock at hl
  simp only [List.mem_append, List.mem_cons, List.not_mem_nil, or_false] at hl
  rcases hl with hl | rfl | hl | rfl
  · split at hl
    · simp only [List.mem_append, List.mem_flatten, List.mem_map] at hl
      rcases hl with hl | ⟨ls, ⟨E, _, rfl⟩, hl⟩
      · exact Or.inr (Or.inl (headerLines_kind _ _ l hl))
      · rcases enumValueLines_kinds h d E l hl with hp | hb
        · exact Or.inl hp
        · exact Or.inr (Or.inr hb)
    · simp at hl
  · exact Or.inr (Or.inr rfl)
  · split at hl
    · simp only [List.mem_append] at hl
      rcases hl with hl | hl
      · exact Or.inr (Or.inl (headerLines_kind _ _ l hl))
      · rcases popLinesAll_kinds h d _ l hl with hp | hb
        · exact Or.inl hp
        · exact Or.inr (Or.inr hb)
    · simp at hl
  · exact Or.inr (Or.inr rfl)

theorem serviceLines_kinds (h : Header) (d : Nat) (S : ServiceDescriptor) :
    ∀ l ∈ serviceLines h d S,
      l.kind = LineKind.serviceOpen ∨ l.kind = LineKind.rpc ∨
        l.kind = LineKind.serviceClose := by
  intro l hl
  simp only [serviceLines, List.mem_cons, List.mem_append, List.mem_map,
    List.not_mem_nil, or_false] at hl
  rcases hl with rfl | ⟨m, _, rfl⟩ | rfl
  · exact Or.inl rfl
  · exact Or.inr (Or.inl rfl)
  · exact Or.inr (Or.inr rfl)

theorem preambleLines_kinds (h : Header) (file : FileDescriptor) :
    ∀ l ∈ preambleLines h file,
      l.kind = LineKind.comment ∨ l.kind = LineKind.require ∨ l.kind = LineKind.blank ∨
        l.kind = LineKind.moduleOpen := by
  intro l hl
  unfold preambleLines at hl
  simp only [List.mem_append, List.mem_cons] at hl
  rcases hl with hl | hl | hl | hl | rfl | hl
  · exact Or.inl (headerLines_kind _ _ l hl)
  · split at hl
    · simp only [List.mem_singleton] at hl; subst hl; exact Or.inr (Or.inl rfl)
    · simp at hl
  · split at hl
    · simp only [List.mem_singleton] at hl; subst hl; exact Or.inr (Or.inl rfl)
    · simp at hl
  · split at hl
    · simp only [List.mem_cons, List.mem_append, List.mem_map] at hl
      rcases hl with rfl | hl | ⟨dep, _, rfl⟩
      · exact Or.inr (Or.inr (Or.inl rfl))
      · exact Or.inl (headerLines_kind _ _ l hl)
      · exact Or.inr (Or.inl rfl)
    · simp at hl
  · exact Or.inr (Or.inr (Or.inl rfl))
  · exact Or.inr (Or.inr (Or.inr (moduleLines_kind _ _ l hl)))

theorem trailerLines_kinds (h : Header) (d : Nat) (file : FileDescriptor) :
    ∀ l ∈ trailerLines h d file,
      l.kind = LineKind.comment ∨ l.kind = LineKind.serviceOpen ∨ l.kind = LineKind.rpc ∨
        l.kind = LineKind.serviceClose ∨ l.kind = LineKind.moduleClose := by
  intro l hl
  unfold trailerLines at hl
  simp only [List.mem_append] at hl
  rcases hl with hl | hl
  · split at hl
    · simp only [List.mem_append, List.mem_flatten, List.mem_map] at hl
      rcases hl with hl | ⟨ls, ⟨S, _, rfl⟩, hl⟩
      · exact Or.inl (headerLines_kind _ _ l hl)
      · rcases serviceLines_kinds h d S l hl with hk | hk | hk
        · exact Or.inr (Or.inl hk)
        · exact Or.inr (Or.inr (Or.inl hk))
        · exact Or.inr (Or.inr (Or.inr (Or.inl hk)))
    · simp at hl
  · exact Or.inr (Or.inr (Or.inr (Or.inr (moduleEndLines_kind _ _ l hl))))

/-- In a list `X ++ Y` where no element of `Y` has `P` and no element of `X` has `Q`,
every element with `P` stands before every element with `Q`. -/
theorem index_order {α : Type} (X Y : List α) (P Q : α → Prop)
    (hP : ∀ y ∈ Y, ¬ P y) (hQ : ∀ x ∈ X, ¬ Q x)
    (i j : Nat) (hi : i < (X ++ Y).length) (hj : j < (X ++ Y).length)
    (hPi : P ((X ++ Y)[i])) (hQj : Q ((X ++ Y)[j])) : i < j := by
  by_contra hcon
  have hji : j ≤ i := Nat.le_of_not_lt hcon
  by_cases hiX : i < X.length
  · have hjX : j < X.length := Nat.lt_of_le_of_lt hji hiX
    rw [List.getElem_append_left hjX] at hQj
    exact hQ _ (List.getElem_mem hjX) hQj
  · have hle : X.length ≤ i := Nat.le_of_not_lt hiX
    rw [List.getElem_append_right hle] at hPi
    exact hP _ (List.getElem_mem _) hPi

mutual

theorem messages_declared (d : Nat) :
    ∀ (M N : Descriptor), N ∈ M.messages →
      (⟨LineKind.classDecl, d, messageClassText N.name⟩ : Line) ∈ declLines d M ∧
      ∀ E ∈ N.enum_type, enumClassLine d E ∈ declLines d M
  | .mk name full_name field extension nested_type enum_type extension_range, N, hN => by
    simp only [Descriptor.messages, List.mem_cons] at hN
    rcases hN with rfl | hN
    · refine ⟨by simp [declLines, Descriptor.name], ?_⟩
      intro E hE
      simp only [Descriptor.enum_type] at hE
      simp only [declLines, List.mem_cons, List.mem_append, List.mem_map]
      exact Or.inr (Or.inl ⟨E, hE, rfl⟩)
    · have ih := messagesAll_declared d nested_type N hN
      refine ⟨?_, ?_⟩
      · simp only [declLines, List.mem_cons, List.mem_append]
        exact Or.inr (Or.inr ih.1)
      · intro E hE
        simp only [declLines, List.mem_cons, List.mem_append]
        exact Or.inr (Or.inr (ih.2 E hE))

theorem messagesAll_declared (d : Nat) :
    ∀ (Ms : List Descriptor) (N : Descriptor), N ∈ messagesAll Ms →
      (⟨LineKind.classDecl, d, messageClassText N.name⟩ : Line) ∈ declLinesAll d Ms ∧
      ∀ E ∈ N.enum_type, enumClassLine d E ∈ declLinesAll d Ms
  | [], N, hN => by simp [messagesAll] at hN
  | M :: rest, N, hN => by
    simp only [messagesAll, List.mem_append] at hN
    rcases hN with hN | hN
    · have ih := messages_declared d M N hN
      refine ⟨?_, ?_⟩
      · simp only [declLinesAll, List.mem_append]
        exact Or.inl ih.1
      · intro E hE
        simp only [declLinesAll, List.mem_append]
        exact Or.inl (ih.2 E hE)
    · have ih := messagesAll_declared d rest N hN
      refine ⟨?_, ?_⟩
      · simp only [declLinesAll, List.mem_append]
        exact Or.inr ih.1
      · intro E hE
        simp only [declLinesAll, List.mem_append]
        exact Or.inr (ih.2 E hE)

end

theorem not_population_of_kind (h : Header) (l : Line)
    (hk : l.kind = LineKind.comment ∨ l.kind = LineKind.require ∨ l.kind = LineKind.blank ∨
      l.kind = LineKind.moduleOpen ∨ l.kind = LineKind.classDecl ∨
      l.kind = LineKind.serviceOpen ∨ l.kind = LineKind.rpc ∨
      l.kind = LineKind.serviceClose ∨ l.kind = LineKind.moduleClose) :
    ¬ l.IsPopulationLine h := by
  intro hp
  rcases hp with ⟨hp, _⟩ | ⟨hp, _⟩ | ⟨hp, _⟩ <;>
    rcases hk with hk | hk | hk | hk | hk | hk | hk | hk | hk <;>
    rw [hp] at hk <;> cases hk

theorem not_declaration_of_kind (l : Line) (hk : l.kind ≠ LineKind.classDecl) :
    ¬ l.IsClassDeclaration :=
  fun hd => hk hd.1

theorem population_kind (h : Header) (l : Line) (hp : l.IsPopulationLine h) :
    l.kind ≠ LineKind.classDecl := by
  rcases hp with ⟨hp, _⟩ | ⟨hp, _⟩ | ⟨hp, _⟩ <;> rw [hp] <;> decide

/-- C8: on a stream that accepts every write, the text `Generate` writes is the text
of four blocks of lines in a row: preamble, declaration block, population block,
trailer.  Every message of the tree, at any depth of nesting, and each of its enums
and of the file's enums has its class-declaration line in the declaration block; no
class-declaration line stands outside the declaration block, no population line
(`.extensions`, field-definition or `.define` line) outside the population block.
Hence every class-declaration line of the file stands before every population
line. -/
theorem declarations_before_population (h : Header) (g : RubyGenerator)
    (file : FileDescriptor) (parameter : String) (context : GeneratorContext)
    (error : String) (hopen : context.Open (h.CreateRubyFileName file.name false) = none) :
    (RubyGenerator.Generate h g file parameter context error).1.printer_.out =
      renderFile
        (preambleLines h file ++
          (declarationBlock (namespaceCount file) file ++
            (populationBlock h (namespaceCount file) file ++
              trailerLines h (namespaceCount file) file))) ∧
    (∀ M ∈ file.allMessages,
      (⟨LineKind.classDecl, namespaceCount file, messageClassText M.name⟩ : Line) ∈
          declarationBlock (namespaceCount file) file ∧
        ∀ E ∈ M.enum_type,
          enumClassLine (namespaceCount file) E ∈ declarationBlock (namespaceCount file) file) ∧
    (∀ E ∈ file.enum_type,
      enumClassLine (namespaceCount file) E ∈ declarationBlock (namespaceCount file) file) ∧
    (∀ l ∈ declarationBlock (namespaceCount file) file,
      (l.IsClassDeclaration ∨ l.kind = LineKind.comment ∨ l.kind = LineKind.blank) ∧
        ¬ l.IsPopulationLine h) ∧
    (∀ l ∈ populationBlock h (namespaceCount file) file,
      (l.IsPopulationLine h ∨ l.kind = LineKind.comment ∨ l.kind = LineKind.blank) ∧
        ¬ l.IsClassDeclaration) ∧
    (∀ l ∈ preambleLines h file ++ trailerLines h (namespaceCount file) file,
      ¬ l.IsClassDeclaration ∧ ¬ l.IsPopulationLine h) ∧
    (∀ (i j : Nat) (hi : i < (fileLines h file).length) (hj : j < (fileLines h file).length),
      ((fileLines h file)[i]).IsClassDeclaration →
        ((fileLines h file)[j]).IsPopulationLine h → i < j) := by
  have hdecl : ∀ l ∈ declarationBlock (namespaceCount file) file,
      (l.IsClassDeclaration ∨ l.kind = LineKind.comment ∨ l.kind = LineKind.blank) ∧
        ¬ l.IsPopulationLine h := by
    intro l hl
    have hk := declarationBlock_kinds _ file l hl
    refine ⟨hk, not_population_of_kind h l ?_⟩
    rcases hk with hk | hk | hk
    · exact Or.inr (Or.inr (Or.inr (Or.inr (Or.inl hk.1))))
    · exact Or.inl hk
    · exact Or.inr (Or.inr (Or.inl hk))
  have hpop : ∀ l ∈ populationBlock h (namespaceCount file) file,
      (l.IsPopulationLine h ∨ l.kind = LineKind.comment ∨ l.kind = LineKind.blank) ∧
        ¬ l.IsClassDeclaration := by
    intro l hl
    have hk := populationBlock_kinds h _ file l hl
    refine ⟨hk, not_declaration_of_kind l ?_⟩
    rcases hk with hk | hk | hk
    · exact population_kind h l hk
    · rw [hk]; decide
    · rw [hk]; decide
  have hpre : ∀ l ∈ preambleLines h file, ¬ l.IsClassDeclaration ∧ ¬ l.IsPopulationLine h := by
    intro l hl
    rcases preambleLines_kinds h file l hl with hk | hk | hk | hk
    · exact ⟨not_declaration_of_kind l (by rw [hk]; decide),
        not_population_of_kind h l (Or.inl hk)⟩
    · exact ⟨not_declaration_of_kind l (by rw [hk]; decide),
        not_population_of_kind h l (Or.inr (Or.inl hk))⟩
    · exact ⟨not_declaration_of_kind l (by rw [hk]; decide),
        not_population_of_kind h l (Or.inr (Or.inr (Or.inl hk)))⟩
    · exact ⟨not_declaration_of_kind l (by rw [hk]; decide),
        not_population_of_kind h l (Or.inr (Or.inr (Or.inr (Or.inl hk))))⟩
  have htr : ∀ l ∈ trailerLines h (namespaceCount file) file,
      ¬ l.IsClassDeclaration ∧ ¬ l.IsPopulationLine h := by
    intro l hl
    rcases trailerLines_kinds h _ file l hl with hk | hk | hk | hk | hk
    · exact ⟨not_declaration_of_kind l (by rw [hk]; decide),
        not_population_of_kind h l (Or.inl hk)⟩
    · exact ⟨not_declaration_of_kind l (by rw [hk]; decide),
        not_population_of_kind h l (Or.inr (Or.inr (Or.inr (Or.inr (Or.inr (Or.inl hk))))))⟩
    · exact ⟨not_declaration_of_kind l (by rw [hk]; decide),
        not_population_of_kind h l
          (Or.inr (Or.inr (Or.inr (Or.inr (Or.inr (Or.inr (Or.inl hk)))))))⟩
    · exact ⟨not_declaration_of_kind l (by rw [hk]; decide),
        not_population_of_kind h l
          (Or.inr (Or.inr (Or.inr (Or.inr (Or.inr (Or.inr (Or.inr (Or.inl hk))))))))⟩
    · exact ⟨not_declaration_of_kind l (by rw [hk]; decide),
        not_population_of_kind h l
          (Or.inr (Or.inr (Or.inr (Or.inr (Or.inr (Or.inr (Or.inr (Or.inr hk))))))))⟩
  refine ⟨?_, ?_, ?_, hdecl, hpop, ?_, ?_⟩
  · rw [RubyGenerator.Generate_eq h g file parameter context error hopen]
    simp [RubyGenerator.after, startOf, Printer.new, fileLines]
  · intro M hM
    have hne : file.message_type.length > 0 := by
      cases hm : file.message_type with
      | nil => simp [FileDescriptor.allMessages, hm, messagesAll] at hM
      | cons a b => simp
    have hcov := messagesAll_declared (namespaceCount file) file.message_type M hM
    unfold declarationBlock
    simp only [hne, if_true, List.mem_append, List.mem_cons]
    exact ⟨Or.inr (Or.inr (Or.inl (Or.inr hcov.1))),
      fun E hE => Or.inr (Or.inr (Or.inl (Or.inr (hcov.2 E hE))))⟩
  · intro E hE
    have hne : file.enum_type.length > 0 := List.length_pos_of_mem hE
    unfold declarationBlock
    simp only [hne, if_true, List.mem_append, List.mem_map]
    exact Or.inl (Or.inr ⟨E, hE, rfl⟩)
  · intro l hl
    rcases List.mem_append.mp hl with hl | hl
    · exact hpre l hl
    · exact htr l hl
  · intro i j hi hj
    have hsplit : fileLines h file =
        (preambleLines h file ++ declarationBlock (namespaceCount file) file) ++
          (populationBlock h (namespaceCount file) file ++
            trailerLines h (namespaceCount file) file) := by
      simp [fileLines, List.append_assoc]
    have key := index_order
      (preambleLines h file ++ declarationBlock (namespaceCount file) file)
      (populationBlock h (namespaceCount file) file ++
        trailerLines h (namespaceCount file) file)
      Line.IsClassDeclaration (Line.IsPopulationLine h)
      (by
        intro l hl
        rcases List.mem_append.mp hl with hl | hl
        · exact (hpop l hl).2
        · exact (htr l hl).1)
      (by
        intro l hl
        rcases List.mem_append.mp hl with hl | hl
        · exact (hpre l hl).2
        · exact (hdecl l hl).2)
      i j (by rw [← hsplit]; exact hi) (by rw [← hsplit]; exact hj)
    intro hPi hQj
    apply key
    · simpa only [hsplit] using hPi
    · simpa only [hsplit] using hQj

/-- Witness of C8: a file with a file-level enum, a message with a range and a field,
a nested enum and a nested message. -/
theorem declarations_before_population_witness :
    everAccepting.Open ((sampleHeader true).CreateRubyFileName nestedFile.name false) = none ∧
    (RubyGenerator.Generate (sampleHeader true) freshGenerator nestedFile "" everAccepting
        "").1.printer_.out =
      "##\n# This file is auto-generated. DO NOT EDIT!\n#\nrequire 'protobuf/message'\n\nmodule Shop\n  ##\n  # Enum Classes\n  #\n  class Unit < ::Protobuf::Enum; end\n  \n  ##\n  # Message Classes\n  #\n  class Order < ::Protobuf::Message; end\n  class State < ::Protobuf::Enum; end\n  class Item < ::Protobuf::Message; end\n  \n  ##\n  # Enum Values\n  #\n  ::Shop::Unit.define :KG, 1\n  \n  \n  ##\n  # Message Fields\n  #\n  ::Shop::Order.extensions 100...200\n  ::Shop::Order.optional(::Protobuf::Field::Int32Field, :count, 2, :default => 7, :deprecated => true)\n  \n  ::Shop::Order::State.define :OPEN, 0\n  \n  ::Shop::Order::Item.repeated(::Protobuf::Field::StringField, :tags, 5)\n  \n  \nend\n" :=
  ⟨rfl, by
    rw [(declarations_before_population (sampleHeader true) freshGenerator nestedFile ""
      everAccepting "" rfl).1]
    decide⟩

/-! ## Namespaces and indentation -/

theorem filter_kind_none (k : LineKind) (ls : List Line) (hk : ∀ l ∈ ls, l.kind ≠ k) :
    ls.filter (fun l => l.kind = k) = [] := by
  rw [List.filter_eq_nil_iff]
  intro l hl
  simpa using hk l hl

theorem filter_kind_all (k : LineKind) (ls : List Line) (hk : ∀ l ∈ ls, l.kind = k) :
    ls.filter (fun l => l.kind = k) = ls := by
  rw [List.filter_eq_self]
  intro l hl
  simpa using hk l hl

theorem preambleLines_split (h : Header) (file : FileDescriptor) :
    ∃ head : List Line,
      preambleLines h file = head ++ moduleLines 0 (SplitStringUsing file.package '.') ∧
      ∀ l ∈ head, l.kind = LineKind.comment ∨ l.kind = LineKind.require ∨
        l.kind = LineKind.blank := by
  refine ⟨headerLines 0 "This file is auto-generated. DO NOT EDIT!" ++
    ((if file.message_type.length > 0 then [requireLine 0 "protobuf/message"] else []) ++
    ((if file.service.length > 0 then [requireLine 0 "protobuf/rpc/service"] else []) ++
    ((if file.dependency.length > 0 then
        blankLine 0 :: (headerLines 0 "Imports" ++
          file.dependency.map (fun dep => requireLine 0 (h.CreateRubyFileName dep.name true)))
      else []) ++ [blankLine 0]))), ?_, ?_⟩
  · simp [preambleLines, List.append_assoc]
  · intro l hl
    simp only [List.mem_append, List.mem_cons, List.not_mem_nil, or_false] at hl
    rcases hl with hl | hl | hl | hl | rfl
    · exact Or.inl (headerLines_kind _ _ l hl)
    · split at hl
      · simp only [List.mem_singleton] at hl; subst hl; exact Or.inr (Or.inl rfl)
      · simp at hl
    · split at hl
      · simp only [List.mem_singleton] at hl; subst hl; exact Or.inr (Or.inl rfl)
      · simp at hl
    · split at hl
      · simp only [List.mem_cons, List.mem_append, List.mem_map] at hl
        rcases hl with rfl | hl | ⟨dep, _, rfl⟩
        · exact Or.inr (Or.inr rfl)
        · exact Or.inl (headerLines_kind _ _ l hl)
        · exact Or.inr (Or.inl rfl)
      · simp at hl
    · exact Or.inr (Or.inr rfl)

theorem trailerLines_split (h : Header) (d : Nat) (file : FileDescriptor) :
    ∃ services : List Line,
      trailerLines h d file = services ++ moduleEndLines 0 d ∧
      ∀ l ∈ services, l.kind = LineKind.comment ∨ l.kind = LineKind.serviceOpen ∨
        l.kind = LineKind.rpc ∨ l.kind = LineKind.serviceClose := by
  refine ⟨_, rfl, ?_⟩
  intro l hl
  split at hl
  · simp only [List.mem_append, List.mem_flatten, List.mem_map] at hl
    rcases hl with hl | ⟨ls, ⟨S, _, rfl⟩, hl⟩
    · exact Or.inl (headerLines_kind _ _ l hl)
    · exact Or.inr (serviceLines_kinds h d S l hl)
  · simp at hl

theorem depthAfter_indents (n : Nat) :
    ∀ (rest : List IndentCall) (d : Nat),
      depthAfter (List.replicate n IndentCall.indent ++ rest) d = depthAfter rest (d + n) := by
  induction n with
  | zero => intro rest d; rfl
  | succ n ih =>
    intro rest d
    rw [List.replicate_succ, List.cons_append, depthAfter, ih]
    congr 1
    omega

theorem depthAfter_outdents (n : Nat) :
    ∀ (rest : List IndentCall) (d : Nat),
      depthAfter (List.replicate n IndentCall.outdent ++ rest) (d + n) = depthAfter rest d := by
  induction n with
  | zero => intro rest d; rfl
  | succ n ih =>
    intro rest d
    rw [List.replicate_succ, List.cons_append, ← Nat.add_assoc, depthAfter, ih]

theorem depthAfter_services (services : List ServiceDescriptor) :
    ∀ (rest : List IndentCall) (d : Nat),
      depthAfter (serviceCalls services ++ rest) d = depthAfter rest d := by
  induction services with
  | nil => intro rest d; rfl
  | cons S more ih =>
    intro rest d
    have : serviceCalls (S :: more) ++ rest =
        IndentCall.indent :: IndentCall.outdent :: (serviceCalls more ++ rest) := by
      simp [serviceCalls]
    rw [this, depthAfter, depthAfter, ih]

theorem depthAfter_indentCalls (file : FileDescriptor) :
    depthAfter (indentCalls file) 0 = some 0 := by
  unfold indentCalls
  rw [depthAfter_indents, depthAfter_services]
  have := depthAfter_outdents (namespaceCount file) [] 0
  simpa using this

theorem block_kinds_no_module (h : Header) (d : Nat) (file : FileDescriptor) :
    ∀ l ∈ declarationBlock d file ++ populationBlock h d file,
      l.kind ≠ LineKind.moduleOpen ∧ l.kind ≠ LineKind.moduleClose := by
  intro l hl
  rcases List.mem_append.mp hl with hl | hl
  · rcases declarationBlock_kinds d file l hl with hk | hk | hk
    · rw [hk.1]; exact ⟨by decide, by decide⟩
    · rw [hk]; exact ⟨by decide, by decide⟩
    · rw [hk]; exact ⟨by decide, by decide⟩
  · rcases populationBlock_kinds h d file l hl with hk | hk | hk
    · rcases hk with ⟨hk, _⟩ | ⟨hk, _⟩ | ⟨hk, _⟩ <;> rw [hk] <;> exact ⟨by decide, by decide⟩
    · rw [hk]; exact ⟨by decide, by decide⟩
    · rw [hk]; exact ⟨by decide, by decide⟩

theorem fileLines_moduleOpen (h : Header) (file : FileDescriptor) :
    (fileLines h file).filter (fun l => l.kind = LineKind.moduleOpen) =
      moduleLines 0 (SplitStringUsing file.package '.') := by
  obtain ⟨head, hpre, hhead⟩ := preambleLines_split h file
  obtain ⟨services, htr, hserv⟩ := trailerLines_split h (namespaceCount file) file
  have hblocks := block_kinds_no_module h (namespaceCount file) file
  unfold fileLines
  rw [hpre, htr]
  simp only [List.filter_append]
  rw [filter_kind_none _ head, filter_kind_all _ _ (moduleLines_kind _ 0),
    filter_kind_none _ (declarationBlock _ _), filter_kind_none _ (populationBlock _ _ _),
    filter_kind_none _ services, filter_kind_none _ (moduleEndLines _ _)]
  · simp
  · intro l hl; rw [moduleEndLines_kind _ _ l hl]; decide
  · intro l hl
    rcases hserv l hl with hk | hk | hk | hk <;> rw [hk] <;> decide
  · intro l hl; exact (hblocks l (List.mem_append.mpr (Or.inr hl))).1
  · intro l hl; exact (hblocks l (List.mem_append.mpr (Or.inl hl))).1
  · intro l hl
    rcases hhead l hl with hk | hk | hk <;> rw [hk] <;> decide

theorem fileLines_moduleClose (h : Header) (file : FileDescriptor) :
    (fileLines h file).filter (fun l => l.kind = LineKind.moduleClose) =
      moduleEndLines 0 (namespaceCount file) := by
  obtain ⟨head, hpre, hhead⟩ := preambleLines_split h file
  obtain ⟨services, htr, hserv⟩ := trailerLines_split h (namespaceCount file) file
  have hblocks := block_kinds_no_module h (namespaceCount file) file
  unfold fileLines
  rw [hpre, htr]
  simp only [List.filter_append]
  rw [filter_kind_none _ head, filter_kind_none _ (moduleLines _ _),
    filter_kind_none _ (declarationBlock _ _), filter_kind_none _ (populationBlock _ _ _),
    filter_kind_none _ services, filter_kind_all _ _ (moduleEndLines_kind 0 _)]
  · simp
  · intro l hl
    rcases hserv l hl with hk | hk | hk | hk <;> rw [hk] <;> decide
  · intro l hl; exact (hblocks l (List.mem_append.mpr (Or.inr hl))).2
  · intro l hl; exact (hblocks l (List.mem_append.mpr (Or.inl hl))).2
  · intro l hl; rw [moduleLines_kind _ _ l hl]; decide
  · intro l hl
    rcases hhead l hl with hk | hk | hk <;> rw [hk] <;> decide

/-- C5: whatever the stream accepts, `Generate` leaves in `ns_vector` the segments
of the package path; the printer received one `Indent()` per segment, one `Indent()`
followed by one `Outdent()` per service, and one `Outdent()` per segment: run from
the depth the printer starts with, these calls never take the depth below it and end
at it, and the indent of the printer after `Generate` is the one it started with.  On
a stream that accepts every write the text written is that of `fileLines`; among
these lines the `module` lines are one per segment, at depths 0, 1, …, and the `end`
lines that `PrintEnclosingNamespaceModuleEnds` writes are as many, at the same depths
in reverse. -/
theorem namespaces_balance (h : Header) (g : RubyGenerator) (file : FileDescriptor)
    (parameter : String) (context : GeneratorContext) (error : String) :
    (RubyGenerator.Generate h g file parameter context error).1.ns_vector =
      SplitStringUsing file.package '.' ∧
    (context.Open (h.CreateRubyFileName file.name false) = none →
      (RubyGenerator.Generate h g file parameter context error).1.printer_.out =
        renderFile (fileLines h file)) ∧
    (fileLines h file).filter (fun l => l.kind = LineKind.moduleOpen) =
      moduleLines 0 (SplitStringUsing file.package '.') ∧
    ((fileLines h file).filter (fun l => l.kind = LineKind.moduleOpen)).length =
      (SplitStringUsing file.package '.').length ∧
    (fileLines h file).filter (fun l => l.kind = LineKind.moduleClose) =
      moduleEndLines 0 (SplitStringUsing file.package '.').length ∧
    ((fileLines h file).filter (fun l => l.kind = LineKind.moduleClose)).length =
      (SplitStringUsing file.package '.').length ∧
    (RubyGenerator.Generate h g file parameter context error).1.printer_.calls =
      List.replicate (SplitStringUsing file.package '.').length IndentCall.indent ++
        (serviceCalls file.service ++
          List.replicate (SplitStringUsing file.package '.').length IndentCall.outdent) ∧
    depthAfter (RubyGenerator.Generate h g file parameter context error).1.printer_.calls 0 =
      some 0 ∧
    (RubyGenerator.Generate h g file parameter context error).1.printer_.indent_ =
      (Printer.new (context.Open (h.CreateRubyFileName file.name false))).indent_ := by
  have m := RubyGenerator.Generate_moved h g file parameter context error
  refine ⟨m.2.2.1, ?_, fileLines_moduleOpen h file, ?_, fileLines_moduleClose h file, ?_,
    m.2.2.2.2, ?_, m.2.2.2.1⟩
  · intro hopen
    rw [RubyGenerator.Generate_eq h g file parameter context error hopen]
    simp [RubyGenerator.after, startOf, Printer.new]
  · rw [fileLines_moduleOpen, moduleLines_length]
  · rw [fileLines_moduleClose, moduleEndLines_length]
    rfl
  · rw [m.2.2.2.2]
    exact depthAfter_indentCalls file

/-- Witness of C5: a file with the package `a.b` and one service. -/
theorem namespaces_balance_witness :
    everAccepting.Open ((sampleHeader true).CreateRubyFileName serviceFile.name false) = none ∧
    ((fileLines (sampleHeader true) serviceFile).filter
      (fun l => l.kind = LineKind.moduleOpen)).length = 2 ∧
    ((fileLines (sampleHeader true) serviceFile).filter
      (fun l => l.kind = LineKind.moduleClose)).length = 2 ∧
    (RubyGenerator.Generate (sampleHeader true) freshGenerator serviceFile "" everAccepting
        "").1.printer_.calls =
      [IndentCall.indent, IndentCall.indent, IndentCall.indent, IndentCall.outdent,
        IndentCall.outdent, IndentCall.outdent] ∧
    (RubyGenerator.Generate (sampleHeader true) freshGenerator serviceFile "" everAccepting
        "").1.printer_.out =
      "##\n# This file is auto-generated. DO NOT EDIT!\n#\nrequire 'protobuf/message'\nrequire 'protobuf/rpc/service'\n\nmodule A\n  module B\n    \n    ##\n    # Message Classes\n    #\n    class Req < ::Protobuf::Message; end\n    class Resp < ::Protobuf::Message; end\n    \n    \n    ##\n    # Message Fields\n    #\n    \n    ##\n    # Services\n    #\n    class Echo < ::Protobuf::Service\n      rpc :do_thing, ::A::B::Req, ::A::B::Resp\n    end\n  end\nend\n" := by
  have w := namespaces_balance (sampleHeader true) freshGenerator serviceFile ""
    everAccepting ""
  refine ⟨rfl, w.2.2.2.1.trans (by decide), w.2.2.2.2.2.1.trans (by decide),
    w.2.2.2.2.2.2.1.trans (by decide), (w.2.1 rfl).trans (by decide)⟩

/-! ## The scenario of a package with one message -/

/-- C6 as stated fails: whether or not the one-argument `Constantize` puts the
absolute-namespace marker, the lines the scenario names are not, in their order, lines
of the text `Generate` writes for the scenario file, because no line of that text is
`Msg.optional(::Protobuf::Field::StringField, :name, 1)`. -/
theorem scenario_field_line_not_bare :
    (¬ List.Sublist (scenarioLines "Msg.optional(::Protobuf::Field::StringField, :name, 1)")
      (outputLines (RubyGenerator.Generate (sampleHeader true) freshGenerator scenarioFile ""
        everAccepting "").1.printer_.out)) ∧
    (¬ List.Sublist (scenarioLines "Msg.optional(::Protobuf::Field::StringField, :name, 1)")
      (outputLines (RubyGenerator.Generate (sampleHeader false) freshGenerator scenarioFile ""
        everAccepting "").1.printer_.out)) ∧
    "Msg.optional(::Protobuf::Field::StringField, :name, 1)" ∉
      outputLines (RubyGenerator.Generate (sampleHeader true) freshGenerator scenarioFile ""
        everAccepting "").1.printer_.out ∧
    "Msg.optional(::Protobuf::Field::StringField, :name, 1)" ∉
      outputLines (RubyGenerator.Generate (sampleHeader false) freshGenerator scenarioFile ""
        everAccepting "").1.printer_.out := by
  refine ⟨?_, ?_, ?_, ?_⟩ <;> decide

/-- C6 as amended: for the scenario file, on a stream that accepts every write, the
text `Generate` writes contains, in this order and ignoring leading indentation, the
lines `module A`, `module B`, `class Msg < ::Protobuf::Message; end`,
`<T>.optional(::Protobuf::Field::StringField, :name, 1)`, `end`, `end`, where `<T>` is
`Constantize` of the full name `a.b.Msg` of the message: `A::B::Msg`, after the marker
`::` when the one-argument `Constantize` puts it. -/
theorem scenario_lines_qualified (h : Header) (g : RubyGenerator) (parameter : String)
    (context : GeneratorContext) (error : String)
    (hopen : context.Open (h.CreateRubyFileName scenarioFile.name false) = none) :
    List.Sublist
      (scenarioLines
        (h.Constantize "a.b.Msg" ++ ".optional(::Protobuf::Field::StringField, :name, 1)"))
      (outputLines
        (RubyGenerator.Generate h g scenarioFile parameter context error).1.printer_.out) ∧
    h.Constantize "a.b.Msg" = (if h.is_top_level then "::A::B::Msg" else "A::B::Msg") := by
  rw [RubyGenerator.Generate_eq h g scenarioFile parameter context error hopen]
  obtain ⟨top, createName, underscore⟩ := h
  cases top
  · have hout : ((startOf ⟨false, createName, underscore⟩ scenarioFile context).after
        (renderFile (fileLines ⟨false, createName, underscore⟩ scenarioFile)) 0
        (indentCalls scenarioFile)).printer_.out =
        "##\n# This file is auto-generated. DO NOT EDIT!\n#\nrequire 'protobuf/message'\n\nmodule A\n  module B\n    \n    ##\n    # Message Classes\n    #\n    class Msg < ::Protobuf::Message; end\n    \n    \n    ##\n    # Message Fields\n    #\n    A::B::Msg.optional(::Protobuf::Field::StringField, :name, 1)\n    \n    \n  end\nend\n" :=
      rfl
    have hc : Header.Constantize ⟨false, createName, underscore⟩ "a.b.Msg" = "A::B::Msg" := rfl
    simp only [hout, hc]
    exact ⟨by decide, rfl⟩
  · have hout : ((startOf ⟨true, createName, underscore⟩ scenarioFile context).after
        (renderFile (fileLines ⟨true, createName, underscore⟩ scenarioFile)) 0
        (indentCalls scenarioFile)).printer_.out =
        "##\n# This file is auto-generated. DO NOT EDIT!\n#\nrequire 'protobuf/message'\n\nmodule A\n  module B\n    \n    ##\n    # Message Classes\n    #\n    class Msg < ::Protobuf::Message; end\n    \n    \n    ##\n    # Message Fields\n    #\n    ::A::B::Msg.optional(::Protobuf::Field::StringField, :name, 1)\n    \n    \n  end\nend\n" :=
      rfl
    have hc : Header.Constantize ⟨true, createName, underscore⟩ "a.b.Msg" = "::A::B::Msg" := rfl
    simp only [hout, hc]
    exact ⟨by decide, rfl⟩

/-- Witness of the amended C6, with the marker. -/
theorem scenario_lines_qualified_witness :
    everAccepting.Open ((sampleHeader true).CreateRubyFileName scenarioFile.name false) = none ∧
    List.Sublist
      (scenarioLines "::A::B::Msg.optional(::Protobuf::Field::StringField, :name, 1)")
      (outputLines (RubyGenerator.Generate (sampleHeader true) freshGenerator scenarioFile ""
        everAccepting "").1.printer_.out) :=
  ⟨rfl, (scenario_lines_qualified (sampleHeader true) freshGenerator "" everAccepting "" rfl).1⟩

/-- C7, at the failing input: in the text generated for a file with package `shop` and
the message `Order` with the nested message `Item`, the declaration pass declares, read
as the claim reads it, the constants `Shop::Order` and `Shop::Item`, while the line of
the field of `Item` names `Shop::Order::Item` (after the marker `::` when the
one-argument `Constantize` puts it), which is not among the declared constants. -/
theorem nested_class_token_undeclared :
    declaredConstants (RubyGenerator.Generate (sampleHeader true) freshGenerator nestedFile ""
        everAccepting "").1.printer_.out = ["Shop::Order", "Shop::Item"] ∧
    declaredConstants (RubyGenerator.Generate (sampleHeader false) freshGenerator nestedFile ""
        everAccepting "").1.printer_.out = ["Shop::Order", "Shop::Item"] ∧
    ((sampleHeader true).Constantize "shop.Order.Item" ++
        ".repeated(::Protobuf::Field::StringField, :tags, 5)") ∈
      outputLines (RubyGenerator.Generate (sampleHeader true) freshGenerator nestedFile ""
        everAccepting "").1.printer_.out ∧
    ((sampleHeader false).Constantize "shop.Order.Item" ++
        ".repeated(::Protobuf::Field::StringField, :tags, 5)") ∈
      outputLines (RubyGenerator.Generate (sampleHeader false) freshGenerator nestedFile ""
        everAccepting "").1.printer_.out ∧
    (sampleHeader true).Constantize "shop.Order.Item" = "::Shop::Order::Item" ∧
    (sampleHeader false).Constantize "shop.Order.Item" = "Shop::Order::Item" ∧
    "Shop::Order::Item" ∉ ["Shop::Order", "Shop::Item"] ∧
    "::Shop::Order::Item" ∉ ["Shop::Order", "Shop::Item"] := by
  refine ⟨?_, ?_, ?_, ?_, ?_, ?_, ?_, ?_⟩ <;> decide

/-! ## Defaults of enum fields -/

theorem splitOnChar_ne_nil (sep : Char) (cs : List Char) : splitOnChar sep cs ≠ [] := by
  cases cs with
  | nil => simp [splitOnChar]
  | cons c cs =>
    unfold splitOnChar
    split
    · simp
    · split <;> simp

theorem splitOnChar_append_sep (sep : Char) (xs ys : List Char) :
    splitOnChar sep (xs ++ sep :: ys) = splitOnChar sep xs ++ splitOnChar sep ys := by
  induction xs with
  | nil => simp [splitOnChar]
  | cons c xs ih =>
    by_cases hc : c = sep
    · simp [splitOnChar, hc, ih]
    · simp only [List.cons_append, splitOnChar, hc, if_false, List.append_eq]
      rw [ih]
      cases hx : splitOnChar sep xs with
      | nil => exact absurd hx (splitOnChar_ne_nil sep xs)
      | cons w ws => simp

theorem splitOnChar_none (sep : Char) (ys : List Char) (hy : sep ∉ ys) :
    splitOnChar sep ys = [ys] := by
  induction ys with
  | nil => rfl
  | cons c cs ih =>
    have hc : c ≠ sep := fun hcs => hy (by simp [hcs])
    have hcs : sep ∉ cs := fun hm => hy (List.mem_cons_of_mem c hm)
    simp [splitOnChar, hc, ih hcs]

theorem intercalate_append_single (sep : List Char) (A : List (List Char)) (x : List Char)
    (hA : A ≠ []) :
    List.intercalate sep (A ++ [x]) = List.intercalate sep A ++ sep ++ x := by
  induction A with
  | nil => exact absurd rfl hA
  | cons a rest ih =>
    cases rest with
    | nil => simp [List.intercalate, List.intersperse]
    | cons b more =>
      have ih2 := ih (by simp)
      simp only [List.intercalate, List.cons_append, List.intersperse, List.flatten_cons,
        List.append_assoc, List.append_eq] at ih2 ⊢
      rw [ih2]

theorem String.append_left_cancel_iff (a b c : String) : a ++ b = a ++ c ↔ b = c := by
  simp [String.ext_iff]

/-- The constant of a qualified name is a text that depends on the scope only, followed
by the constant of the last segment. -/
theorem Constantize_qualified (scope : String) (b : Bool) :
    ∃ pre : String, ∀ n : String, '.' ∉ n.toList →
      Constantize (qualified scope n) b = pre ++ String.mk (constantizeSegment n.toList) := by
  by_cases hs : scope = ""
  · refine ⟨if b then "::" else "", ?_⟩
    intro n hn
    have hsplit : splitOnChar '.' n.data = [n.data] := splitOnChar_none '.' n.data hn
    simp [Constantize, qualified, hs, hsplit, List.intercalate, List.intersperse]
  · refine ⟨(if b then "::" else "") ++
      String.mk (List.intercalate [':', ':']
        ((splitOnChar '.' scope.toList).map constantizeSegment) ++ [':', ':']), ?_⟩
    intro n hn
    have hlist : (scope ++ "." ++ n).toList = scope.toList ++ '.' :: n.toList := by
      simp [String.toList, String.data_append]
    have hne : (splitOnChar '.' scope.toList).map constantizeSegment ≠ [] := by
      simpa using splitOnChar_ne_nil '.' scope.toList
    have hsplit : splitOnChar '.' n.toList = [n.toList] := splitOnChar_none '.' n.toList hn
    simp only [Constantize, qualified, hs, if_false, hlist, splitOnChar_append_sep,
      hsplit, List.map_append, List.map_cons, List.map_nil,
      intercalate_append_single _ _ _ hne]
    simp [String.ext_iff, String.data_append]

theorem find_unique {α : Type} (p : α → Bool) (v : α) (xs : List α) (hv : v ∈ xs)
    (hp : p v = true) (hu : ∀ w ∈ xs, p w = true → w = v) : xs.find? p = some v := by
  induction xs with
  | nil => cases hv
  | cons x rest ih =>
    by_cases hx : p x = true
    · have hxv := hu x (List.mem_cons_self x rest) hx
      subst hxv
      simp [List.find?, hx]
    · have hx2 : p x = false := by simpa using hx
      have hvr : v ∈ rest := by
        rcases List.mem_cons.mp hv with hvx | hvr
        · rw [hvx] at hp; exact absurd hp hx
        · exact hvr
      simp only [List.find?, hx2]
      exact ih hvr (fun w hw => hu w (List.mem_cons_of_mem x hw))

/-- C9 as stated fails: the enum `Mode` has the distinct values `foo` and `Foo`, both
rendered as the same default text (`::Foo`, or `Foo` without the marker); for the field
whose default is `Foo`, the text of the default clause is that text, and resolving it
among the values of `Mode` yields `foo`, not the selected value. -/
theorem enum_default_collision :
    modeField.type = FieldType.TYPE_ENUM caseEnum ∧ modeField.has_default_value = true ∧
    modeField.default_value = DefaultValue.enum ⟨"Foo", "Foo", 1, ⟨"Mode"⟩⟩ ∧
    (⟨"Foo", "Foo", 1, ⟨"Mode"⟩⟩ : EnumValueDescriptor) ∈ caseEnum.value ∧
    (RubyGenerator.fieldData (sampleHeader true) modeField).lookup "default_opt" =
      some ", :default => ::Foo" ∧
    (RubyGenerator.fieldData (sampleHeader false) modeField).lookup "default_opt" =
      some ", :default => Foo" ∧
    resolveEnumDefault (sampleHeader true) caseEnum "::Foo" = some ⟨"foo", "foo", 0, ⟨"Mode"⟩⟩ ∧
    resolveEnumDefault (sampleHeader false) caseEnum "Foo" = some ⟨"foo", "foo", 0, ⟨"Mode"⟩⟩ ∧
    (sampleHeader true).Constantize "foo" = (sampleHeader true).Constantize "Foo" ∧
    (sampleHeader false).Constantize "foo" = (sampleHeader false).Constantize "Foo" ∧
    (⟨"foo", "foo", 0, ⟨"Mode"⟩⟩ : EnumValueDescriptor) ≠ ⟨"Foo", "Foo", 1, ⟨"Mode"⟩⟩ := by
  refine ⟨?_, ?_, ?_, ?_, ?_, ?_, ?_, ?_, ?_, ?_, ?_⟩ <;> decide

/-- C9 as amended: let the field `F` have the enum type `E` and the default `v`, a value
of `E`, let the values of `E` have the full name `<scope>.<name>` (their name alone in a
file without package) and names without a dot.  The default clause of `F` is
`, :default => ` followed by `Constantize` of the full name of `v`.  Two values of `E`
are rendered as the same default text exactly when their names have the same
capitalized, underscore-free form; so when no other value of `E` has the form of the
name of `v`, resolving the default text among the values of `E` yields `v`. -/
theorem enum_default_round_trip (h : Header) (F : FieldDescriptor) (E : EnumDescriptor)
    (v : EnumValueDescriptor) (scope : String)
    (htype : F.type = FieldType.TYPE_ENUM E) (hdef : F.has_default_value = true)
    (hval : F.default_value = DefaultValue.enum v) (hv : v ∈ E.value)
    (hfull : ∀ w ∈ E.value, w.full_name = qualified scope w.name)
    (hdot : ∀ w ∈ E.value, '.' ∉ w.name.toList)
    (hform : ∀ w ∈ E.value,
      constantizeSegment w.name.toList = constantizeSegment v.name.toList → w = v) :
    (RubyGenerator.fieldData h F).lookup "default_opt" =
      some (", :default => " ++ h.Constantize v.full_name) ∧
    resolveEnumDefault h E (h.Constantize v.full_name) = some v ∧
    (∀ w1 ∈ E.value, ∀ w2 ∈ E.value,
      (h.Constantize w1.full_name = h.Constantize w2.full_name ↔
        constantizeSegment w1.name.toList = constantizeSegment w2.name.toList)) := by
  obtain ⟨pre, hpre⟩ := Constantize_qualified scope h.is_top_level
  have hiff : ∀ w1 ∈ E.value, ∀ w2 ∈ E.value,
      (h.Constantize w1.full_name = h.Constantize w2.full_name ↔
        constantizeSegment w1.name.toList = constantizeSegment w2.name.toList) := by
    intro w1 h1 w2 h2
    unfold Header.Constantize
    rw [hfull w1 h1, hfull w2 h2, hpre _ (hdot w1 h1), hpre _ (hdot w2 h2),
      String.append_left_cancel_iff]
    simp [String.ext_iff]
  refine ⟨?_, ?_, hiff⟩
  · have hl := (RubyGenerator.fieldData_lookup h F).2.2.2.2.2.1
    rw [hl]
    simp [defaultClause, hdef, defaultText, FieldDescriptor.cpp_type, htype,
      FieldType.cpp_type, FieldDescriptor.default_value_enum, hval]
  · unfold resolveEnumDefault
    apply find_unique _ v E.value hv
    · simp
    · intro w hw hp
      have heq : h.Constantize w.full_name = h.Constantize v.full_name := by simpa using hp
      exact hform w hw ((hiff w hw v hv).mp heq)

/-- Witness of the amended C9: the default `POUND_AVDP` of a field of type `shop.Unit`. -/
theorem enum_default_round_trip_witness :
    unitField.type = FieldType.TYPE_ENUM unitEnum ∧ unitField.has_default_value = true ∧
    unitField.default_value =
      DefaultValue.enum ⟨"POUND_AVDP", "shop.POUND_AVDP", 2, ⟨"shop.Unit"⟩⟩ ∧
    (⟨"POUND_AVDP", "shop.POUND_AVDP", 2, ⟨"shop.Unit"⟩⟩ : EnumValueDescriptor) ∈
      unitEnum.value ∧
    (∀ w ∈ unitEnum.value, w.full_name = qualified "shop" w.name) ∧
    (∀ w ∈ unitEnum.value, '.' ∉ w.name.toList) ∧
    (∀ w ∈ unitEnum.value,
      constantizeSegment w.name.toList = constantizeSegment "POUND_AVDP".toList →
        w = ⟨"POUND_AVDP", "shop.POUND_AVDP", 2, ⟨"shop.Unit"⟩⟩) ∧
    (RubyGenerator.fieldData (sampleHeader true) unitField).lookup "default_opt" =
      some ", :default => ::Shop::POUNDAVDP" ∧
    resolveEnumDefault (sampleHeader true) unitEnum "::Shop::POUNDAVDP" =
      some ⟨"POUND_AVDP", "shop.POUND_AVDP", 2, ⟨"shop.Unit"⟩⟩ := by
  have w := enum_default_round_trip (sampleHeader true) unitField unitEnum
    ⟨"POUND_AVDP", "shop.POUND_AVDP", 2, ⟨"shop.Unit"⟩⟩ "shop" rfl rfl rfl (by decide)
    (by decide) (by decide) (by decide)
  exact ⟨rfl, rfl, rfl, by decide, by decide, by decide, by decide, w.1, w.2.1⟩

/-! ## Defaults of integer and boolean fields -/

theorem digitChar_value (d : Nat) (hd : d < 10) :
    (Nat.digitChar d).isDigit = true ∧ (Nat.digitChar d).toNat - '0'.toNat = d := by
  interval_cases d <;> exact ⟨by decide, by decide⟩

theorem parseDigits_toDigitsCore (fuel : Nat) :
    ∀ n : Nat, n < fuel → ∃ k : Nat, ∀ (ds : List Char) (acc : Nat),
      parseDigits (Nat.toDigitsCore 10 fuel n ds) acc = parseDigits ds (acc * 10 ^ k + n) := by
  induction fuel with
  | zero => intro n hn; omega
  | succ fuel ih =>
    intro n hn
    have hdig := digitChar_value (n % 10) (Nat.mod_lt n (by decide))
    by_cases hq : n / 10 = 0
    · refine ⟨1, ?_⟩
      intro ds acc
      have hn10 : n % 10 = n := by omega
      rw [hn10] at hdig
      simp only [Nat.toDigitsCore, hq, if_true, parseDigits, hdig.1, hdig.2, hn10, pow_one]
    · obtain ⟨k, hk⟩ := ih (n / 10) (by omega)
      refine ⟨k + 1, ?_⟩
      intro ds acc
      simp only [Nat.toDigitsCore, hq, if_false, hk, parseDigits, hdig.1, hdig.2, if_true]
      congr 1
      rw [pow_succ]
      have := Nat.div_add_mod n 10
      nlinarith [Nat.div_add_mod n 10]

theorem parseDigits_toDigits (n : Nat) : parseDigits (Nat.toDigits 10 n) 0 = some n := by
  obtain ⟨k, hk⟩ := parseDigits_toDigitsCore (n + 1) n (Nat.lt_succ_self n)
  have := hk [] 0
  simpa [Nat.toDigits, parseDigits] using this

theorem toDigitsCore_ne_nil (fuel : Nat) :
    ∀ (n : Nat) (ds : List Char), ds ≠ [] → Nat.toDigitsCore 10 fuel n ds ≠ [] := by
  induction fuel with
  | zero => intro n ds hds; simpa [Nat.toDigitsCore] using hds
  | succ fuel ih =>
    intro n ds hds
    simp only [Nat.toDigitsCore]
    split
    · simp
    · exact ih _ _ (by simp)

theorem toDigits_ne_nil (n : Nat) : Nat.toDigits 10 n ≠ [] := by
  simp only [Nat.toDigits, Nat.toDigitsCore]
  split
  · simp
  · exact toDigitsCore_ne_nil _ _ _ (by simp)

theorem parseNat_SimpleItoa (n : Nat) : parseNat (SimpleItoa (n : Int)) = some n := by
  have e : (SimpleItoa (n : Int)).data = Nat.toDigits 10 n := rfl
  simp [parseNat, String.toList, e, toDigits_ne_nil, parseDigits_toDigits]

theorem parseInt_SimpleItoa (i : Int) : parseInt (SimpleItoa i) = some i := by
  cases i with
  | ofNat n =>
    have e : (SimpleItoa (Int.ofNat n)).toList = Nat.toDigits 10 n := rfl
    have hp := parseDigits_toDigits n
    unfold parseInt
    rw [e]
    cases hd : Nat.toDigits 10 n with
    | nil => exact absurd hd (toDigits_ne_nil n)
    | cons c cs =>
      rw [hd] at hp
      have hc : c ≠ '-' := by
        intro hc
        rw [hc] at hp
        simp [parseDigits] at hp
      simp [hc, hp]
  | negSucc n =>
    have e : (SimpleItoa (Int.negSucc n)).toList = '-' :: Nat.toDigits 10 (n + 1) := rfl
    unfold parseInt
    rw [e]
    simp [toDigits_ne_nil, parseDigits_toDigits, Int.negSucc_eq]

theorem SimpleItoa_eq_toString (i : Int) : SimpleItoa i = toString i := by
  cases i <;> rfl

theorem SimpleItoa_natCast (n : Nat) : SimpleItoa (n : Int) = toString n := rfl

theorem parseNat_toString (n : Nat) : parseNat (toString n) = some n := by
  rw [← SimpleItoa_natCast, parseNat_SimpleItoa]

theorem parseInt_toString (i : Int) : parseInt (toString i) = some i := by
  rw [← SimpleItoa_eq_toString, parseInt_SimpleItoa]

/-- C10: for a field with a default whose value category is a signed or unsigned 32 or
64 bit integer, the default lying in the range of the category, or is boolean, the
default clause that `PrintMessageField` assigns is `, :default => ` followed by the
canonical decimal text of the default (the token `true` or `false` for a boolean), and
that text read back in the value category of the field is the default. -/
theorem integer_default_round_trip (h : Header) (F : FieldDescriptor)
    (hdef : F.has_default_value = true) (hrange : F.DefaultInRange) :
    (RubyGenerator.fieldData h F).lookup "default_opt" =
      some (", :default => " ++ canonicalText F.default_value) ∧
    parseDefault F.cpp_type (canonicalText F.default_value) = some F.default_value := by
  have hl := (RubyGenerator.fieldData_lookup h F).2.2.2.2.2.1
  rw [hl]
  unfold FieldDescriptor.DefaultInRange at hrange
  split at hrange
  · next v hc hv =>
    simp [defaultClause, hdef, defaultText, hc, hv, FieldDescriptor.default_value_int32,
      canonicalText, parseDefault, SimpleItoa_eq_toString, parseInt_toString, hrange]
  · next v hc hv =>
    simp [defaultClause, hdef, defaultText, hc, hv, FieldDescriptor.default_value_int64,
      canonicalText, parseDefault, SimpleItoa_eq_toString, parseInt_toString, hrange]
  · next v hc hv =>
    simp [defaultClause, hdef, defaultText, hc, hv, FieldDescriptor.default_value_uint32,
      canonicalText, parseDefault, SimpleItoa_natCast, parseNat_toString, hrange]
  · next v hc hv =>
    simp [defaultClause, hdef, defaultText, hc, hv, FieldDescriptor.default_value_uint64,
      canonicalText, parseDefault, SimpleItoa_natCast, parseNat_toString, hrange]
  · next v hc hv =>
    cases v <;>
      simp only [defaultClause, hdef, defaultText, hc, hv, FieldDescriptor.default_value_bool,
        canonicalText, parseDefault, boolText, if_true] <;>
      exact ⟨rfl, by decide⟩
  · exact absurd hrange id

/-- Witness of C10: the smallest 32 bit integer as the default of a `sint32` field. -/
theorem integer_default_round_trip_witness :
    offsetField.has_default_value = true ∧ offsetField.DefaultInRange ∧
    (RubyGenerator.fieldData (sampleHeader true) offsetField).lookup "default_opt" =
      some ", :default => -2147483648" ∧
    parseDefault CppType.CPPTYPE_INT32 "-2147483648" = some (DefaultValue.int32 (-2147483648)) := by
  have w := integer_default_round_trip (sampleHeader true) offsetField rfl (by decide)
  exact ⟨rfl, by decide, w.1.trans (by decide), w.2.symm ▸ (by decide)⟩

/-! ## The clauses and the type token of a field line -/

/-- C11: for a string or bytes field with the declared default `s`, the default clause
that `PrintMessageField` assigns is `, :default => "`, then `s` as it is, then `"`, and
the line written holds the clause with `s` unchanged, whatever characters `s` is made
of. -/
theorem string_default_verbatim (h : Header) (F : FieldDescriptor) (s : String)
    (g : RubyGenerator) (hg : g.printer_.Ready)
    (htype : F.type = FieldType.TYPE_STRING ∨ F.type = FieldType.TYPE_BYTES)
    (hdef : F.has_default_value = true) (hs : F.default_value = DefaultValue.string s) :
    (RubyGenerator.fieldData h F).lookup "default_opt" =
      some (", :default => \"" ++ s ++ "\"") ∧
    RubyGenerator.PrintMessageField h F g =
      g.wrote (indentText g.printer_.indent_ ++
        (h.Constantize F.containing_type.full_name ++ "." ++ labelText F.label ++ "(" ++
          typeToken h F.type ++ ", :" ++ F.lowercase_name ++ ", " ++ SimpleItoa F.number ++
          (", :default => \"" ++ s ++ "\"") ++
          (packedClause F ++ deprecatedClause F ++ extensionClause F) ++ ")") ++ "\n") := by
  have hc : defaultClause h F = ", :default => \"" ++ s ++ "\"" := by
    have e : ∀ t : String, ", :default => " ++ ("\"" ++ t) = ", :default => \"" ++ t := by
      intro t
      rw [← String.append_assoc]
      rfl
    rcases htype with ht | ht <;>
      simp [defaultClause, hdef, defaultText, FieldDescriptor.cpp_type, ht, FieldType.cpp_type,
        FieldDescriptor.default_value_string, hs, String.append_assoc, e]
  refine ⟨?_, ?_⟩
  · rw [(RubyGenerator.fieldData_lookup h F).2.2.2.2.2.1, hc]
  · rw [RubyGenerator.PrintMessageField_eq h F g hg]
    simp only [renderLine, fieldText, fieldCall, fieldClauses, hc, String.append_assoc]

/-- Witness of C11: a default with a double quote, a backslash, a dollar sign, a
newline and a tab. -/
theorem string_default_verbatim_witness :
    freshGenerator.printer_.Ready ∧ noteField.has_default_value = true ∧
    (RubyGenerator.PrintMessageField (sampleHeader true) noteField freshGenerator).printer_.out =
      "::Pkg::Msg.optional(::Protobuf::Field::StringField, :note, 6, :default => \"a\"b\\c$d\ne\tf\")\n" := by
  have w := string_default_verbatim (sampleHeader true) noteField "a\"b\\c$d\ne\tf"
    freshGenerator ⟨rfl, rfl, rfl⟩ (Or.inl rfl) rfl rfl
  refine ⟨⟨rfl, rfl, rfl⟩, rfl, ?_⟩
  rw [w.2]
  decide

/-- C12: the packed clause that `PrintMessageField` assigns and writes, between the
default clause and the deprecated clause, is `, :packed => true` or
`, :packed => false`, as the options say, when the field is packable and its options
have packed set, and nothing otherwise: so a packable field whose options do not set
packed has no packed clause. -/
theorem packed_clause_gating (h : Header) (F : FieldDescriptor) (g : RubyGenerator)
    (hg : g.printer_.Ready) :
    (RubyGenerator.fieldData h F).lookup "packed_opt" =
      some (if F.is_packable && F.options.has_packed
        then ", :packed => " ++ (if F.options.packed then "true" else "false") else "") ∧
    RubyGenerator.PrintMessageField h F g =
      g.wrote (indentText g.printer_.indent_ ++
        (h.Constantize F.containing_type.full_name ++ "." ++ labelText F.label ++ "(" ++
          typeToken h F.type ++ ", :" ++ F.lowercase_name ++ ", " ++ SimpleItoa F.number ++
          defaultClause h F ++
          (if F.is_packable && F.options.has_packed
            then ", :packed => " ++ (if F.options.packed then "true" else "false") else "") ++
          (deprecatedClause F ++ extensionClause F) ++ ")") ++ "\n") ∧
    ((RubyGenerator.fieldData h F).lookup "packed_opt" ≠ some "" ↔
      F.is_packable = true ∧ F.options.has_packed = true) ∧
    (F.is_packable = true → F.options.has_packed = false →
      (RubyGenerator.fieldData h F).lookup "packed_opt" = some "") ∧
    (F.is_packable = true ↔
      F.label = Label.LABEL_REPEATED ∧ F.type ≠ FieldType.TYPE_STRING ∧
        F.type ≠ FieldType.TYPE_BYTES ∧ (∀ m, F.type ≠ FieldType.TYPE_GROUP m) ∧
        ∀ m, F.type ≠ FieldType.TYPE_MESSAGE m) := by
  have hl := (RubyGenerator.fieldData_lookup h F).2.2.2.2.2.2.1
  have hp : packedClause F = (if F.is_packable && F.options.has_packed
      then ", :packed => " ++ (if F.options.packed then "true" else "false") else "") := rfl
  refine ⟨hl.trans (congrArg some hp), ?_, ?_, ?_, ?_⟩
  · rw [RubyGenerator.PrintMessageField_eq h F g hg]
    simp only [renderLine, fieldText, fieldCall, fieldClauses, ← hp, String.append_assoc]
  · rw [hl, hp]
    cases hpk : F.is_packable <;> cases hhp : F.options.has_packed <;>
      cases hv : F.options.packed <;> simp
  · intro h1 h2
    rw [hl, hp, h1, h2]
    rfl
  · unfold FieldDescriptor.is_packable FieldDescriptor.is_repeated
    cases F.label <;> cases F.type <;> simp [FieldDescriptor.IsTypePackable]

/-- Witness of C12: `repeated int32 ids = 7 [packed = false]`. -/
theorem packed_clause_gating_witness :
    freshGenerator.printer_.Ready ∧
    (RubyGenerator.PrintMessageField (sampleHeader true) idsField freshGenerator).printer_.out =
      "::Pkg::Msg.repeated(::Protobuf::Field::Int32Field, :ids, 7, :packed => false)\n" := by
  have w := packed_clause_gating (sampleHeader true) idsField freshGenerator ⟨rfl, rfl, rfl⟩
  refine ⟨⟨rfl, rfl, rfl⟩, ?_⟩
  rw [w.2.1]
  decide

/-- C13: for two fields with scalar tags the type tokens that `PrintMessageField`
assigns, under any two headers, are equal exactly when the tags are: the token depends
on the tag alone, and two scalar tags never share a token.  The token is
`::Protobuf::Field::`, a name, `Field`. -/
theorem scalar_type_tokens_injective (h h2 : Header) (F F2 : FieldDescriptor)
    (hF : F.type.isScalar = true) (hF2 : F2.type.isScalar = true) :
    ((RubyGenerator.fieldData h F).lookup "data_type" =
        (RubyGenerator.fieldData h2 F2).lookup "data_type" ↔ F.type = F2.type) ∧
    ∃ X : String, (RubyGenerator.fieldData h F).lookup "data_type" =
      some ("::Protobuf::Field::" ++ X ++ "Field") := by
  rw [(RubyGenerator.fieldData_lookup h F).2.2.1, (RubyGenerator.fieldData_lookup h2 F2).2.2.1]
  refine ⟨?_, ?_⟩
  · cases hT : F.type <;> cases hT2 : F2.type <;>
      simp_all [typeToken, FieldType.isScalar]
  · cases hT : F.type <;> simp_all [typeToken, FieldType.isScalar]
    · exact ⟨"Double", rfl⟩
    · exact ⟨"Float", rfl⟩
    · exact ⟨"Int64", rfl⟩
    · exact ⟨"Uint64", rfl⟩
    · exact ⟨"Int32", rfl⟩
    · exact ⟨"Fixed64", rfl⟩
    · exact ⟨"Fixed32", rfl⟩
    · exact ⟨"Bool", rfl⟩
    · exact ⟨"String", rfl⟩
    · exact ⟨"Bytes", rfl⟩
    · exact ⟨"Uint32", rfl⟩
    · exact ⟨"Sfixed32", rfl⟩
    · exact ⟨"Sfixed64", rfl⟩
    · exact ⟨"Sint32", rfl⟩
    · exact ⟨"Sint64", rfl⟩

/-- Witness of C13: an `int32` field and a `sint32` field. -/
theorem scalar_type_tokens_injective_witness :
    countField.type.isScalar = true ∧ offsetField.type.isScalar = true ∧
    (RubyGenerator.fieldData (sampleHeader true) countField).lookup "data_type" ≠
      (RubyGenerator.fieldData (sampleHeader false) offsetField).lookup "data_type" := by
  have w := scalar_type_tokens_injective (sampleHeader true) (sampleHeader false) countField
    offsetField rfl rfl
  exact ⟨rfl, rfl, fun e => absurd (w.1.mp e) (by decide)⟩

/-! ## Tags without a label in the type switch -/

/-- The two ways `Generate` ends. -/
theorem finish_cases (P : RubyGenerator) (error name : String) (hname : P.filename = name) :
    (finish P error).1 = P ∧
    ((finish P error).2.1 = false ↔ (finish P error).1.printer_.failed_ = true) ∧
    ((finish P error).1.printer_.failed_ = true →
      (finish P error).2 = (false, "An unknown error occured writing file " ++ name)) ∧
    ((finish P error).1.printer_.failed_ = false → (finish P error).2 = (true, error)) := by
  unfold finish
  split
  · rename_i hf
    refine ⟨rfl, ⟨fun _ => hf, fun _ => rfl⟩, fun _ => ?_, fun hn => ?_⟩
    · rw [hname]
    · exact absurd (hf.symm.trans hn) (by decide)
  · rename_i hf
    refine ⟨rfl, ⟨fun hr => ?_, fun ht => absurd ht hf⟩, fun ht => absurd ht hf, fun _ => rfl⟩
    exact Bool.noConfusion hr

/-- C15: `Generate` returns what the printer reports after the last statement has
run.  It returns false exactly when the printer has failed, and then the error string
is `An unknown error occured writing file ` followed by the name of the generated
file; when the printer has not failed it returns true and the error string is the one
it was given. -/
theorem generate_reports_failure (h : Header) (g : RubyGenerator) (file : FileDescriptor)
    (parameter : String) (context : GeneratorContext) (error : String) :
    (RubyGenerator.Generate h g file parameter context error).1 =
      printAll h
        { file_ := file, context_ := context,
          filename := h.CreateRubyFileName file.name false,
          ns_vector := SplitStringUsing file.package '.',
          printer_ := Printer.new (context.Open (h.CreateRubyFileName file.name false)) } ∧
    ((RubyGenerator.Generate h g file parameter context error).2.1 = false ↔
      (RubyGenerator.Generate h g file parameter context error).1.printer_.failed_ = true) ∧
    ((RubyGenerator.Generate h g file parameter context error).1.printer_.failed_ = true →
      (RubyGenerator.Generate h g file parameter context error).2 =
        (false, "An unknown error occured writing file " ++
          h.CreateRubyFileName file.name false)) ∧
    ((RubyGenerator.Generate h g file parameter context error).1.printer_.failed_ = false →
      (RubyGenerator.Generate h g file parameter context error).2 = (true, error)) := by
  rw [RubyGenerator.Generate_unfold]
  exact finish_cases _ error _
    (RubyGenerator.printAll_moved h
      { file_ := file, context_ := context,
        filename := h.CreateRubyFileName file.name false,
        ns_vector := SplitStringUsing file.package '.',
        printer_ := Printer.new (context.Open (h.CreateRubyFileName file.name false)) }).filename

/-- Witness of C15: on a stream that refuses what comes after five bytes the call
returns false and names the file; on a stream that accepts everything it returns true
and leaves the error string alone. -/
theorem generate_reports_failure_witness :
    (RubyGenerator.Generate (sampleHeader true) freshGenerator scenarioFile "" fiveBytes
        "").1.printer_.out = "##\n# " ∧
    (RubyGenerator.Generate (sampleHeader true) freshGenerator scenarioFile "" fiveBytes "").2 =
      (false, "An unknown error occured writing file msg.proto.pb.rb") ∧
    (RubyGenerator.Generate (sampleHeader true) freshGenerator scenarioFile "" everAccepting
        "earlier").2 = (true, "earlier") := by
  have w := generate_reports_failure (sampleHeader true) freshGenerator scenarioFile ""
    fiveBytes ""
  have w2 := generate_reports_failure (sampleHeader true) freshGenerator scenarioFile ""
    everAccepting "earlier"
  have e : (RubyGenerator.Generate (sampleHeader true) freshGenerator scenarioFile "" fiveBytes
      "").1.printer_.failed_ = true := by
    rw [w.1]
    rfl
  have e2 : (RubyGenerator.Generate (sampleHeader true) freshGenerator scenarioFile ""
      everAccepting "earlier").1.printer_.failed_ = false := by
    rw [RubyGenerator.Generate_eq _ _ _ _ _ _ rfl]
    rfl
  refine ⟨?_, (w.2.2.1 e).trans (by decide), w2.2.2.2 e2⟩
  rw [w.1]
  rfl

/-! ## Services -/

/-- C16: from the start of a line, `PrintServices` writes, when the file has
services, the header comment `Services` and then for each service, in declaration
order, the line `class <name> < ::Protobuf::Service`, one line
`rpc :<Underscore(name)>, <Constantize(input)>, <Constantize(output)>` per method in
declaration order, one level deeper, and the line `end` at the depth of the class
line.  For a file without service it writes nothing and changes nothing. -/
theorem services_in_order (h : Header) (g : RubyGenerator) :
    (g.printer_.Ready →
      RubyGenerator.PrintServices h g =
        g.after
          (renderFile
            (if g.file_.service.length > 0 then
              headerLines g.printer_.indent_ "Services" ++
                (g.file_.service.map (serviceLines h g.printer_.indent_)).flatten
            else []))
          g.printer_.indent_ (serviceCalls g.file_.service)) ∧
    (∀ (d : Nat) (S : ServiceDescriptor),
      serviceLines h d S =
        ⟨LineKind.serviceOpen, d, "class " ++ S.name ++ " < ::Protobuf::Service"⟩ ::
          (S.method.map (fun m =>
              (⟨LineKind.rpc, d + 1,
                "rpc :" ++ h.Underscore m.name ++ ", " ++
                  h.Constantize m.input_type.full_name ++ ", " ++
                  h.Constantize m.output_type.full_name⟩ : Line)) ++
            [⟨LineKind.serviceClose, d, "end"⟩])) ∧
    (g.file_.service = [] → RubyGenerator.PrintServices h g = g) := by
  refine ⟨fun hg => RubyGenerator.PrintServices_eq h g hg, fun d S => rfl, fun h0 => ?_⟩
  unfold RubyGenerator.PrintServices
  rw [h0]
  rfl

/-- Witness of C16: the service `Echo` with the method `DoThing`, and a file without
service. -/
theorem services_in_order_witness :
    freshGenerator.printer_.Ready ∧
    (RubyGenerator.PrintServices (sampleHeader false)
        { freshGenerator with file_ := serviceFile }).printer_.out =
      "##\n# Services\n#\nclass Echo < ::Protobuf::Service\n  rpc :do_thing, A::B::Req, A::B::Resp\nend\n" ∧
    RubyGenerator.PrintServices (sampleHeader false) freshGenerator = freshGenerator := by
  have w := services_in_order (sampleHeader false) { freshGenerator with file_ := serviceFile }
  have w2 := services_in_order (sampleHeader false) freshGenerator
  refine ⟨⟨rfl, rfl, rfl⟩, ?_, w2.2.2 rfl⟩
  rw [w.1 ⟨rfl, rfl, rfl⟩]
  decide

/-! ## The requires of the runtime library -/

theorem plain_of_text (k : LineKind) (d : Nat) (t : String)
    (ht : t.data.take 2 ≠ ['r', 'e']) : (⟨k, d, t⟩ : Line).Plain := Or.inl ht

theorem plain_of_prefix (k : LineKind) (d : Nat) (c1 c2 : Char) (pre rest : String)
    (hpre : pre.data.take 2 = [c1, c2]) (hc : [c1, c2] ≠ ['r', 'e']) :
    (⟨k, d, pre ++ rest⟩ : Line).Plain := by
  left
  show ((pre ++ rest).data.take 2) ≠ _
  rw [String.data_append]
  have e : (pre.data ++ rest.data).take 2 = [c1, c2] := by
    have hlen : 2 ≤ pre.data.length := by
      by_contra hlt
      have := congrArg List.length hpre
      simp only [List.length_take, List.length_cons, List.length_nil] at this
      omega
    rw [List.take_append_of_le_length hlen, hpre]
  rw [e]
  exact hc

theorem plain_of_dot (k : LineKind) (d : Nat) (a rest : String) :
    (⟨k, d, a ++ "." ++ rest⟩ : Line).Plain := by
  right
  show '.' ∈ (a ++ "." ++ rest).data
  simp [String.data_append]

theorem headerLines_plain (d : Nat) (c : String) : ∀ l ∈ headerLines d c, l.Plain := by
  intro l hl
  simp only [headerLines, List.mem_cons, List.not_mem_nil, or_false] at hl
  rcases hl with rfl | rfl | rfl
  · exact plain_of_text _ _ "##" (by decide)
  · exact plain_of_prefix _ _ '#' ' ' "# " c rfl (by decide)
  · exact plain_of_text _ _ "#" (by decide)

theorem blankLine_plain (d : Nat) : (blankLine d).Plain :=
  plain_of_text _ _ "" (by decide)

theorem moduleLines_plain (ns : List String) :
    ∀ (d : Nat), ∀ l ∈ moduleLines d ns, l.Plain := by
  induction ns with
  | nil => intro d l hl; simp [moduleLines] at hl
  | cons x rest ih =>
    intro d l hl
    simp only [moduleLines, List.mem_cons] at hl
    rcases hl with rfl | hl
    · exact plain_of_prefix _ _ 'm' 'o' "module " _ rfl (by decide)
    · exact ih _ l hl

theorem moduleEndLines_plain (d n : Nat) : ∀ l ∈ moduleEndLines d n, l.Plain := by
  induction n with
  | zero => intro l hl; simp [moduleEndLines] at hl
  | succ n ih =>
    intro l hl
    simp only [moduleEndLines, List.mem_cons] at hl
    rcases hl with rfl | hl
    · exact plain_of_text _ _ "end" (by decide)
    · exact ih l hl

theorem plain_of_classDeclaration (l : Line) (hl : l.IsClassDeclaration) : l.Plain := by
  obtain ⟨k, d, t⟩ := l
  obtain ⟨_, N, ht | ht⟩ := hl
  · simp only at ht
    subst ht
    have := plain_of_prefix k d 'c' 'l' "class " (N ++ " < ::Protobuf::Message; end") rfl
      (by decide)
    simpa [String.append_assoc] using this
  · simp only at ht
    subst ht
    have := plain_of_prefix k d 'c' 'l' "class " (N ++ " < ::Protobuf::Enum; end") rfl
      (by decide)
    simpa [String.append_assoc] using this

theorem plain_of_population (h : Header) (l : Line) (hl : l.IsPopulationLine h) :
    l.Plain := by
  obtain ⟨k, d, t⟩ := l
  rcases hl with ⟨_, fullName, r, ht⟩ | ⟨_, F, ht⟩ | ⟨_, v, ht⟩
  · simp only at ht
    subst ht
    have := plain_of_dot k d (h.Constantize fullName)
      ("extensions " ++ SimpleItoa r.start ++ "..." ++ SimpleItoa r.end_)
    have e : h.Constantize fullName ++ "." ++
        ("extensions " ++ SimpleItoa r.start ++ "..." ++ SimpleItoa r.end_) =
        h.Constantize fullName ++ ".extensions " ++ SimpleItoa r.start ++ "..." ++
          SimpleItoa r.end_ := by
      simp only [String.append_assoc]
      rfl
    rw [e] at this
    exact this
  · simp only at ht
    subst ht
    exact plain_of_dot k d _ _
  · simp only at ht
    subst ht
    have := plain_of_dot k d (h.Constantize v.type.full_name)
      ("define :" ++ v.name ++ ", " ++ ConvertIntToString v.number)
    have e : h.Constantize v.type.full_name ++ "." ++
        ("define :" ++ v.name ++ ", " ++ ConvertIntToString v.number) =
        defineText h v.type.full_name v := by
      simp only [defineText, String.append_assoc]
      rfl
    rw [e] at this
    exact this

theorem declarationBlock_plain (d : Nat) (file : FileDescriptor) :
    ∀ l ∈ declarationBlock d file, l.Plain := by
  intro l hl
  unfold declarationBlock at hl
  simp only [List.mem_append, List.mem_cons, List.not_mem_nil, or_false] at hl
  rcases hl with hl | rfl | hl | rfl
  · split at hl
    · simp only [List.mem_append, List.mem_map] at hl
      rcases hl with hl | ⟨E, _, rfl⟩
      · exact headerLines_plain _ _ l hl
      · exact plain_of_classDeclaration _ (enumClassLine_isClassDeclaration d E)
    · simp at hl
  · exact blankLine_plain d
  · split at hl
    · simp only [List.mem_append] at hl
      rcases hl with hl | hl
      · exact headerLines_plain _ _ l hl
      · exact plain_of_classDeclaration _ (declLinesAll_isClassDeclaration d _ l hl)
    · simp at hl
  · exact blankLine_plain d

theorem enumValueLines_plain (h : Header) (d : Nat) (E : EnumDescriptor) :
    ∀ l ∈ enumValueLines h d E, l.Plain := by
  intro l hl
  simp only [enumValueLines, List.mem_append, List.mem_map, List.mem_singleton] at hl
  rcases hl with ⟨v, _, rfl⟩ | rfl
  · exact plain_of_population h _ (Or.inr (Or.inr ⟨rfl, v, rfl⟩))
  · exact blankLine_plain d

theorem fieldBlock_plain (h : Header) (d : Nat) (field extension : List FieldDescriptor) :
    ∀ l ∈ fieldBlock h d field extension, l.Plain := by
  intro l hl
  unfold fieldBlock at hl
  split at hl
  · simp only [List.mem_append, List.mem_map, List.mem_singleton] at hl
    rcases hl with ⟨F, _, rfl⟩ | ⟨F, _, rfl⟩ | rfl
    · exact plain_of_population h _ (Or.inr (Or.inl ⟨rfl, F, rfl⟩))
    · exact plain_of_population h _ (Or.inr (Or.inl ⟨rfl, F, rfl⟩))
    · exact blankLine_plain d
  · simp at hl

mutual

theorem popLines_plain (h : Header) (d : Nat) :
    ∀ (M : Descriptor), ∀ l ∈ popLines h d M, l.Plain
  | .mk _ full_name field extension nested_type enum_type extension_range, l, hl => by
    simp only [popLines, List.mem_append, List.mem_map, List.mem_flatten] at hl
    rcases hl with ⟨r, _, rfl⟩ | hl | ⟨ls, ⟨E, _, rfl⟩, hl⟩ | hl
    · exact plain_of_population h _ (Or.inl ⟨rfl, full_name, r, rfl⟩)
    · exact fieldBlock_plain h d field extension l hl
    · exact enumValueLines_plain h d E l hl
    · exact popLinesAll_plain h d nested_type l hl

theorem popLinesAll_plain (h : Header) (d : Nat) :
    ∀ (Ms : List Descriptor), ∀ l ∈ popLinesAll h d Ms, l.Plain
  | [], l, hl => by simp [popLinesAll] at hl
  | M :: rest, l, hl => by
    simp only [popLinesAll, List.mem_append] at hl
    rcases hl with hl | hl
    · exact popLines_plain h d M l hl
    · exact popLinesAll_plain h d rest l hl

end

theorem populationBlock_plain (h : Header) (d : Nat) (file : FileDescriptor) :
    ∀ l ∈ populationBlock h d file, l.Plain := by
  intro l hl
  unfold populationBlock at hl
  simp only [List.mem_append, List.mem_cons, List.not_mem_nil, or_false] at hl
  rcases hl with hl | rfl | hl | rfl
  · split at hl
    · simp only [List.mem_append, List.mem_flatten, List.mem_map] at hl
      rcases hl with hl | ⟨ls, ⟨E, _, rfl⟩, hl⟩
      · exact headerLines_plain _ _ l hl
      · exact enumValueLines_plain h d E l hl
    · simp at hl
  · exact blankLine_plain d
  · split at hl
    · simp only [List.mem_append] at hl
      rcases hl with hl | hl
      · exact headerLines_plain _ _ l hl
      · exact popLinesAll_plain h d _ l hl
    · simp at hl
  · exact blankLine_plain d

theorem serviceLines_plain (h : Header) (d : Nat) (S : ServiceDescriptor) :
    ∀ l ∈ serviceLines h d S, l.Plain := by
  intro l hl
  simp only [serviceLines, List.mem_cons, List.mem_append, List.mem_map,
    List.not_mem_nil, or_false] at hl
  rcases hl with rfl | ⟨m, _, rfl⟩ | rfl
  · have := plain_of_prefix LineKind.serviceOpen d 'c' 'l' "class "
      (S.name ++ " < ::Protobuf::Service") rfl (by decide)
    simpa [String.append_assoc] using this
  · have := plain_of_prefix LineKind.rpc (d + 1) 'r' 'p' "rpc :"
      (h.Underscore m.name ++ ", " ++ h.Constantize m.input_type.full_name ++ ", " ++
        h.Constantize m.output_type.full_name) rfl (by decide)
    simpa [rpcLine, String.append_assoc] using this
  · exact plain_of_text _ _ "end" (by decide)

theorem trailerLines_plain (h : Header) (d : Nat) (file : FileDescriptor) :
    ∀ l ∈ trailerLines h d file, l.Plain := by
  intro l hl
  unfold trailerLines at hl
  simp only [List.mem_append] at hl
  rcases hl with hl | hl
  · split at hl
    · simp only [List.mem_append, List.mem_flatten, List.mem_map] at hl
      rcases hl with hl | ⟨ls, ⟨S, _, rfl⟩, hl⟩
      · exact headerLines_plain _ _ l hl
      · exact serviceLines_plain h d S l hl
    · simp at hl
  · exact moduleEndLines_plain _ _ l hl

theorem requireText_cancel (a b : String) (hab : "require '" ++ a ++ "'" = "require '" ++ b ++ "'") :
    a = b := by
  simpa [String.ext_iff, String.data_append] using hab

/-- A line of the file with the text of a require of a library whose name is without
dot and is not required for an import is a line of `PrintGenericRequires`. -/
theorem require_origin (h : Header) (file : FileDescriptor) (lib : String)
    (hlib : ¬ (⟨LineKind.require, 0, "require '" ++ lib ++ "'"⟩ : Line).Plain)
    (himports : ∀ dep ∈ file.dependency, h.CreateRubyFileName dep.name true ≠ lib) :
    ∀ l ∈ fileLines h file, l.text = "require '" ++ lib ++ "'" →
      (l = requireLine 0 "protobuf/message" ∧ file.message_type.length > 0) ∨
      (l = requireLine 0 "protobuf/rpc/service" ∧ file.service.length > 0) := by
  intro l hl ht
  have hnp : ¬ l.Plain := by
    intro hp
    apply hlib
    unfold Line.Plain at hp ⊢
    rw [ht] at hp
    exact hp
  unfold fileLines preambleLines at hl
  simp only [List.mem_append, List.mem_cons] at hl
  rcases hl with (hl | hl | hl | hl | rfl | hl) | hl | hl | hl
  · exact absurd (headerLines_plain _ _ l hl) hnp
  · split at hl
    · rename_i hc
      simp only [List.mem_singleton] at hl
      exact Or.inl ⟨hl, hc⟩
    · simp at hl
  · split at hl
    · rename_i hc
      simp only [List.mem_singleton] at hl
      exact Or.inr ⟨hl, hc⟩
    · simp at hl
  · split at hl
    · simp only [List.mem_cons, List.mem_append, List.mem_map] at hl
      rcases hl with rfl | hl | ⟨dep, hdep, rfl⟩
      · exact absurd (blankLine_plain 0) hnp
      · exact absurd (headerLines_plain _ _ l hl) hnp
      · exact absurd (requireText_cancel _ _ ht) (himports dep hdep)
    · simp at hl
  · exact absurd (blankLine_plain 0) hnp
  · exact absurd (moduleLines_plain _ _ l hl) hnp
  · exact absurd (declarationBlock_plain _ _ l hl) hnp
  · exact absurd (populationBlock_plain _ _ _ l hl) hnp
  · exact absurd (trailerLines_plain _ _ _ l hl) hnp

/-- C17: the lines of the generated file are the header comment, then the line
`require 'protobuf/message'` when the file has a message, then the line
`require 'protobuf/rpc/service'` when it has a service, then the requires of the
imports, the `module` lines and the rest.  When no import is required under the name
`protobuf/message`, a line of the file has the text `require 'protobuf/message'`
exactly when the file has a message; likewise for `protobuf/rpc/service` and the
services.  On a stream that accepts every write these lines are the text written. -/
theorem generic_requires_gating (h : Header) (g : RubyGenerator) (file : FileDescriptor)
    (parameter : String) (context : GeneratorContext) (error : String) :
    (context.Open (h.CreateRubyFileName file.name false) = none →
      (RubyGenerator.Generate h g file parameter context error).1.printer_.out =
        renderFile (fileLines h file)) ∧
    fileLines h file =
      headerLines 0 "This file is auto-generated. DO NOT EDIT!" ++
      ((if file.message_type.length > 0 then [requireLine 0 "protobuf/message"] else []) ++
      ((if file.service.length > 0 then [requireLine 0 "protobuf/rpc/service"] else []) ++
      ((if file.dependency.length > 0 then
          blankLine 0 :: (headerLines 0 "Imports" ++
            file.dependency.map
              (fun dep => requireLine 0 (h.CreateRubyFileName dep.name true)))
        else []) ++
      (blankLine 0 :: (moduleLines 0 (SplitStringUsing file.package '.') ++
        (declarationBlock (namespaceCount file) file ++
          (populationBlock h (namespaceCount file) file ++
            trailerLines h (namespaceCount file) file))))))) ∧
    ((∀ dep ∈ file.dependency, h.CreateRubyFileName dep.name true ≠ "protobuf/message") →
      ((∃ l ∈ fileLines h file, l.text = "require 'protobuf/message'") ↔
        file.message_type ≠ [])) ∧
    ((∀ dep ∈ file.dependency, h.CreateRubyFileName dep.name true ≠ "protobuf/rpc/service") →
      ((∃ l ∈ fileLines h file, l.text = "require 'protobuf/rpc/service'") ↔
        file.service ≠ [])) := by
  have hsplit : fileLines h file =
      headerLines 0 "This file is auto-generated. DO NOT EDIT!" ++
      ((if file.message_type.length > 0 then [requireLine 0 "protobuf/message"] else []) ++
      ((if file.service.length > 0 then [requireLine 0 "protobuf/rpc/service"] else []) ++
      ((if file.dependency.length > 0 then
          blankLine 0 :: (headerLines 0 "Imports" ++
            file.dependency.map
              (fun dep => requireLine 0 (h.CreateRubyFileName dep.name true)))
        else []) ++
      (blankLine 0 :: (moduleLines 0 (SplitStringUsing file.package '.') ++
        (declarationBlock (namespaceCount file) file ++
          (populationBlock h (namespaceCount file) file ++
            trailerLines h (namespaceCount file) file))))))) := by
    simp only [fileLines, preambleLines, List.append_assoc, List.cons_append]
  refine ⟨fun hopen => ?_, hsplit, fun himp => ⟨?_, ?_⟩, fun himp => ⟨?_, ?_⟩⟩
  · rw [RubyGenerator.Generate_eq h g file parameter context error hopen]
    simp [RubyGenerator.after, startOf, Printer.new]
  · rintro ⟨l, hl, ht⟩
    rcases require_origin h file "protobuf/message" (by decide) himp l hl ht with
      ⟨_, hc⟩ | ⟨rfl, _⟩
    · intro e
      rw [e] at hc
      exact absurd hc (by decide)
    · exact absurd ht (by decide)
  · intro hne
    have hc : file.message_type.length > 0 := List.length_pos.mpr hne
    refine ⟨requireLine 0 "protobuf/message", ?_, rfl⟩
    rw [hsplit, if_pos hc]
    simp
  · rintro ⟨l, hl, ht⟩
    rcases require_origin h file "protobuf/rpc/service" (by decide) himp l hl ht with
      ⟨rfl, _⟩ | ⟨_, hc⟩
    · exact absurd ht (by decide)
    · intro e
      rw [e] at hc
      exact absurd hc (by decide)
  · intro hne
    have hc : file.service.length > 0 := List.length_pos.mpr hne
    refine ⟨requireLine 0 "protobuf/rpc/service", ?_, rfl⟩
    rw [hsplit, if_pos hc]
    simp

/-- Witness of C17: the file of the scenario, with a message and without service. -/
theorem generic_requires_gating_witness :
    everAccepting.Open ((sampleHeader true).CreateRubyFileName scenarioFile.name false) = none ∧
    (∃ l ∈ fileLines (sampleHeader true) scenarioFile, l.text = "require 'protobuf/message'") ∧
    (¬ ∃ l ∈ fileLines (sampleHeader true) scenarioFile,
      l.text = "require 'protobuf/rpc/service'") ∧
    (RubyGenerator.Generate (sampleHeader true) freshGenerator scenarioFile "" everAccepting
        "").1.printer_.out =
      "##\n# This file is auto-generated. DO NOT EDIT!\n#\nrequire 'protobuf/message'\n\nmodule A\n  module B\n    \n    ##\n    # Message Classes\n    #\n    class Msg < ::Protobuf::Message; end\n    \n    \n    ##\n    # Message Fields\n    #\n    ::A::B::Msg.optional(::Protobuf::Field::StringField, :name, 1)\n    \n    \n  end\nend\n" := by
  have w := generic_requires_gating (sampleHeader true) freshGenerator scenarioFile ""
    everAccepting ""
  refine ⟨rfl, (w.2.2.1 (by simp [scenarioFile])).mpr (by simp [scenarioFile]), ?_, ?_⟩
  · intro hex
    exact (w.2.2.2 (by simp [scenarioFile])).mp hex rfl
  · rw [w.1 rfl]
    decide

/-! ## The order of the declaration pass -/

theorem enumClassLine_kind (d : Nat) (Es : List EnumDescriptor) :
    ∀ l ∈ Es.map (enumClassLine d), l.kind = LineKind.classDecl := by
  intro l hl
  obtain ⟨E, _, rfl⟩ := List.mem_map.mp hl
  rfl

mutual

theorem declLines_kind (d : Nat) :
    ∀ (M : Descriptor), ∀ l ∈ declLines d M, l.kind = LineKind.classDecl
  | M, l, hl => (declLines_isClassDeclaration d M l hl).1

theorem declLinesAll_kind (d : Nat) :
    ∀ (Ms : List Descriptor), ∀ l ∈ declLinesAll d Ms, l.kind = LineKind.classDecl
  | Ms, l, hl => (declLinesAll_isClassDeclaration d Ms l hl).1

end

mutual

/-- The lines of the declaration pass over a message are those of the message and of
the messages nested in it, depth first: for each its class line, then those of its
enums. -/
theorem declLines_messages (d : Nat) :
    ∀ M : Descriptor,
      declLines d M =
        (M.messages.map (fun N => messageClassLine d N :: N.enum_type.map (enumClassLine d))).flatten
  | .mk name full_name field extension nested_type enum_type extension_range => by
    rw [declLines, Descriptor.messages, List.map_cons, List.flatten_cons,
      ← declLinesAll_messages d nested_type]
    rfl

theorem declLinesAll_messages (d : Nat) :
    ∀ Ms : List Descriptor,
      declLinesAll d Ms =
        ((messagesAll Ms).map
          (fun N => messageClassLine d N :: N.enum_type.map (enumClassLine d))).flatten
  | [] => by simp [declLinesAll, messagesAll]
  | M :: rest => by
    rw [declLinesAll, messagesAll, List.map_append, List.flatten_append,
      ← declLines_messages d M, ← declLinesAll_messages d rest]

end

theorem declarationBlock_classLines (d : Nat) (file : FileDescriptor) :
    (declarationBlock d file).filter (fun l => l.kind = LineKind.classDecl) =
      file.enum_type.map (enumClassLine d) ++ declLinesAll d file.message_type := by
  have hE : (if file.enum_type.length > 0 then
        headerLines d "Enum Classes" ++ file.enum_type.map (enumClassLine d) else []).filter
      (fun l => l.kind = LineKind.classDecl) = file.enum_type.map (enumClassLine d) := by
    split
    · rw [List.filter_append, filter_kind_none _ (headerLines _ _), List.nil_append,
        filter_kind_all _ _ (enumClassLine_kind d _)]
      intro l hl
      rw [headerLines_kind _ _ l hl]
      decide
    · rename_i h0
      have e : file.enum_type = [] := by
        cases hs : file.enum_type with
        | nil => rfl
        | cons x xs => rw [hs] at h0; simp at h0
      rw [e]
      rfl
  have hM : (if file.message_type.length > 0 then
        headerLines d "Message Classes" ++ declLinesAll d file.message_type else []).filter
      (fun l => l.kind = LineKind.classDecl) = declLinesAll d file.message_type := by
    split
    · rw [List.filter_append, filter_kind_none _ (headerLines _ _), List.nil_append,
        filter_kind_all _ _ (declLinesAll_kind d _)]
      intro l hl
      rw [headerLines_kind _ _ l hl]
      decide
    · rename_i h0
      have e : file.message_type = [] := by
        cases hs : file.message_type with
        | nil => rfl
        | cons x xs => rw [hs] at h0; simp at h0
      rw [e]
      rfl
  unfold declarationBlock
  rw [List.filter_append, hE, List.filter_cons, List.filter_append, hM]
  simp [blankLine]

/-- The statements of the declaration pass in `Generate`, from the start of a line. -/
theorem declarationPass_eq (h : Header) (file : FileDescriptor) (g : RubyGenerator)
    (hg : g.printer_.Ready) :
    RubyGenerator.PrintNewLine
        (RubyGenerator.PrintMessagesForFileDescriptor h file false
          (RubyGenerator.PrintNewLine
            (RubyGenerator.PrintEnumsForFileDescriptor h file false g))) =
      g.wrote (renderFile (declarationBlock g.printer_.indent_ file)) := by
  have r1 := RubyGenerator.wrote_ready g hg
  rw [RubyGenerator.PrintEnumsForFileDescriptor_class h file g hg,
    RubyGenerator.PrintNewLine_eq _ (r1 _), RubyGenerator.wrote_wrote,
    RubyGenerator.PrintMessagesForFileDescriptor_class h file _ (r1 _),
    RubyGenerator.wrote_wrote, RubyGenerator.PrintNewLine_eq _ (r1 _),
    RubyGenerator.wrote_wrote]
  simp only [RubyGenerator.wrote_indent]
  congr 1
  simp only [declarationBlock, renderFile_append, RubyGenerator.renderFile_cons, RubyGenerator.renderFile_nil,
    RubyGenerator.blankLine_render, String.append_assoc, String.append_empty]

/-- C18: from the start of a line the statements of the declaration pass write the
lines of the declaration block.  Its class-declaration lines are, in this order, those of
the enums of the file, then for each message of the file the lines of the message:
its own class line, the class lines of its enums, then the lines of its nested
messages, one message after the other.  That makes one class line for each message at
any depth, followed by one for each of its enums. -/
theorem declaration_pass_order (h : Header) (file : FileDescriptor) (g : RubyGenerator)
    (hg : g.printer_.Ready) :
    RubyGenerator.PrintNewLine
        (RubyGenerator.PrintMessagesForFileDescriptor h file false
          (RubyGenerator.PrintNewLine
            (RubyGenerator.PrintEnumsForFileDescriptor h file false g))) =
      g.wrote (renderFile (declarationBlock g.printer_.indent_ file)) ∧
    (declarationBlock g.printer_.indent_ file).filter (fun l => l.kind = LineKind.classDecl) =
      file.enum_type.map (enumClassLine g.printer_.indent_) ++
        declLinesAll g.printer_.indent_ file.message_type ∧
    (∀ (d : Nat) (M : Descriptor),
      declLines d M =
        messageClassLine d M ::
          (M.enum_type.map (enumClassLine d) ++ declLinesAll d M.nested_type)) ∧
    (∀ (d : Nat) (M : Descriptor) (rest : List Descriptor),
      declLinesAll d (M :: rest) = declLines d M ++ declLinesAll d rest) ∧
    (∀ d : Nat, declLinesAll d [] = []) ∧
    (∀ d : Nat, declLinesAll d file.message_type =
      (file.allMessages.map
        (fun N => messageClassLine d N :: N.enum_type.map (enumClassLine d))).flatten) := by
  refine ⟨declarationPass_eq h file g hg, declarationBlock_classLines _ file, ?_, ?_, ?_, ?_⟩
  · intro d M
    cases M
    rfl
  · intro d M rest
    rw [declLinesAll]
  · intro d
    rw [declLinesAll]
  · intro d
    exact declLinesAll_messages d file.message_type

/-- Witness of C18: the file with the enum `Unit` and the message `Order`, which holds
the enum `State` and the message `Item`. -/
theorem declaration_pass_order_witness :
    freshGenerator.printer_.Ready ∧
    ((declarationBlock 0 nestedFile).filter (fun l => l.kind = LineKind.classDecl)).map
        Line.text =
      ["class Unit < ::Protobuf::Enum; end", "class Order < ::Protobuf::Message; end",
        "class State < ::Protobuf::Enum; end", "class Item < ::Protobuf::Message; end"] := by
  have w := declaration_pass_order (sampleHeader true) nestedFile freshGenerator
    ⟨rfl, rfl, rfl⟩
  refine ⟨⟨rfl, rfl, rfl⟩, ?_⟩
  have e := w.2.1
  rw [show freshGenerator.printer_.indent_ = 0 from rfl] at e
  rw [e]
  decide

/-! ## The calls of the two passes -/

theorem foldl_calls {α : Type} (f : α → List PassCall) (xs : List α) :
    ∀ acc : List PassCall,
      xs.foldl (fun calls x => calls ++ f x) acc = acc ++ (xs.map f).flatten := by
  induction xs with
  | nil => simp
  | cons x xs ih =>
    intro acc
    rw [List.foldl_cons, ih, List.map_cons, List.flatten_cons, List.append_assoc]

theorem enumLoop_calls (print_values : Bool) (Es : List EnumDescriptor) :
    Es.foldl
        (fun calls enum_type =>
          if print_values then calls ++ [PassCall.PrintEnumValues enum_type]
          else calls ++ [PassCall.PrintEnumClass enum_type]) [] =
      Es.map (fun E => if print_values then PassCall.PrintEnumValues E
        else PassCall.PrintEnumClass E) := by
  have e := foldl_calls
    (fun E => [if print_values then PassCall.PrintEnumValues E else PassCall.PrintEnumClass E])
    Es []
  cases print_values <;> simpa [RubyGenerator.flatten_map_single] using e

theorem enumLoop_message (print_values : Bool) (Es : List EnumDescriptor) :
    (Es.map (fun E => if print_values then PassCall.PrintEnumValues E
      else PassCall.PrintEnumClass E)).filterMap PassCall.message = [] := by
  induction Es with
  | nil => rfl
  | cons E Es ih => cases print_values <;> simp [PassCall.message]

theorem enumLoop_enum (print_values : Bool) (Es : List EnumDescriptor) :
    (Es.map (fun E => if print_values then PassCall.PrintEnumValues E
      else PassCall.PrintEnumClass E)).filterMap PassCall.enum = Es := by
  induction Es with
  | nil => rfl
  | cons E Es ih => cases print_values <;> simpa [PassCall.enum] using ih

theorem callsOfEnumsForDescriptor_eq (M : Descriptor) (print_values : Bool) :
    callsOfEnumsForDescriptor M print_values =
      M.enum_type.map (fun E => if print_values then PassCall.PrintEnumValues E
        else PassCall.PrintEnumClass E) :=
  enumLoop_calls print_values M.enum_type

mutual

theorem callsOfMessageClass_message :
    ∀ M : Descriptor, (callsOfMessageClass M).filterMap PassCall.message = M.messages
  | .mk name full_name field extension nested_type enum_type extension_range => by
    rw [callsOfMessageClass, Descriptor.messages]
    show _ :: List.filterMap PassCall.message (_ ++ _) = _
    rw [List.filterMap_append, callsOfEnumsForDescriptor_eq, enumLoop_message,
      List.nil_append, callsOfMessagesForDescriptor_message nested_type false]

theorem callsOfMessageFields_message :
    ∀ M : Descriptor, (callsOfMessageFields M).filterMap PassCall.message = M.messages
  | .mk name full_name field extension nested_type enum_type extension_range => by
    rw [callsOfMessageFields, Descriptor.messages]
    show _ :: List.filterMap PassCall.message (_ ++ _) = _
    rw [List.filterMap_append, callsOfEnumsForDescriptor_eq, enumLoop_message,
      List.nil_append, callsOfMessagesForDescriptor_message nested_type true]

theorem callsOfMessagesForDescriptor_message :
    ∀ (Ms : List Descriptor) (print_fields : Bool),
      (callsOfMessagesForDescriptor Ms print_fields).filterMap PassCall.message =
        messagesAll Ms
  | [], _ => by
    rw [callsOfMessagesForDescriptor, messagesAll]
    rfl
  | M :: rest, print_fields => by
    rw [callsOfMessagesForDescriptor, messagesAll, List.filterMap_append,
      callsOfMessagesForDescriptor_message rest print_fields]
    cases print_fields
    · simp only [Bool.false_eq_true, if_false, callsOfMessageClass_message M]
    · simp only [if_true, callsOfMessageFields_message M]

end

mutual

theorem callsOfMessageClass_enum :
    ∀ M : Descriptor,
      (callsOfMessageClass M).filterMap PassCall.enum =
        (M.messages.map Descriptor.enum_type).flatten
  | .mk name full_name field extension nested_type enum_type extension_range => by
    rw [callsOfMessageClass, Descriptor.messages]
    show List.filterMap PassCall.enum (_ ++ _) = _
    rw [List.filterMap_append, callsOfEnumsForDescriptor_eq, enumLoop_enum,
      callsOfMessagesForDescriptor_enum nested_type false, List.map_cons, List.flatten_cons]

theorem callsOfMessageFields_enum :
    ∀ M : Descriptor,
      (callsOfMessageFields M).filterMap PassCall.enum =
        (M.messages.map Descriptor.enum_type).flatten
  | .mk name full_name field extension nested_type enum_type extension_range => by
    rw [callsOfMessageFields, Descriptor.messages]
    show List.filterMap PassCall.enum (_ ++ _) = _
    rw [List.filterMap_append, callsOfEnumsForDescriptor_eq, enumLoop_enum,
      callsOfMessagesForDescriptor_enum nested_type true, List.map_cons, List.flatten_cons]

theorem callsOfMessagesForDescriptor_enum :
    ∀ (Ms : List Descriptor) (print_fields : Bool),
      (callsOfMessagesForDescriptor Ms print_fields).filterMap PassCall.enum =
        ((messagesAll Ms).map Descriptor.enum_type).flatten
  | [], _ => by
    rw [callsOfMessagesForDescriptor, messagesAll]
    rfl
  | M :: rest, print_fields => by
    rw [callsOfMessagesForDescriptor, messagesAll, List.filterMap_append,
      callsOfMessagesForDescriptor_enum rest print_fields, List.map_append,
      List.flatten_append]
    cases print_fields
    · simp only [Bool.false_eq_true, if_false, callsOfMessageClass_enum M]
    · simp only [if_true, callsOfMessageFields_enum M]

end

theorem messageLoop_calls (print_fields : Bool) (Ms : List Descriptor) :
    Ms.foldl
        (fun calls message_type =>
          if print_fields then calls ++ callsOfMessageFields message_type
          else calls ++ callsOfMessageClass message_type) [] =
      callsOfMessagesForDescriptor Ms print_fields := by
  have e := foldl_calls
    (fun M => if print_fields then callsOfMessageFields M else callsOfMessageClass M) Ms []
  have e2 : ∀ Ms : List Descriptor,
      (Ms.map (fun M => if print_fields then callsOfMessageFields M
        else callsOfMessageClass M)).flatten = callsOfMessagesForDescriptor Ms print_fields := by
    intro Ms
    induction Ms with
    | nil => rw [callsOfMessagesForDescriptor]; rfl
    | cons M rest ih => rw [callsOfMessagesForDescriptor, List.map_cons, List.flatten_cons, ih]
  rw [← e2, ← List.nil_append (List.flatten _), ← e]
  cases print_fields <;> rfl

theorem callsOfEnumsForFileDescriptor_eq (file : FileDescriptor) (print_values : Bool) :
    callsOfEnumsForFileDescriptor file print_values =
      file.enum_type.map (fun E => if print_values then PassCall.PrintEnumValues E
        else PassCall.PrintEnumClass E) := by
  unfold callsOfEnumsForFileDescriptor
  split
  · exact enumLoop_calls print_values file.enum_type
  · rename_i h0
    rw [RubyGenerator.length_pos_false h0]
    rfl

theorem callsOfMessagesForFileDescriptor_eq (file : FileDescriptor) (print_fields : Bool) :
    callsOfMessagesForFileDescriptor file print_fields =
      callsOfMessagesForDescriptor file.message_type print_fields := by
  unfold callsOfMessagesForFileDescriptor
  split
  · exact messageLoop_calls print_fields file.message_type
  · rename_i h0
    rw [RubyGenerator.length_pos_false h0, callsOfMessagesForDescriptor]

mutual

theorem declLines_calls (h : Header) (d : Nat) :
    ∀ M : Descriptor,
      declLines d M = ((callsOfMessageClass M).map (PassCall.lines h d)).flatten
  | .mk name full_name field extension nested_type enum_type extension_range => by
    rw [declLines, callsOfMessageClass]
    show _ = (List.map (PassCall.lines h d) (_ :: (_ ++ _))).flatten
    rw [List.map_cons, List.flatten_cons, List.map_append, List.flatten_append,
      ← declLinesAll_calls h d nested_type, callsOfEnumsForDescriptor_eq, List.map_map]
    simp only [Bool.false_eq_true, if_false]
    rw [← RubyGenerator.flatten_map_single (enumClassLine d)]
    rfl

theorem declLinesAll_calls (h : Header) (d : Nat) :
    ∀ Ms : List Descriptor,
      declLinesAll d Ms =
        ((callsOfMessagesForDescriptor Ms false).map (PassCall.lines h d)).flatten
  | [] => by
    rw [declLinesAll, callsOfMessagesForDescriptor]
    rfl
  | M :: rest => by
    rw [declLinesAll, callsOfMessagesForDescriptor, List.map_append, List.flatten_append,
      ← declLinesAll_calls h d rest]
    simp only [Bool.false_eq_true, if_false]
    rw [← declLines_calls h d M]

end

mutual

theorem popLines_calls (h : Header) (d : Nat) :
    ∀ M : Descriptor,
      popLines h d M = ((callsOfMessageFields M).map (PassCall.lines h d)).flatten
  | .mk name full_name field extension nested_type enum_type extension_range => by
    rw [popLines, callsOfMessageFields]
    show _ = (List.map (PassCall.lines h d) (_ :: (_ ++ _))).flatten
    rw [List.map_cons, List.flatten_cons, List.map_append, List.flatten_append,
      ← popLinesAll_calls h d nested_type, callsOfEnumsForDescriptor_eq, List.map_map]
    simp only [if_true]
    rw [← List.append_assoc]
    rfl

theorem popLinesAll_calls (h : Header) (d : Nat) :
    ∀ Ms : List Descriptor,
      popLinesAll h d Ms =
        ((callsOfMessagesForDescriptor Ms true).map (PassCall.lines h d)).flatten
  | [] => by
    rw [popLinesAll, callsOfMessagesForDescriptor]
    rfl
  | M :: rest => by
    rw [popLinesAll, callsOfMessagesForDescriptor, List.map_append, List.flatten_append,
      ← popLinesAll_calls h d rest]
    simp only [if_true]
    rw [← popLines_calls h d M]

end

theorem passBlock_declaration (h : Header) (d : Nat) (file : FileDescriptor) :
    passBlock h d file false = declarationBlock d file := by
  unfold passBlock declarationBlock
  rw [callsOfEnumsForFileDescriptor_eq, callsOfMessagesForFileDescriptor_eq,
    ← declLinesAll_calls, List.map_map]
  simp only [Bool.false_eq_true, if_false]
  rw [← RubyGenerator.flatten_map_single (enumClassLine d)]
  rfl

theorem passBlock_population (h : Header) (d : Nat) (file : FileDescriptor) :
    passBlock h d file true = populationBlock h d file := by
  unfold passBlock populationBlock
  rw [callsOfEnumsForFileDescriptor_eq, callsOfMessagesForFileDescriptor_eq,
    ← popLinesAll_calls, List.map_map]
  simp only [if_true]
  rfl

/-- The statements of the population pass in `Generate`, from the start of a line. -/
theorem populationPass_eq (h : Header) (file : FileDescriptor) (g : RubyGenerator)
    (hg : g.printer_.Ready) :
    RubyGenerator.PrintNewLine
        (RubyGenerator.PrintMessagesForFileDescriptor h file true
          (RubyGenerator.PrintNewLine
            (RubyGenerator.PrintEnumsForFileDescriptor h file true g))) =
      g.wrote (renderFile (populationBlock h g.printer_.indent_ file)) := by
  have r1 := RubyGenerator.wrote_ready g hg
  rw [RubyGenerator.PrintEnumsForFileDescriptor_values h file g hg,
    RubyGenerator.PrintNewLine_eq _ (r1 _), RubyGenerator.wrote_wrote,
    RubyGenerator.PrintMessagesForFileDescriptor_fields h file _ (r1 _),
    RubyGenerator.wrote_wrote, RubyGenerator.PrintNewLine_eq _ (r1 _),
    RubyGenerator.wrote_wrote]
  simp only [RubyGenerator.wrote_indent]
  congr 1
  simp only [populationBlock, renderFile_append, RubyGenerator.renderFile_cons,
    RubyGenerator.renderFile_nil, RubyGenerator.blankLine_render, String.append_assoc,
    String.append_empty]

/-- C19: the messages that the declaration pass visits with `PrintMessageClass` and
those that the population pass visits with `PrintMessageFields` are, in the same
order, the messages of the file at any depth, depth first; the enums that the one
visits with `PrintEnumClass` and the other with `PrintEnumValues` are, in the same
order, the enums of the file followed by those of these messages.  No message and no
enum is left out by either pass, whatever it holds.  From the start of a line each
pass writes the lines of its calls, in the order of the calls. -/
theorem passes_visit_alike (h : Header) (file : FileDescriptor) :
    (passCalls file false).filterMap PassCall.message = file.allMessages ∧
    (passCalls file true).filterMap PassCall.message = file.allMessages ∧
    (passCalls file false).filterMap PassCall.enum = file.allEnums ∧
    (passCalls file true).filterMap PassCall.enum = file.allEnums ∧
    (∀ g : RubyGenerator, g.printer_.Ready →
      RubyGenerator.PrintNewLine
          (RubyGenerator.PrintMessagesForFileDescriptor h file false
            (RubyGenerator.PrintNewLine
              (RubyGenerator.PrintEnumsForFileDescriptor h file false g))) =
        g.wrote (renderFile (passBlock h g.printer_.indent_ file false))) ∧
    (∀ g : RubyGenerator, g.printer_.Ready →
      RubyGenerator.PrintNewLine
          (RubyGenerator.PrintMessagesForFileDescriptor h file true
            (RubyGenerator.PrintNewLine
              (RubyGenerator.PrintEnumsForFileDescriptor h file true g))) =
        g.wrote (renderFile (passBlock h g.printer_.indent_ file true))) := by
  have hm : ∀ p : Bool, (passCalls file p).filterMap PassCall.message = file.allMessages := by
    intro p
    unfold passCalls
    rw [List.filterMap_append, callsOfEnumsForFileDescriptor_eq, enumLoop_message,
      callsOfMessagesForFileDescriptor_eq, callsOfMessagesForDescriptor_message]
    rfl
  have he : ∀ p : Bool, (passCalls file p).filterMap PassCall.enum = file.allEnums := by
    intro p
    unfold passCalls
    rw [List.filterMap_append, callsOfEnumsForFileDescriptor_eq, enumLoop_enum,
      callsOfMessagesForFileDescriptor_eq, callsOfMessagesForDescriptor_enum]
    rfl
  refine ⟨hm false, hm true, he false, he true, fun g hg => ?_, fun g hg => ?_⟩
  · rw [passBlock_declaration]
    exact declarationPass_eq h file g hg
  · rw [passBlock_population]
    exact populationPass_eq h file g hg

/-- Witness of C19: the file with the enum `Unit` and the message `Order`, which holds
the enum `State` and the message `Item`. -/
theorem passes_visit_alike_witness :
    freshGenerator.printer_.Ready ∧
    ((passCalls nestedFile false).filterMap PassCall.message).map Descriptor.name =
      ["Order", "Item"] ∧
    ((passCalls nestedFile true).filterMap PassCall.message).map Descriptor.name =
      ["Order", "Item"] ∧
    ((passCalls nestedFile false).filterMap PassCall.enum).map EnumDescriptor.name =
      ["Unit", "State"] ∧
    ((passCalls nestedFile true).filterMap PassCall.enum).map EnumDescriptor.name =
      ["Unit", "State"] ∧
    (RubyGenerator.PrintNewLine
        (RubyGenerator.PrintMessagesForFileDescriptor (sampleHeader true) nestedFile true
          (RubyGenerator.PrintNewLine
            (RubyGenerator.PrintEnumsForFileDescriptor (sampleHeader true) nestedFile true
              freshGenerator)))).printer_.out =
      "##\n# Enum Values\n#\n::Shop::Unit.define :KG, 1\n\n\n##\n# Message Fields\n#\n::Shop::Order.extensions 100...200\n::Shop::Order.optional(::Protobuf::Field::Int32Field, :count, 2, :default => 7, :deprecated => true)\n\n::Shop::Order::State.define :OPEN, 0\n\n::Shop::Order::Item.repeated(::Protobuf::Field::StringField, :tags, 5)\n\n\n" := by
  have w := passes_visit_alike (sampleHeader true) nestedFile
  refine ⟨⟨rfl, rfl, rfl⟩, ?_, ?_, ?_, ?_, ?_⟩
  · rw [w.1]
    rfl
  · rw [w.2.1]
    rfl
  · rw [w.2.2.1]
    rfl
  · rw [w.2.2.2.1]
    rfl
  · rw [w.2.2.2.2.2 freshGenerator ⟨rfl, rfl, rfl⟩]
    decide

/-! ## Independence from the state of the generator -/

/-- C20: what `Generate` returns for a file, a context and an error string is the same
whatever members the generator holds when it is called, those that an earlier call
left included, and whatever the parameter: the members after the call, the text
written among them, the returned bool and the error string.  After the call the
generator holds the file, the name of the generated file, and in the namespace vector
the segments of the package of the file and nothing else. -/
theorem generate_ignores_earlier_state (h : Header) (g g0 : RubyGenerator)
    (file earlier : FileDescriptor) (parameter parameter0 : String)
    (context context0 : GeneratorContext) (error error0 : String) :
    RubyGenerator.Generate h g file parameter context error =
      RubyGenerator.Generate h g0 file parameter0 context error ∧
    RubyGenerator.Generate h
        (RubyGenerator.Generate h g0 earlier parameter0 context0 error0).1 file parameter
        context error =
      RubyGenerator.Generate h g0 file parameter context error ∧
    (RubyGenerator.Generate h g file parameter context error).1.file_ = file ∧
    (RubyGenerator.Generate h g file parameter context error).1.filename =
      h.CreateRubyFileName file.name false ∧
    (RubyGenerator.Generate h g file parameter context error).1.ns_vector =
      SplitStringUsing file.package '.' := by
  have m := RubyGenerator.Generate_moved h g file parameter context error
  refine ⟨?_, ?_, m.1, m.2.1, m.2.2.1⟩
  · rw [RubyGenerator.Generate_unfold, RubyGenerator.Generate_unfold]
  · rw [RubyGenerator.Generate_unfold h _ file, RubyGenerator.Generate_unfold h g0 file]

end Ruby
